import Mathlib

/-!
Verification of the pathway hierarchy graph engine.

This file gives a shallow embedding, in Lean 4, of the pathway-hierarchy
code of the repository (`scripts/pathway_v2/step6_utils.py`,
`step6_reorganize_pathways.py`, `step7_checks.py`, `step7_repairs.py` and
`scripts/pathway_hierarchy/dag_models.py`) and proves or refutes the
specification claims about it.

Conventions of the embedding:
* Python dicts that are used as ordered association containers are
  embedded as `List (key × value)` in insertion order; `dict.get(k, d)`
  is `(List.lookup k).getD d`.
* SQLAlchemy tables are lists of records in row order; `query.all()`
  returns the list, `filter_by(..).first()` is `List.find?`,
  `query.get(id)` is lookup by the `id` field.
* The LLM ("classification oracle") and the `difflib` similarity ratio
  are external inputs; they are passed in explicitly as functions.
  An oracle call that raises an exception is modelled by the oracle
  returning `none`.
* Loops whose termination depends on visited-set bookkeeping are written
  with an explicit fuel parameter; the top-level entry points supply a
  fuel that is provably sufficient, so the embedded functions compute
  the same results as the Python loops.
-/

/-! ### Parent graph (`step6_utils.py`)

`build_parent_graph` produces `child_id -> [parent_ids]`; here a graph is
an association list from a child id to the list of its parent ids. -/

abbrev ParentGraph := List (Nat × List Nat)

/-- `parent_graph.get(x, [])` -/
def parentsOf (g : ParentGraph) (x : Nat) : List Nat :=
  (g.lookup x).getD []

/-- Total length of all parent lists in the graph (used only as fuel). -/
def totalParentLen (g : ParentGraph) : Nat :=
  (g.map (fun kv => kv.2.length)).sum

/-- Work loop of `get_all_ancestors`: a queue-based upward BFS with a
`visited` accumulator (`ancestors` in the Python).  One unit of fuel is
one iteration of the `while queue:` loop. -/
def gaaFuel (g : ParentGraph) : Nat → List Nat → List Nat → List Nat
  | 0, _, anc => anc
  | _ + 1, [], anc => anc
  | fuel + 1, x :: q, anc =>
      if x ∈ anc then gaaFuel g fuel q anc
      else gaaFuel g fuel (q ++ parentsOf g x) (anc ++ [x])

/-- `get_all_ancestors(pathway_id, parent_graph)`: all ancestors of a
pathway (transitive closure upward).  The fuel bounds the number of
queue pops, which is at most the initial queue length plus the total
size of all parent lists. -/
def get_all_ancestors (pathway_id : Nat) (g : ParentGraph) : List Nat :=
  gaaFuel g ((parentsOf g pathway_id).length + totalParentLen g + 1)
    (parentsOf g pathway_id) []

/-- `would_create_cycle(child_id, proposed_parent_id, parent_graph)`. -/
def would_create_cycle (child_id proposed_parent_id : Nat)
    (g : ParentGraph) : Bool :=
  if child_id = proposed_parent_id then true
  else child_id ∈ get_all_ancestors proposed_parent_id g

/-! #### Specification-side reachability

The claim about `would_create_cycle` speaks of the transitive closure of
the parent relation; this is the mathematical relation the BFS is
compared against. -/

/-- One upward step: `b` is a direct parent of `a`. -/
def StepUp (g : ParentGraph) (a b : Nat) : Prop := b ∈ parentsOf g a

/-- `a` is an ancestor of `x`: reachable from `x` by one or more upward
steps through the parent graph. -/
def UpReach (g : ParentGraph) (x a : Nat) : Prop :=
  ∃ b ∈ parentsOf g x, Relation.ReflTransGen (StepUp g) b a

/-! #### BFS termination measure -/

/-- Keys of the graph, as a finset. -/
def keyFinset (g : ParentGraph) : Finset Nat :=
  (g.map Prod.fst).toFinset

/-- Remaining-work measure for `gaaFuel`: queue length plus the sizes of
the parent lists of all keys not yet visited.  Every loop iteration
decreases it by exactly one. -/
def gaaMeasure (g : ParentGraph) (q anc : List Nat) : Nat :=
  q.length +
    ∑ k ∈ (keyFinset g).filter (fun k => k ∉ anc), (parentsOf g k).length


/-! ### Cycle detection (`step6_utils.py`)

`detect_cycle_from_node` is a DFS with `visited`, `rec_stack` and `path`
bookkeeping.  The recursive `dfs` and its loop over the parents of the
current node are embedded as one fuel-indexed function: `Sum.inl node`
is a call `dfs(node)`, `Sum.inr parents` is the remainder of the
`for parent in parent_graph.get(node, [])` loop. -/

structure DfsState where
  visited : List Nat
  recStack : List Nat
  path : List Nat
deriving Repr, DecidableEq

def dfsGo (g : ParentGraph) :
    Nat → Sum Nat (List Nat) → DfsState → Option (List Nat) × DfsState
  | 0, _, st => (none, st)
  | fuel + 1, Sum.inl node, st₀ =>
      -- visited.add(node); rec_stack.add(node); path.append(node)
      let st : DfsState :=
        ⟨st₀.visited ++ [node], st₀.recStack ++ [node], st₀.path ++ [node]⟩
      match dfsGo g fuel (Sum.inr (parentsOf g node)) st with
      | (some c, st') => (some c, st')
      | (none, st') =>
          -- path.pop(); rec_stack.remove(node)
          (none, ⟨st'.visited, st'.recStack.erase node, st'.path.dropLast⟩)
  | _ + 1, Sum.inr [], st => (none, st)
  | fuel + 1, Sum.inr (p :: ps), st =>
      if p ∈ st.recStack then
        -- cycle found: path[path.index(parent):] + [parent]
        (some (st.path.drop (st.path.indexOf p) ++ [p]), st)
      else if p ∈ st.visited then dfsGo g fuel (Sum.inr ps) st
      else
        match dfsGo g fuel (Sum.inl p) st with
        | (some c, st') => (some c, st')
        | (none, st') => dfsGo g fuel (Sum.inr ps) st'

/-- All node ids occurring in the graph (keys first, then parent lists),
in first-encounter order (the Python iterates a `set`; only the set of
produced cycles, not their order, matters to the claims below). -/
def allNodes (g : ParentGraph) : List Nat :=
  ((g.map Prod.fst) ++ (g.map Prod.snd).flatten).dedup

/-- Generous fuel for the DFS: every call consumes one unit, and the
visit count is bounded by the node count while each visit scans one
parent list. -/
def dfsFuel (g : ParentGraph) : Nat :=
  ((allNodes g).length + 1) * (totalParentLen g + 2)

/-- `detect_cycle_from_node(start_node, parent_graph)`. -/
def detect_cycle_from_node (start_node : Nat) (g : ParentGraph) :
    Option (List Nat) :=
  (dfsGo g (dfsFuel g) (Sum.inl start_node) ⟨[], [], []⟩).1

/-- Cycle normalisation inside `find_all_cycles`:
`min_idx = cycle.index(min(cycle[:-1]))`;
`cycle[min_idx:-1] + cycle[:min_idx] + [cycle[min_idx]]`. -/
def normalizeCycle (cycle : List Nat) : List Nat :=
  match cycle.dropLast.min? with
  | none => cycle
  | some m =>
      let minIdx := cycle.indexOf m
      cycle.dropLast.drop minIdx ++ cycle.take minIdx ++ [cycle.getD minIdx 0]

/-- `find_all_cycles(parent_graph)`. -/
def find_all_cycles (g : ParentGraph) : List (List Nat) :=
  (allNodes g).foldl
    (fun (acc : List Nat × List (List Nat)) node =>
      let (visited, cycles) := acc
      if node ∈ visited then acc
      else
        let cycles' :=
          match detect_cycle_from_node node g with
          | none => cycles
          | some cycle =>
              let normalized := normalizeCycle cycle
              if normalized ∈ cycles then cycles else cycles ++ [normalized]
        (visited ++ [node], cycles'))
    ([], []) |>.2

/-- `detect_multi_parent_nodes(parent_graph)`: the sub-dict of nodes
with more than one parent. -/
def detect_multi_parent_nodes (g : ParentGraph) : List (Nat × List Nat) :=
  g.filter (fun kv => 1 < kv.2.length)

/-! ### Pathway rows and hierarchy levels (`models.py`, `step6_utils.py`) -/

/-- A row of the `pathways` table (the columns the engine reads). -/
structure Pathway where
  id : Nat
  name : String
  hierarchy_level : Int
  is_leaf : Bool
  usage_count : Nat
  ancestor_ids : List Nat
  ai_generated : Bool
deriving Repr, DecidableEq

/-- `STRICT_ROOTS` (a `frozenset` in the source; listed in source
order). -/
def STRICT_ROOTS : List String :=
  ["Proteostasis", "Metabolism & Bioenergetics", "Membrane & Transport",
   "Genome Maintenance", "Gene Expression", "Signal Transduction",
   "Cytoskeletal Dynamics"]

/-- `LEGITIMATE_LEVEL1` (source order). -/
def LEGITIMATE_LEVEL1 : List String :=
  ["Apoptosis", "Autophagy", "Necroptosis", "Ferroptosis",
   "MAPK Signaling", "PI3K/Akt Signaling", "Wnt Signaling",
   "Notch Signaling", "Glycolysis", "Oxidative Phosphorylation",
   "Mitosis", "Meiosis"]

/-- Assignment `d[k] = v` on an insertion-ordered dict. -/
def setAssoc (d : List (Nat × Int)) (k : Nat) (v : Int) : List (Nat × Int) :=
  match d with
  | [] => [(k, v)]
  | (k', v') :: t => if k' = k then (k', v) :: t else (k', v') :: setAssoc t k v

/-- The `child_graph` built inside `calculate_hierarchy_levels`:
`for child_id, parents in parent_graph.items(): for parent_id in parents:
child_graph[parent_id].append(child_id)`. -/
def dictAppend (d : List (Nat × List Nat)) (k v : Nat) :
    List (Nat × List Nat) :=
  match d with
  | [] => [(k, [v])]
  | (k', l) :: t => if k' = k then (k', l ++ [v]) :: t else (k', l) :: dictAppend t k v

def buildChildGraph (g : ParentGraph) : ParentGraph :=
  g.foldl (fun cg kv => kv.2.foldl (fun cg' p => dictAppend cg' p kv.1) cg) []

/-- Body of the `for child_id in child_graph.get(current_id, []):`
loop of `calculate_hierarchy_levels`. -/
def bfsChildStep (curLevel : Int) (acc : List (Nat × Int) × List Nat)
    (child : Nat) : List (Nat × Int) × List Nat :=
  if acc.1.lookup child = some (-1) then
    (setAssoc acc.1 child (curLevel + 1), acc.2 ++ [child])
  else acc

/-- The `while queue:` loop of `calculate_hierarchy_levels`.  A child id
absent from the `levels` dict would raise `KeyError` in Python (a state
where the link table points outside the pathway table); the embedding
skips it, which agrees with Python on every state the theorems below
quantify over. -/
def bfsLevels (cg : ParentGraph) :
    Nat → List Nat → List (Nat × Int) → List (Nat × Int)
  | 0, _, levels => levels
  | _ + 1, [], levels => levels
  | fuel + 1, cur :: queue, levels =>
      match levels.lookup cur with
      | none => bfsLevels cg fuel queue levels
      | some curLevel =>
          let step := (parentsOf cg cur).foldl (bfsChildStep curLevel)
            (levels, queue)
          bfsLevels cg fuel step.2 step.1

/-- `calculate_hierarchy_levels(Pathway, parent_graph)`: BFS levels from
the strict roots; `-1` for pathways the BFS never reaches. -/
def calculate_hierarchy_levels (pathways : List Pathway) (g : ParentGraph) :
    List (Nat × Int) :=
  let init : List (Nat × Int) := pathways.map (fun p => (p.id, (-1 : Int)))
  let roots := pathways.filter (fun p => p.name ∈ STRICT_ROOTS)
  let levels := roots.foldl (fun ls r => setAssoc ls r.id 0) init
  let queue := roots.map (fun r => r.id)
  bfsLevels (buildChildGraph g) (2 * pathways.length + 1) queue levels

/-- `find_orphan_pathways(levels)`. -/
def find_orphan_pathways (levels : List (Nat × Int)) : List Nat :=
  (levels.filter (fun kv => kv.2 = -1)).map Prod.fst

/-! ### Persisted tables (`models.py`)

Rows carry the columns the engine reads.  `ON DELETE CASCADE` on the
link tables' foreign keys never fires in the states the theorems below
quantify over (the code always removes or retargets referencing rows
before deleting a pathway), so it is not modelled. -/

/-- A row of `pathway_parents`. -/
structure PPLink where
  id : Nat
  child_pathway_id : Nat
  parent_pathway_id : Nat
deriving Repr, DecidableEq

/-- A row of `pathway_interactions`. -/
structure PILink where
  id : Nat
  pathway_id : Nat
  interaction_id : Nat
  assignment_method : String
deriving Repr, DecidableEq

/-- The `_step6_checkpoint` JSON blob (its wall-clock `timestamp` string
comes from the environment and carries no information the claims
mention, so it is omitted). -/
structure Checkpoint where
  phase : Nat
  status : String
  change_count : Nat
deriving Repr, DecidableEq

/-- The keys of `interaction.data` that the engine reads or writes. -/
structure InteractionData where
  step2_proposal : Option String := none
  step3_finalized_pathway : Option String := none
  step6_checkpoint : Option Checkpoint := none
  step6_reassigned : Bool := false
  step6_pathway : Option String := none
  step6_source : Option String := none
  step7_repaired : Bool := false
  step7_pathway : Option String := none
deriving Repr, DecidableEq

/-- A row of `interactions` (only `id` and `data` are read here). -/
structure Interaction where
  id : Nat
  data : Option InteractionData
deriving Repr, DecidableEq

/-- The persisted state: the four tables plus the autoincrement
counters for rows the engine creates. -/
structure DB where
  pathways : List Pathway
  parentLinks : List PPLink
  pathwayInteractions : List PILink
  interactions : List Interaction
  nextPathwayId : Nat
  nextLinkId : Nat
  nextPIId : Nat
deriving Repr, DecidableEq

/-- `Pathway.query.get(i)`. -/
def getPathway (db : DB) (i : Nat) : Option Pathway :=
  db.pathways.find? (fun p => p.id == i)

/-- `Pathway.query.filter_by(name=n).first()`. -/
def pathwayByName (db : DB) (n : String) : Option Pathway :=
  db.pathways.find? (fun p => p.name == n)

/-- `build_parent_graph(PathwayParent)`: `child_id -> [parent_ids]`. -/
def build_parent_graph (links : List PPLink) : ParentGraph :=
  links.foldl (fun g l => dictAppend g l.child_pathway_id l.parent_pathway_id) []

/-- `build_child_graph(PathwayParent)`: `parent_id -> [child_ids]`. -/
def build_child_graph (links : List PPLink) : ParentGraph :=
  links.foldl (fun g l => dictAppend g l.parent_pathway_id l.child_pathway_id) []

/-! ### Smart rescue (`step6_utils.py`) -/

/-- `ROOT_KEYWORDS` (insertion order of the source dict). -/
def ROOT_KEYWORDS : List (String × List String) :=
  [("Proteostasis",
    ["protein fold", "ubiquitin", "proteasome", "autophagy", "chaperone",
     "aggregate", "erad", "misfolded", "degradation", "hsp", "heat shock",
     "deubiquit", "aggresome", "lysosom", "quality control", "proteostasis",
     "proteotoxic", "unfolded", "upr", "aggrephagy"]),
   ("Metabolism & Bioenergetics",
    ["metabol", "glycol", "oxidat", "mitochond", "atp", "energy",
     "krebs", "tca", "fatty acid", "lipid", "glucose", "insulin",
     "ampk", "mtor", "nutrient", "biosynthesis", "bioenergetics",
     "respiration", "phosphorylation", "amino acid"]),
   ("Membrane & Transport",
    ["vesicle", "exocyt", "endocyt", "traffic", "secretion", "golgi",
     "er-golgi", "snare", "rab", "clathrin", "copi", "copii", "membrane fusion",
     "ion transport", "membrane dynamics", "er transport", "lysosomal transport"]),
   ("Genome Maintenance",
    ["dna repair", "replication", "chromatin", "histone", "nucleosome",
     "homologous recombination", "nhej", "base excision", "nucleotide excision",
     "telomere", "dna damage", "genome stability", "dna integrity",
     "double-strand break", "single-strand break"]),
   ("Gene Expression",
    ["transcription", "translation", "rna processing", "splicing", "mrna",
     "ribosome", "polymerase", "promoter", "enhancer", "epigenetic",
     "gene regulation", "mrna stability", "rna polymerase", "transcription factor",
     "trna", "rrna"]),
   ("Signal Transduction",
    ["signal", "kinase", "phosphat", "receptor", "mapk", "erk", "akt",
     "pi3k", "wnt", "notch", "hedgehog", "hippo", "jak", "stat",
     "nfkb", "tgf", "egf", "vegf", "transduction", "cascade",
     "apoptotic signaling", "cell cycle checkpoint", "immune signaling",
     "neuronal signaling"]),
   ("Cytoskeletal Dynamics",
    ["actin", "tubulin", "cytoskelet", "microtubule", "motor", "dynein",
     "kinesin", "myosin", "intermediate filament", "cell shape", "motil",
     "migration", "focal adhesion", "lamellipod", "cytoskeletal dynamics",
     "cell adhesion"])]

/-- Python `str.lower()` (character-wise; kernel-computable, unlike
`String.toLower`'s byte-position loop). -/
def strToLower (s : String) : String := ⟨s.data.map Char.toLower⟩

/-- Contiguous-sublist test used to model Python's `in` on strings. -/
def charsInfixOf (needle : List Char) : List Char → Bool
  | [] => needle.isEmpty
  | c :: cs => needle.isPrefixOf (c :: cs) || charsInfixOf needle cs

/-- Python `needle in hay` on strings (substring test). -/
def strContainsSub (hay needle : String) : Bool :=
  charsInfixOf needle.data hay.data

/-- Worker for `strSplitOn` (fuel-indexed; fuel is the remaining input
length, which strictly drops at every step). -/
def splitOnAuxF (sep : List Char) : Nat → List Char → List Char →
    List (List Char)
  | _, [], acc => [acc.reverse]
  | 0, rest, acc => [acc.reverse ++ rest]
  | f + 1, c :: cs, acc =>
      if ¬ sep.isEmpty ∧ sep.isPrefixOf (c :: cs) then
        acc.reverse :: splitOnAuxF sep f ((c :: cs).drop sep.length) []
      else splitOnAuxF sep f cs (c :: acc)

/-- Python `s.split(sep)` for a nonempty separator (kernel-computable,
unlike `String.splitOn`'s byte-position loop). -/
def strSplitOn (s sep : String) : List String :=
  (splitOnAuxF sep.data (s.data.length + 1) s.data []).map (fun l => ⟨l⟩)

/-- `_keyword_rescue_match(pathway_name)`: highest-scoring root by
keyword hits, `none` when no keyword scores above zero. -/
def keyword_rescue_match (pathway_name : String) : Option String :=
  let pathway_lower := strToLower pathway_name
  (ROOT_KEYWORDS.foldl
    (fun (acc : Option String × Nat) rk =>
      let score := (rk.2.filter (fun kw => strContainsSub pathway_lower kw)).length
      if acc.2 < score then (some rk.1, score) else acc)
    (none, 0)).1

/-- The `for strict_root in STRICT_ROOTS` loop of
`get_smart_rescue_parent`: first strict root that sub/superstring-matches
the oracle answer *and* exists in the pathway table. -/
def firstRootMatch : List String → String → List Pathway → Option Pathway
  | [], _, _ => none
  | r :: rs, root_name_lower, pws =>
      if strContainsSub root_name_lower (strToLower r) ||
         strContainsSub (strToLower r) root_name_lower then
        match pws.find? (fun p => p.name == r) with
        | some f => some f
        | none => firstRootMatch rs root_name_lower pws
      else firstRootMatch rs root_name_lower pws

/-- The fallback part of `get_smart_rescue_parent`: keyword-based
matching (Fallback 1), then the default `Protein Quality Control` row
(Fallback 2). -/
def rescueFallback (pathway_name : String) (pws : List Pathway) :
    Option Pathway :=
  match keyword_rescue_match pathway_name with
  | some keyword_match =>
      match pws.find? (fun p => p.name == keyword_match) with
      | some found => some found
      | none => pws.find? (fun p => p.name == "Protein Quality Control")
  | none => pws.find? (fun p => p.name == "Protein Quality Control")

/-- `get_smart_rescue_parent(pathway_name, Pathway)`.

`resp` is the root name extracted from the LLM response by the
response-parsing block (dict-key probing / `strip()`); a raised
exception, an unusable response shape or a missing cache entry are all
`none`.  Python's `if root_name:` makes the empty string behave like
`none`. -/
def get_smart_rescue_parent (pathway_name : String) (pws : List Pathway)
    (resp : Option String) : Option Pathway :=
  let fromLLM : Option Pathway :=
    match resp with
    | none => none
    | some root_name =>
        if root_name.isEmpty then none
        else firstRootMatch STRICT_ROOTS (strToLower root_name) pws
  match fromLLM with
  | some found => some found
  | none => rescueFallback pathway_name pws

/-! ### Migration plans (`step6_utils.py`) -/

structure MigrationPlan where
  source_pathway_id : Nat
  target_pathway_id : Nat
  children_to_reparent : List Nat
  interactions_to_reassign : List Nat
  parent_links_to_transfer : List Nat
deriving Repr, DecidableEq

/-- `build_merge_migration_plan(source_id, target_id, ...)`. -/
def build_merge_migration_plan (source_id target_id : Nat)
    (links : List PPLink) (pis : List PILink) : MigrationPlan :=
  { source_pathway_id := source_id
    target_pathway_id := target_id
    children_to_reparent :=
      (links.filter (fun l => l.parent_pathway_id == source_id)).map
        (fun l => l.child_pathway_id)
    interactions_to_reassign :=
      (pis.filter (fun pi => pi.pathway_id == source_id)).map
        (fun pi => pi.interaction_id)
    parent_links_to_transfer :=
      (links.filter (fun l => l.child_pathway_id == source_id)).map
        (fun l => l.parent_pathway_id) }

/-- One iteration of the `# Reparent children` loop. -/
def reparentChildStep (source_id target_id : Nat) (links : List PPLink)
    (child_id : Nat) : List PPLink :=
  match links.find? (fun l => l.child_pathway_id == child_id &&
      l.parent_pathway_id == source_id) with
  | none => links
  | some link =>
      match links.find? (fun l => l.child_pathway_id == child_id &&
          l.parent_pathway_id == target_id) with
      | some _ => links.filter (fun l => l.id ≠ link.id)      -- drop duplicate
      | none => links.map (fun l =>
          if l.id = link.id then { l with parent_pathway_id := target_id } else l)

/-- One iteration of the `# Reassign interactions` loop. -/
def reassignInteractionStep (source_id target_id : Nat) (pis : List PILink)
    (interaction_id : Nat) : List PILink :=
  match pis.find? (fun pi => pi.pathway_id == source_id &&
      pi.interaction_id == interaction_id) with
  | none => pis
  | some pi =>
      match pis.find? (fun q => q.pathway_id == target_id &&
          q.interaction_id == interaction_id) with
      | some _ => pis.filter (fun q => q.id ≠ pi.id)          -- drop duplicate
      | none => pis.map (fun q =>
          if q.id = pi.id then { q with pathway_id := target_id } else q)

/-- First half of one `# Transfer parent links` iteration: delete the
source's link to `parent_id` when present. -/
def transferDrop (source_id parent_id : Nat) (links : List PPLink) :
    List PPLink :=
  match links.find? (fun l => l.child_pathway_id == source_id &&
      l.parent_pathway_id == parent_id) with
  | none => links
  | some source_link => links.filter (fun l => l.id ≠ source_link.id)

/-- Second half of one `# Transfer parent links` iteration: add the
link `target → parent_id` unless it exists or would self-reference;
threads the autoincrement counter for created rows. -/
def transferAdd (target_id parent_id : Nat) (st : List PPLink × Nat) :
    List PPLink × Nat :=
  match st.1.find? (fun l => l.child_pathway_id == target_id &&
      l.parent_pathway_id == parent_id) with
  | some _ => st
  | none =>
      if parent_id ≠ target_id then
        (st.1 ++ [⟨st.2, target_id, parent_id⟩], st.2 + 1)
      else st

/-- One iteration of the `# Transfer parent links` loop. -/
def transferParentStep (source_id target_id : Nat)
    (st : List PPLink × Nat) (parent_id : Nat) : List PPLink × Nat :=
  transferAdd target_id parent_id
    (transferDrop source_id parent_id st.1, st.2)

/-- The successful session run of `execute_migration_plan`: the three
loops, the source deletion and the commit. -/
def executeMigrationBody (plan : MigrationPlan) (db : DB) : DB :=
  let links1 := plan.children_to_reparent.foldl
    (reparentChildStep plan.source_pathway_id plan.target_pathway_id)
    db.parentLinks
  let pis1 := plan.interactions_to_reassign.foldl
    (reassignInteractionStep plan.source_pathway_id plan.target_pathway_id)
    db.pathwayInteractions
  let linksNext := plan.parent_links_to_transfer.foldl
    (transferParentStep plan.source_pathway_id plan.target_pathway_id)
    (links1, db.nextLinkId)
  { db with
      pathways := db.pathways.eraseP (fun p => p.id == plan.source_pathway_id)
      parentLinks := linksNext.1
      pathwayInteractions := pis1
      nextLinkId := linksNext.2 }

/-- `execute_migration_plan(plan, ...)`.

All session mutations happen between the two existence checks and the
single `db.session.commit()` at the end; an exception anywhere in
between triggers `db.session.rollback()`, so the *persisted* state
after a failure is the input state regardless of where the exception
was raised.  `failAfter = some k` injects an exception after `k` of the
loop iterations / final actions have run in the session (`k` larger
than the total step count means no exception). -/
def execute_migration_plan (plan : MigrationPlan) (db : DB)
    (failAfter : Option Nat) : Bool × List String × DB :=
  match getPathway db plan.target_pathway_id with
  | none => (false, ["Target pathway " ++ toString plan.target_pathway_id ++
      " not found"], db)
  | some _ =>
  match getPathway db plan.source_pathway_id with
  | none => (false, ["Source pathway " ++ toString plan.source_pathway_id ++
      " not found"], db)
  | some _ =>
      let totalSteps := plan.children_to_reparent.length +
        plan.interactions_to_reassign.length +
        plan.parent_links_to_transfer.length + 2
      match failAfter with
      | some k =>
          if k < totalSteps then
            -- exception mid-plan: session rollback, nothing persisted
            (false, ["Migration failed: exception"], db)
          else
            (true, [], executeMigrationBody plan db)
      | none => (true, [], executeMigrationBody plan db)

/-- A whole merge of `source` into `target` as the dedup phase runs it:
plan built from the current tables, then executed. -/
def mergeRun (source target : Nat) (db : DB) (failAfter : Option Nat) :
    Bool × List String × DB :=
  execute_migration_plan
    (build_merge_migration_plan source target db.parentLinks
      db.pathwayInteractions) db failAfter


/-! ### Phase plumbing (`step6_utils.py`, `step6_reorganize_pathways.py`) -/

inductive ChangeType where
  | MERGE | REPARENT | CREATE | DELETE | REASSIGN_INTERACTION | UPDATE_LEVEL
deriving Repr, DecidableEq

/-- A `Change` record.  `old_value`/`new_value` are untyped in Python
(`Any`); the engine only ever stores `None`, a string, or a list of
strings there, encoded here as a possibly-empty list of strings. -/
structure Change where
  change_type : ChangeType
  entity_type : String
  entity_id : Nat
  old_value : List String
  new_value : List String
  reason : String
deriving Repr, DecidableEq

structure PhaseResult where
  phase_name : String
  success : Bool
  changes : List Change := []
  errors : List String := []
  warnings : List String := []
deriving Repr, DecidableEq

def PhaseResult.add_change (r : PhaseResult) (c : Change) : PhaseResult :=
  { r with changes := r.changes ++ [c] }

def PhaseResult.add_error (r : PhaseResult) (msg : String) : PhaseResult :=
  { r with errors := r.errors ++ [msg] }

def PhaseResult.add_warning (r : PhaseResult) (msg : String) : PhaseResult :=
  { r with warnings := r.warnings ++ [msg] }

/-- One `merges` entry of a deduplication LLM response. -/
structure MergeItem where
  action : Option String := none
  name_a : Option String := none
  name_b : Option String := none
  canonical_name : Option String := none
deriving Repr, DecidableEq

/-- The external inputs of the engine: the classification oracle
(`_call_gemini_json*`, per prompt family) and `difflib`'s
`SequenceMatcher.ratio`.  A call that raises is `none`; for
`findParent`/`shallow` the outer `Option` is the call outcome and the
inner components are the probed response keys. -/
structure Oracle where
  similarity : String → String → Rat
  mergeResp : List (String × String) → Option (List MergeItem)
  bestParent : String → List String → Option String
  findParent : String → Option (Option String)
  shallow : String → String → Option (Option String × Option String)
  rescueResp : String → Option String

/-- `chunk_list(items, size)` from `async_utils.py`. -/
def chunkListAux {α : Type} (size : Nat) : Nat → List α → List (List α)
  | 0, _ => []
  | _, [] => []
  | f + 1, xs => xs.take size :: chunkListAux size f (xs.drop size)

def chunk_list {α : Type} (xs : List α) (size : Nat) : List (List α) :=
  chunkListAux size xs.length xs

/-- Inner `for j` loop of `find_duplicate_candidates` for a fixed
`names[i]`; returns the produced pairs and the updated `used` set. -/
def fdcInner (sim : String → String → Rat) (n1 : String) :
    List String → List String → List (String × String) × List String
  | [], used => ([], used)
  | n2 :: rest, used =>
      if n2 ∈ used then fdcInner sim n1 rest used
      else
        -- get_similarity lowercases before calling SequenceMatcher
        let s := sim (strToLower n1) (strToLower n2)
        let is_contained :=
          (strContainsSub (strToLower n2) (strToLower n1) &&
            decide (n2.length < n1.length + 15)) ||
          (strContainsSub (strToLower n1) (strToLower n2) &&
            decide (n1.length < n2.length + 15))
        if (85 : Rat) / 100 < s || is_contained then
          let rec_result := fdcInner sim n1 rest (used ++ [n2])
          ((n1, n2) :: rec_result.1, rec_result.2)
        else fdcInner sim n1 rest used

/-- Outer `for i` loop of `find_duplicate_candidates`. -/
def fdcOuter (sim : String → String → Rat) :
    List String → List String → List (String × String)
  | [], _ => []
  | n1 :: rest, used =>
      if n1 ∈ used then fdcOuter sim rest used
      else
        let inner := fdcInner sim n1 rest used
        inner.1 ++ fdcOuter sim rest inner.2

/-- `find_duplicate_candidates(pathways)` (the similarity function is
`difflib`, passed in). -/
def find_duplicate_candidates (pathways : List Pathway)
    (sim : String → String → Rat) : List (String × String) :=
  fdcOuter sim ((pathways.map (fun p => p.name)).mergeSort
    (fun a b => decide (a ≤ b))) []

/-- BFS of `recalculate_all_levels`, acting directly on pathway rows.
This is the loop shared by `step6_reorganize_pathways.py` and
`step7_repairs.py` (the step-7 copy adds an `if not current: continue`
guard, which is the `none` branch here; queued ids always exist, so the
two copies compute the same result). -/
def rowChildStep (lvl : Int) (acc : List Pathway × List Nat)
    (child_id : Nat) : List Pathway × List Nat :=
  match acc.1.find? (fun p => p.id == child_id) with
  | some child =>
      if child.hierarchy_level = -1 then
        (acc.1.map (fun p =>
            if p.id = child_id then { p with hierarchy_level := lvl }
            else p),
          acc.2 ++ [child_id])
      else acc
  | none => acc

def bfsLevelRows (cg : ParentGraph) :
    Nat → List Nat → List Pathway → List Pathway
  | 0, _, rows => rows
  | _ + 1, [], rows => rows
  | fuel + 1, cur :: queue, rows =>
      match rows.find? (fun p => p.id == cur) with
      | none => bfsLevelRows cg fuel queue rows
      | some current =>
          let step := (parentsOf cg cur).foldl
            (rowChildStep (current.hierarchy_level + 1)) (rows, queue)
          bfsLevelRows cg fuel step.2 step.1

/-- `recalculate_all_levels(db, Pathway, PathwayParent)`. -/
def recalculate_all_levels (db : DB) : DB :=
  let reset := db.pathways.map (fun p => { p with hierarchy_level := (-1 : Int) })
  let child_graph := build_child_graph db.parentLinks
  let withRoots := reset.map (fun p =>
    if p.name ∈ STRICT_ROOTS then { p with hierarchy_level := (0 : Int) } else p)
  let queue := (reset.filter (fun p => p.name ∈ STRICT_ROOTS)).map (fun p => p.id)
  { db with pathways :=
      bfsLevelRows child_graph (2 * reset.length + 1) queue withRoots }

/-- `validate_no_orphan_interactions`. -/
def validate_no_orphan_interactions (db : DB) : List Nat :=
  (db.interactions.filter (fun i =>
    (db.pathwayInteractions.find? (fun pi => pi.interaction_id == i.id)).isNone)).map
    (fun i => i.id)

/-- `validate_no_dangling_pathway_links`. -/
def validate_no_dangling_pathway_links (db : DB) : List Nat :=
  (db.pathwayInteractions.filter (fun pi =>
    (getPathway db pi.pathway_id).isNone)).map (fun pi => pi.id)

/-! ### Phase 1: deduplication -/

/-- Processing of one `merges` entry of one batch response (the body of
the `for m in merges:` loop).  The migration itself runs without an
injected exception (`failAfter = none`); a failing migration surfaces
through its returned `success` flag, as in the source. -/
def phase1ProcessMerge (dry_run : Bool) (st : PhaseResult × DB)
    (m : MergeItem) : PhaseResult × DB :=
  match m.action, m.canonical_name, m.name_a, m.name_b with
  | some "MERGE", some c, some a, some b =>
      if c.isEmpty || a.isEmpty || b.isEmpty then st
      else
        let canon := c.trim
        let na := a.trim
        let nb := b.trim
        if canon.isEmpty || na.isEmpty || nb.isEmpty then st
        else
          let to_keep := canon
          let to_drop := if na ≠ canon then na else nb
          if dry_run then
            (st.1.add_change ⟨ChangeType.MERGE, "pathway", 0, [to_drop],
              [to_keep], "Duplicate names"⟩, st.2)
          else
            match pathwayByName st.2 to_keep, pathwayByName st.2 to_drop with
            | some keep_pw, some drop_pw =>
                let plan := build_merge_migration_plan drop_pw.id keep_pw.id
                  st.2.parentLinks st.2.pathwayInteractions
                let outcome := execute_migration_plan plan st.2 none
                if outcome.1 then
                  (st.1.add_change ⟨ChangeType.MERGE, "pathway", drop_pw.id,
                    [to_drop], [to_keep], "Merged duplicate"⟩, outcome.2.2)
                else
                  (st.1.add_error ("Failed to merge " ++ to_drop), outcome.2.2)
            | _, _ =>
                (st.1.add_warning ("Could not find pathways for merge: " ++
                  to_keep ++ ", " ++ to_drop), st.2)
  | _, _, _, _ => st

/-- Processing of one batch result in `phase1_deduplication`. -/
def phase1ProcessBatch (dry_run : Bool) (st : PhaseResult × DB)
    (br : List (String × String) × Option (List MergeItem)) :
    PhaseResult × DB :=
  match br.2 with
  | none => (st.1.add_warning "Batch error", st.2)
  | some merges => merges.foldl (phase1ProcessMerge dry_run) st

/-- `phase1_deduplication(db, ..., dry_run)`. -/
def phase1_deduplication (db : DB) (orc : Oracle) (dry_run : Bool) :
    PhaseResult × DB :=
  let result : PhaseResult := { phase_name := "Deduplication", success := true }
  let candidates := find_duplicate_candidates db.pathways orc.similarity
  if candidates.isEmpty then (result, db)
  else
    let batches := chunk_list candidates 3
    let batch_results := batches.map (fun bt => (bt, orc.mergeResp bt))
    let st := batch_results.foldl (phase1ProcessBatch dry_run) (result, db)
    if ¬ dry_run then
      let dangling := validate_no_dangling_pathway_links st.2
      if ¬ dangling.isEmpty then
        ({ st.1.add_error "Found dangling PathwayInteraction records after merge"
            with success := false }, st.2)
      else st
    else st

/-! ### Phase 2: tree enforcement -/

/-- One work item of the multi-parent resolution. -/
structure MPItem where
  child_id : Nat
  child_name : String
  parent_ids : List Nat
  parent_names : List String
deriving Repr, DecidableEq

/-- `fresh_graph[child_id] = [...]`: dict assignment on the graph. -/
def setGraphEntry (g : ParentGraph) (k : Nat) (v : List Nat) : ParentGraph :=
  match g with
  | [] => [(k, v)]
  | (k', l) :: t => if k' = k then (k', v) :: t else (k', l) :: setGraphEntry t k v

/-- The `for alt_name in parent_names:` retry loop of phase 2 (first
alternative whose simulated single-parent graph is cycle-free). -/
def phase2FindAlt (db : DB) (child_id : Nat) (fresh : ParentGraph)
    (selected_name : String) : List String → Option (Pathway × String)
  | [] => none
  | alt :: rest =>
      if alt ≠ selected_name then
        match pathwayByName db alt with
        | some ap =>
            if ¬ would_create_cycle child_id ap.id
                (setGraphEntry fresh child_id [ap.id]) then
              some (ap, alt)
            else phase2FindAlt db child_id fresh selected_name rest
        | none => phase2FindAlt db child_id fresh selected_name rest
      else phase2FindAlt db child_id fresh selected_name rest

/-- Body of the `# Apply results` loop of phase 2 for one resolved item. -/
def phase2ApplyItem (dry_run : Bool) (st : PhaseResult × DB)
    (itemRes : MPItem × Option String) : PhaseResult × DB :=
  let item := itemRes.1
  -- an oracle exception or an invalid/missing selection both fall back
  -- to parent_names[0] (with a warning)
  let selected₀ : Option String :=
    match itemRes.2 with
    | some s => if s ∈ item.parent_names then some s else item.parent_names.head?
    | none => item.parent_names.head?
  let result₀ :=
    match itemRes.2 with
    | some s => if s ∈ item.parent_names then st.1 else
        st.1.add_warning ("LLM returned invalid parent for " ++ item.child_name)
    | none => st.1.add_warning ("Error for " ++ item.child_name)
  match selected₀ with
  | none => (result₀, st.2)
  | some selected_name =>
      match pathwayByName st.2 selected_name with
      | none => (result₀, st.2)
      | some selected_parent =>
          let fresh₀ := build_parent_graph st.2.parentLinks
          let fresh := setGraphEntry fresh₀ item.child_id [selected_parent.id]
          let chosen : Option (Pathway × String × PhaseResult) :=
            if would_create_cycle item.child_id selected_parent.id fresh then
              match phase2FindAlt st.2 item.child_id fresh₀ selected_name
                  item.parent_names with
              | some (ap, altName) =>
                  some (ap, altName, result₀.add_warning
                    ("Selecting " ++ selected_name ++ " would create cycle"))
              | none => none
            else some (selected_parent, selected_name, result₀)
          match chosen with
          | none =>
              (result₀.add_warning
                  ("Selecting " ++ selected_name ++ " would create cycle")
                |>.add_error ("No valid parent found for " ++ item.child_name ++
                  " - all create cycles"), st.2)
          | some (parent, parentName, result₁) =>
              if dry_run then
                (result₁.add_change ⟨ChangeType.REPARENT, "pathway",
                  item.child_id, item.parent_names, [parentName],
                  "Tree enforcement"⟩, st.2)
              else
                let db' := { st.2 with parentLinks :=
                  st.2.parentLinks.filter (fun l =>
                    ¬ (l.child_pathway_id = item.child_id ∧
                       l.parent_pathway_id ≠ parent.id)) }
                (result₁.add_change ⟨ChangeType.REPARENT, "pathway",
                  item.child_id, item.parent_names, [parentName],
                  "Tree enforcement"⟩, db')

/-- `phase2_tree_enforcement(db, ..., dry_run)`. -/
def phase2_tree_enforcement (db : DB) (orc : Oracle) (dry_run : Bool) :
    PhaseResult × DB :=
  let result : PhaseResult := { phase_name := "Tree Enforcement", success := true }
  let parent_graph := build_parent_graph db.parentLinks
  let multi_parent := detect_multi_parent_nodes parent_graph
  if multi_parent.isEmpty then (result, db)
  else
    let items := multi_parent.foldr
      (fun kv acc =>
        match getPathway db kv.1 with
        | none => acc
        | some child =>
            let parents := kv.2.filterMap (getPathway db)
            if parents.length ≤ 1 then acc
            else ⟨kv.1, child.name, kv.2, parents.map (fun p => p.name)⟩ :: acc)
      ([] : List MPItem)
    let results := items.map (fun it =>
      (it, orc.bestParent it.child_name it.parent_names))
    let st := results.foldl (phase2ApplyItem dry_run) (result, db)
    let db₁ := if ¬ dry_run ∧ ¬ st.1.changes.isEmpty
      then recalculate_all_levels st.2 else st.2
    let parent_graph₂ := build_parent_graph db₁.parentLinks
    let cycles := find_all_cycles parent_graph₂
    let result₂ :=
      if ¬ cycles.isEmpty then
        { st.1.add_error "CRITICAL: cycles detected after tree enforcement"
          with success := false }
      else st.1
    let result₃ :=
      if ¬ (detect_multi_parent_nodes parent_graph₂).isEmpty then
        result₂.add_warning "pathways still have multiple parents"
      else result₂
    (result₃, db₁)

/-! ### Phase 3: hierarchy repair -/

/-- Body of the broken-link loop of phase 3, pass A.  Note that in
`dry_run` mode the source still executes `db.session.delete(link)` (and
the pass commits afterwards). -/
def phase3FixBrokenLink (orc : Oracle) (dry_run : Bool)
    (st : PhaseResult × DB) (l : PPLink) : PhaseResult × DB :=
  match getPathway st.2 l.child_pathway_id with
  | none =>
      (st.1, { st.2 with parentLinks :=
        st.2.parentLinks.filter (fun l' => l'.id ≠ l.id) })
  | some child =>
      match orc.findParent child.name with
      | none =>
          ((st.1.add_error ("Error repairing " ++ child.name)),
            { st.2 with parentLinks :=
              st.2.parentLinks.filter (fun l' => l'.id ≠ l.id) })
      | some new_parent_name? =>
          if dry_run then
            -- `[DRY RUN] FIX BROKEN`: the link is deleted even in dry-run
            (st.1, { st.2 with parentLinks :=
              st.2.parentLinks.filter (fun l' => l'.id ≠ l.id) })
          else
            let new_parent := match new_parent_name? with
              | some n => pathwayByName st.2 n
              | none => none
            match new_parent with
            | some np =>
                (st.1.add_change ⟨ChangeType.REPARENT, "pathway", child.id,
                  ["BROKEN"], [(new_parent_name?).getD ""],
                  "Broken chain repair"⟩,
                 { st.2 with parentLinks := st.2.parentLinks.map (fun l' =>
                    if l'.id = l.id then { l' with parent_pathway_id := np.id }
                    else l') })
            | none =>
                (st.1.add_warning ("Could not find parent for " ++ child.name),
                 { st.2 with parentLinks :=
                   st.2.parentLinks.filter (fun l' => l'.id ≠ l.id) })

/-- Body of the shallow-hierarchy loop of phase 3, pass B, for one
level-1 pathway row. -/
def phase3DeepenOne (orc : Oracle) (dry_run : Bool)
    (st : PhaseResult × DB × Nat) (pw : Pathway) : PhaseResult × DB × Nat :=
  let res := st.1
  let dbc := st.2.1
  let deepened := st.2.2
  if pw.name ∈ LEGITIMATE_LEVEL1 then st
  else
    match dbc.parentLinks.find? (fun l => l.child_pathway_id == pw.id) with
    | none => st
    | some parent_link =>
        match getPathway dbc parent_link.parent_pathway_id with
        | none => st
        | some root =>
            if root.name ∉ STRICT_ROOTS then st
            else
              match orc.shallow pw.name root.name with
              | none => (res.add_error ("Error deepening " ++ pw.name), dbc, deepened)
              | some (action?, new_parent?) =>
                  match new_parent? with
                  | none => st
                  | some np =>
                      if action? ≠ some "INSERT_INTERMEDIATE" then st
                      else if np = pw.name ∨ np = root.name then
                        (res.add_warning ("Invalid intermediate " ++ np), dbc, deepened)
                      else if dry_run then (res, dbc, deepened + 1)
                      else
                        match pathwayByName dbc np with
                        | some intermediate =>
                            let links' := dbc.parentLinks.map (fun l' =>
                              if l'.id = parent_link.id then
                                { l' with parent_pathway_id := intermediate.id }
                              else l')
                            let db' := { dbc with parentLinks := links' }
                            (res.add_change ⟨ChangeType.REPARENT, "pathway",
                              pw.id, [root.name], [np], "Hierarchy deepening"⟩,
                              db', deepened + 1)
                        | none =>
                            let newPw : Pathway :=
                              ⟨dbc.nextPathwayId, np, 1, false, 0, [], true⟩
                            let newLink : PPLink :=
                              ⟨dbc.nextLinkId, newPw.id, root.id⟩
                            let links' := (dbc.parentLinks.map (fun l' =>
                              if l'.id = parent_link.id then
                                { l' with parent_pathway_id := newPw.id }
                              else l')) ++ [newLink]
                            let db' := { dbc with
                              pathways := dbc.pathways ++ [newPw],
                              parentLinks := links',
                              nextPathwayId := dbc.nextPathwayId + 1,
                              nextLinkId := dbc.nextLinkId + 1 }
                            ((res.add_change ⟨ChangeType.CREATE, "pathway",
                                newPw.id, [], [np],
                                "Intermediate for hierarchy deepening"⟩).add_change
                              ⟨ChangeType.REPARENT, "pathway", pw.id,
                                [root.name], [np], "Hierarchy deepening"⟩,
                              db', deepened + 1)

/-- `phase3_hierarchy_repair(db, ..., dry_run)`. -/
def phase3_hierarchy_repair (db : DB) (orc : Oracle) (dry_run : Bool) :
    PhaseResult × DB :=
  let result : PhaseResult := { phase_name := "Hierarchy Repair", success := true }
  -- Pass A: broken chain repair
  let broken_links := db.parentLinks.filter (fun l =>
    (getPathway db l.parent_pathway_id).isNone)
  let stA := broken_links.foldl (phase3FixBrokenLink orc dry_run) (result, db)
  -- Pass B: shallow hierarchy deepening
  let db₁ := if ¬ dry_run then recalculate_all_levels stA.2 else stA.2
  let level1_pathways := db₁.pathways.filter (fun p => p.hierarchy_level = 1)
  let stB := level1_pathways.foldl (phase3DeepenOne orc dry_run)
    (stA.1, db₁, 0)
  let db₂ := if ¬ dry_run ∧ 0 < stB.2.2
    then recalculate_all_levels stB.2.1 else stB.2.1
  (stB.1, db₂)

/-! ### Phase 4: interaction sync -/

/-- Body of the orphan-interaction loop of phase 4 for one interaction
id (the fallback pathway row is passed in). -/
def phase4AssignOne (dry_run : Bool) (fallback : Pathway)
    (st : PhaseResult × DB) (int_id : Nat) : PhaseResult × DB :=
  let res := st.1
  let dbc := st.2
  match dbc.interactions.find? (fun i => i.id == int_id) with
  | none => st
  | some interaction =>
      let data := (interaction.data).getD {}
      -- Priority 1: step3_finalized_pathway (an empty string is falsy)
      let fromStep3 : Option (Pathway × String) :=
        match data.step3_finalized_pathway with
        | some pw_name =>
            if pw_name.isEmpty then none
            else match pathwayByName dbc pw_name with
              | some pw => some (pw, "step3_finalized_pathway")
              | none => none
        | none => none
      -- Priority 2: step2_proposal
      let fromStep2 : Option (Pathway × String) :=
        match data.step2_proposal with
        | some pw_name =>
            if pw_name.isEmpty then none
            else match pathwayByName dbc pw_name with
              | some pw => some (pw, "step2_proposal")
              | none => none
        | none => none
      let assigned := (fromStep3 <|> fromStep2).getD (fallback, "fallback")
      let res₁ := if (fromStep3 <|> fromStep2).isNone then
          res.add_warning ("Interaction assigned to fallback pathway")
        else res
      if dry_run then (res₁, dbc)
      else
        let pi : PILink := ⟨dbc.nextPIId, assigned.1.id, int_id,
          "step6_" ++ assigned.2⟩
        let newData := { data with
          step6_reassigned := true,
          step6_pathway := some assigned.1.name,
          step6_source := some assigned.2 }
        let db' := { dbc with
          pathwayInteractions := dbc.pathwayInteractions ++ [pi],
          interactions := dbc.interactions.map (fun i =>
            if i.id = int_id then { i with data := some newData } else i),
          nextPIId := dbc.nextPIId + 1 }
        (res₁.add_change ⟨ChangeType.REASSIGN_INTERACTION, "interaction",
          int_id, [], [assigned.1.name],
          "Orphan rescue via " ++ assigned.2⟩, db')

/-- `phase4_interaction_sync(db, ..., dry_run)`. -/
def phase4_interaction_sync (db : DB) (dry_run : Bool) : PhaseResult × DB :=
  let result : PhaseResult := { phase_name := "Interaction Sync", success := true }
  let valid_ids := db.pathways.map (fun p => p.id)
  match pathwayByName db "Protein Quality Control" with
  | none =>
      ({ result.add_error
          "CRITICAL: Fallback pathway Protein Quality Control not found"
          with success := false }, db)
  | some fallback =>
      -- Step 1: dangling PathwayInteraction records
      let dangling_pis := db.pathwayInteractions.filter (fun pi =>
        pi.pathway_id ∉ valid_ids)
      let st1 : PhaseResult × DB :=
        if dry_run then (result, db)
        else dangling_pis.foldl
          (fun st pi =>
            (st.1.add_change ⟨ChangeType.DELETE, "pathway_interaction", pi.id,
              [toString pi.pathway_id], [], "Dangling pathway reference"⟩,
             { st.2 with pathwayInteractions :=
                st.2.pathwayInteractions.filter (fun q => q.id ≠ pi.id) }))
          (result, db)
      -- Step 2: interactions without any PathwayInteraction
      let orphan_ids := validate_no_orphan_interactions st1.2
      let st2 := orphan_ids.foldl (phase4AssignOne dry_run fallback) st1
      if ¬ dry_run then
        let remaining := validate_no_orphan_interactions st2.2
        if ¬ remaining.isEmpty then
          ({ st2.1.add_error
              "CRITICAL: interactions still orphaned after sync"
              with success := false }, st2.2)
        else st2
      else st2

/-! ### Phase 5: safe pruning -/

/-- Body of the orphan loop of `phase5_pruning` for one unreachable
pathway row.  State: phase result, database, `(pruned, rescued)`. -/
def phase5ProcessOrphan (orc : Oracle) (dry_run : Bool)
    (st : PhaseResult × DB × Nat × Nat) (pw : Pathway) :
    PhaseResult × DB × Nat × Nat :=
  let res := st.1
  let dbc := st.2.1
  let pruned := st.2.2.1
  let rescued := st.2.2.2
  -- Never prune roots
  if pw.name ∈ STRICT_ROOTS then
    (res.add_warning ("Root " ++ pw.name ++ " is unreachable"), dbc, pruned,
      rescued)
  else
    let interaction_count := (dbc.pathwayInteractions.filter (fun pi =>
      pi.pathway_id = pw.id)).length
    let child_count := (dbc.parentLinks.filter (fun l =>
      l.parent_pathway_id = pw.id)).length
    if 0 < interaction_count ∨ 0 < child_count then
      -- Pathway has data - rescue it instead of deleting
      let smart_parent := get_smart_rescue_parent pw.name dbc.pathways
        (orc.rescueResp pw.name)
      if dry_run then (res, dbc, pruned, rescued + 1)
      else
        match smart_parent with
        | some sp =>
            let links' :=
              match dbc.parentLinks.find? (fun l =>
                  l.child_pathway_id == pw.id) with
              | some existing => dbc.parentLinks.map (fun l =>
                  if l.id = existing.id then
                    { l with parent_pathway_id := sp.id }
                  else l)
              | none => dbc.parentLinks ++
                  [⟨dbc.nextLinkId, pw.id, sp.id⟩]
            let db' := { dbc with
              parentLinks := links',
              nextLinkId :=
                if (dbc.parentLinks.find? (fun l =>
                    l.child_pathway_id == pw.id)).isSome then dbc.nextLinkId
                else dbc.nextLinkId + 1 }
            (res.add_change ⟨ChangeType.REPARENT, "pathway", pw.id,
              ["ORPHAN"], [sp.name], "Smart rescue"⟩, db', pruned, rescued + 1)
        | none => (res, dbc, pruned, rescued)
    else if dry_run then (res, dbc, pruned + 1, rescued)
    else
      -- Safe to prune: delete remaining links, then the row
      let db' := { dbc with
        parentLinks := dbc.parentLinks.filter (fun l =>
          l.child_pathway_id ≠ pw.id ∧ l.parent_pathway_id ≠ pw.id),
        pathways := dbc.pathways.eraseP (fun p => p.id == pw.id) }
      (res.add_change ⟨ChangeType.DELETE, "pathway", pw.id, [pw.name], [],
        "Orphan with no data"⟩, db', pruned + 1, rescued)

/-- `phase5_pruning(db, ..., dry_run)`. -/
def phase5_pruning (db : DB) (orc : Oracle) (dry_run : Bool) :
    PhaseResult × DB :=
  let result : PhaseResult := { phase_name := "Pruning", success := true }
  let db₀ := if ¬ dry_run then recalculate_all_levels db else db
  let orphans := db₀.pathways.filter (fun p => p.hierarchy_level = -1)
  let st := orphans.foldl (phase5ProcessOrphan orc dry_run)
    (result, db₀, 0, 0)
  let db₁ := if ¬ dry_run then recalculate_all_levels st.2.1 else st.2.1
  (st.1, db₁)

/-! ### Phase 6: pre-flight validation -/

/-- `phase6_preflight(db, ...)`. -/
def phase6_preflight (db : DB) : PhaseResult × DB :=
  let result : PhaseResult :=
    { phase_name := "Pre-Flight Validation", success := true }
  -- Check 1: all roots exist at level 0
  let roots := db.pathways.filter (fun p => p.name ∈ STRICT_ROOTS)
  let missing_roots := STRICT_ROOTS.filter (fun n =>
    ¬ (roots.map (fun r => r.name)).contains n)
  let (result₁, failed₁) :=
    if ¬ missing_roots.isEmpty then
      (result.add_error "CRITICAL: Missing roots", 1)
    else if (roots.filter (fun r => r.hierarchy_level = 0)).length ≠
        STRICT_ROOTS.length then
      (result.add_warning "Not all roots at level 0", 0)
    else (result, 0)
  -- Check 2: no unreachable pathways
  let orphan_count := (db.pathways.filter (fun p =>
    p.hierarchy_level = -1)).length
  let (result₂, failed₂) :=
    if 0 < orphan_count then (result₁.add_error "unreachable pathways", 1)
    else (result₁, 0)
  -- Check 3: no multi-parent pathways (warning only)
  let parent_graph := build_parent_graph db.parentLinks
  let result₃ :=
    if ¬ (detect_multi_parent_nodes parent_graph).isEmpty then
      result₂.add_warning "pathways still have multiple parents"
    else result₂
  -- Check 4: no cycles
  let cycles := find_all_cycles parent_graph
  let (result₄, failed₄) :=
    if ¬ cycles.isEmpty then
      ({ result₃.add_error "CRITICAL: cycles detected in hierarchy"
          with success := false }, 1)
    else (result₃, 0)
  -- Check 5: all interactions have a pathway
  let orphan_interactions := validate_no_orphan_interactions db
  let (result₅, failed₅) :=
    if ¬ orphan_interactions.isEmpty then
      (result₄.add_error "interactions without pathway assignment", 1)
    else (result₄, 0)
  -- Check 6: no dangling PathwayInteraction records
  let dangling := validate_no_dangling_pathway_links db
  let (result₆, failed₆) :=
    if ¬ dangling.isEmpty then
      (result₅.add_error "PathwayInteraction records point to missing pathways", 1)
    else (result₅, 0)
  let checks_failed := failed₁ + failed₂ + failed₄ + failed₅ + failed₆
  if 0 < checks_failed then ({ result₆ with success := false }, db)
  else (result₆, db)

/-! ### Checkpoints and the orchestrator -/

/-- `save_checkpoint(db, Interaction, phase, status, changes)`: stores
the checkpoint blob in the first interaction's `data`. -/
def save_checkpoint (db : DB) (phase : Nat) (status : String)
    (changes : List Change) : Bool × DB :=
  match db.interactions.head? with
  | none => (false, db)
  | some i0 =>
      let d := (i0.data).getD {}
      let cp : Checkpoint := ⟨phase, status, changes.length⟩
      let d' := { d with step6_checkpoint := some cp }
      (true, { db with interactions := db.interactions.map (fun i =>
        if i.id = i0.id then { i with data := some d' } else i) })

/-- `load_checkpoint(Interaction)`. -/
def load_checkpoint (db : DB) : Option Checkpoint :=
  match db.interactions.head? with
  | none => none
  | some i0 =>
      match i0.data with
      | none => none
      | some d => d.step6_checkpoint

/-- One orchestrator step: run a phase if `start_phase <= k`, record its
result and (outside dry-run) persist a checkpoint. -/
def runPhase (k : Nat) (name : String)
    (phase : DB → PhaseResult × DB) (dry_run : Bool) (start_phase : Nat)
    (st : List (String × PhaseResult) × DB) :
    List (String × PhaseResult) × DB :=
  if start_phase ≤ k then
    let out := phase st.2
    let db' :=
      if ¬ dry_run then
        (save_checkpoint out.2 k
          (if out.1.success then "complete" else "failed") out.1.changes).2
      else out.2
    (st.1 ++ [(name, out.1)], db')
  else st

/-- `reorganize_pathways(dry_run, start_phase)`: the six phases run in
order, each guarded only by `start_phase <= k`. -/
def reorganize_pathways (dry_run : Bool) (start_phase : Nat) (orc : Oracle)
    (db : DB) : List (String × PhaseResult) × DB :=
  let st0 : List (String × PhaseResult) × DB := ([], db)
  let st1 := runPhase 1 "deduplication"
    (fun d => phase1_deduplication d orc dry_run) dry_run start_phase st0
  let st2 := runPhase 2 "tree_enforcement"
    (fun d => phase2_tree_enforcement d orc dry_run) dry_run start_phase st1
  let st3 := runPhase 3 "hierarchy_repair"
    (fun d => phase3_hierarchy_repair d orc dry_run) dry_run start_phase st2
  let st4 := runPhase 4 "interaction_sync"
    (fun d => phase4_interaction_sync d dry_run) dry_run start_phase st3
  let st5 := runPhase 5 "pruning"
    (fun d => phase5_pruning d orc dry_run) dry_run start_phase st4
  runPhase 6 "preflight" (fun d => phase6_preflight d) dry_run start_phase st5

/-! ### Verification checks (`step7_checks.py`) -/

inductive Severity where
  | LOW | MEDIUM | HIGH | CRITICAL
deriving Repr, DecidableEq

structure Issue where
  check_name : String
  severity : Severity
  message : String
  entity_type : String
  entity_id : Option Nat := none
  auto_fixable : Bool := false
deriving Repr, DecidableEq

/-- A `CheckResult` (the free-form `stats` dict carries no information
the checks act on and is omitted). -/
structure CheckResult where
  check_name : String
  passed : Bool
  issues : List Issue := []
deriving Repr, DecidableEq

/-- `CheckResult.add_issue`: `passed` drops to `False` for HIGH or
CRITICAL severities. -/
def CheckResult.add_issue (r : CheckResult) (severity : Severity)
    (message : String) (entity_type : String) (entity_id : Option Nat)
    (auto_fixable : Bool) : CheckResult :=
  let r' := { r with issues := r.issues ++
    [⟨r.check_name, severity, message, entity_type, entity_id, auto_fixable⟩] }
  if severity = Severity.HIGH ∨ severity = Severity.CRITICAL then
    { r' with passed := false }
  else r'

/-- `check_all_roots_exist(Pathway)`: missing strict roots are CRITICAL
issues marked `auto_fixable=True`; wrong-level roots are MEDIUM. -/
def check_all_roots_exist (db : DB) : CheckResult :=
  let result : CheckResult := { check_name := "all_roots_exist", passed := true }
  let roots := db.pathways.filter (fun p => p.name ∈ STRICT_ROOTS)
  let found_names := roots.map (fun r => r.name)
  let missing := STRICT_ROOTS.filter (fun n => ¬ found_names.contains n)
  let result₁ :=
    if ¬ missing.isEmpty then
      missing.foldl (fun r name =>
        r.add_issue Severity.CRITICAL ("Missing root pathway: " ++ name)
          "pathway" none true)
        { result with passed := false }
    else result
  let wrong_level := roots.filter (fun r => r.hierarchy_level ≠ 0)
  wrong_level.foldl (fun r pw =>
    r.add_issue Severity.MEDIUM
      ("Root " ++ pw.name ++ " has wrong level, should be 0") "pathway"
      (some pw.id) true) result₁

/-- `check_no_cycles(PathwayParent)`: its inner `find_cycle` is the same
DFS as `detect_cycle_from_node`; it scans only the graph keys, collects
un-normalised cycles, and reports the first five as CRITICAL with
`auto_fixable=False`. -/
def check_no_cycles (db : DB) : CheckResult :=
  let graph := build_parent_graph db.parentLinks
  let cycles := ((graph.map Prod.fst).foldl
    (fun (acc : List Nat × List (List Nat)) node =>
      if node ∈ acc.1 then acc
      else
        match detect_cycle_from_node node graph with
        | some c => (acc.1 ++ [node], acc.2 ++ [c])
        | none => (acc.1 ++ [node], acc.2))
    ([], [])).2
  let result : CheckResult := { check_name := "no_cycles", passed := true }
  if ¬ cycles.isEmpty then
    (cycles.take 5).foldl (fun r c =>
      r.add_issue Severity.CRITICAL
        ("Cycle detected: " ++ String.intercalate " -> " (c.map toString))
        "pathway" none false)
      { result with passed := false }
  else result

/-! ### Auto-repairs (`step7_repairs.py`) -/

structure RepairResult where
  issue : Issue
  success : Bool
  action_taken : String
  error : Option String := none
deriving Repr, DecidableEq

structure RepairSummary where
  total_issues : Nat
  attempted : Nat
  succeeded : Nat
  failed : Nat
  skipped : Nat
  results : List RepairResult
deriving Repr, DecidableEq

def RepairSummary.add_result (s : RepairSummary) (r : RepairResult) :
    RepairSummary :=
  let s' := { s with results := s.results ++ [r] }
  if r.success then { s' with succeeded := s'.succeeded + 1 }
  else { s' with failed := s'.failed + 1 }

/-- `repair_missing_root(db, Pathway, name)`: creates the missing root
(or resets an existing row to level 0). -/
def repair_missing_root (db : DB) (name : String) : RepairResult × DB :=
  let issue : Issue := ⟨"all_roots_exist", Severity.CRITICAL,
    "Creating missing root: " ++ name, "pathway", none, true⟩
  match pathwayByName db name with
  | some existing =>
      let db' := { db with pathways := db.pathways.map (fun p =>
        if p.id = existing.id then
          { p with hierarchy_level := 0, is_leaf := false }
        else p) }
      (⟨issue, true, "Set existing pathway " ++ name ++ " to level 0", none⟩, db')
  | none =>
      let root : Pathway := ⟨db.nextPathwayId, name, 0, false, 0, [], false⟩
      let db' := { db with
                   pathways := db.pathways ++ [root],
                   nextPathwayId := db.nextPathwayId + 1 }
      (⟨issue, true, "Created root pathway " ++ name, none⟩, db')

/-- `repair_root_level(db, Pathway, pathway_id)`. -/
def repair_root_level (db : DB) (pathway_id : Nat) : RepairResult × DB :=
  let issue : Issue := ⟨"all_roots_exist", Severity.MEDIUM,
    "Fixing root level", "pathway", some pathway_id, true⟩
  match getPathway db pathway_id with
  | none => (⟨issue, false, "Pathway not found", some "Not found"⟩, db)
  | some _ =>
      let db' := { db with pathways := db.pathways.map (fun p =>
        if p.id = pathway_id then { p with hierarchy_level := 0 } else p) }
      (⟨issue, true, "Changed level to 0", none⟩, db')

/-- `repair_orphan_interaction(db, ..., interaction_id)`.  Unlike phase
4, this copy does not reject empty-string pathway names before the
lookup. -/
def repair_orphan_interaction (db : DB) (interaction_id : Nat) :
    RepairResult × DB :=
  let issue : Issue := ⟨"interactions_have_pathway", Severity.MEDIUM,
    "Assigning pathway to interaction", "interaction", some interaction_id, true⟩
  match db.interactions.find? (fun i => i.id == interaction_id) with
  | none => (⟨issue, false, "Interaction not found", some "Not found"⟩, db)
  | some interaction =>
      let data := (interaction.data).getD {}
      let fromStep3 : Option (Pathway × String) :=
        match data.step3_finalized_pathway with
        | some pw_name =>
            match pathwayByName db pw_name with
            | some pw => some (pw, "step3_finalized_pathway")
            | none => none
        | none => none
      let fromStep2 : Option (Pathway × String) :=
        match data.step2_proposal with
        | some pw_name =>
            match pathwayByName db pw_name with
            | some pw => some (pw, "step2_proposal")
            | none => none
        | none => none
      let fromFallback : Option (Pathway × String) :=
        match pathwayByName db "Protein Quality Control" with
        | some pw => some (pw, "fallback")
        | none => none
      match fromStep3 <|> fromStep2 <|> fromFallback with
      | none => (⟨issue, false, "No fallback pathway found",
          some "Missing fallback"⟩, db)
      | some (assigned, source) =>
          let pi : PILink := ⟨db.nextPIId, assigned.id, interaction_id,
            "step7_repair_" ++ source⟩
          let newData := { data with
                           step7_repaired := true,
                           step7_pathway := some assigned.name }
          let interactions' := db.interactions.map (fun i =>
            if i.id = interaction_id then { i with data := some newData }
            else i)
          let db' := { db with
                       pathwayInteractions := db.pathwayInteractions ++ [pi],
                       interactions := interactions',
                       nextPIId := db.nextPIId + 1 }
          (⟨issue, true, "Assigned interaction via " ++ source, none⟩, db')

/-- `repair_dangling_pathway_link(db, ..., link_id)`. -/
def repair_dangling_pathway_link (db : DB) (link_id : Nat) :
    RepairResult × DB :=
  let issue : Issue := ⟨"pathway_references_valid", Severity.MEDIUM,
    "Deleting dangling link", "pathway_interaction", some link_id, true⟩
  match db.pathwayInteractions.find? (fun pi => pi.id == link_id) with
  | none => (⟨issue, false, "Link not found", some "Not found"⟩, db)
  | some _ =>
      (⟨issue, true, "Deleted link", none⟩,
        { db with pathwayInteractions :=
          db.pathwayInteractions.filter (fun pi => pi.id ≠ link_id) })

/-- `repair_broken_parent_link(db, ..., link_id)`. -/
def repair_broken_parent_link (db : DB) (link_id : Nat) :
    RepairResult × DB :=
  let issue : Issue := ⟨"parent_exists", Severity.HIGH,
    "Fixing broken parent link", "pathway_parent", some link_id, true⟩
  match db.parentLinks.find? (fun l => l.id == link_id) with
  | none => (⟨issue, false, "Link not found", some "Not found"⟩, db)
  | some link =>
      match getPathway db link.child_pathway_id with
      | none =>
          (⟨issue, true, "Deleted link (child also missing)", none⟩,
            { db with parentLinks :=
              db.parentLinks.filter (fun l => l.id ≠ link_id) })
      | some child =>
          match pathwayByName db "Protein Quality Control" with
          | some fallback =>
              (⟨issue, true, "Reassigned " ++ child.name ++
                  " to Protein Quality Control", none⟩,
                { db with parentLinks := db.parentLinks.map (fun l =>
                  if l.id = link_id then
                    { l with parent_pathway_id := fallback.id }
                  else l) })
          | none =>
              (⟨issue, true, "Deleted broken link for " ++ child.name, none⟩,
                { db with parentLinks :=
                  db.parentLinks.filter (fun l => l.id ≠ link_id) })

/-- `repair_orphan_pathway(db, ..., pathway_id)`: smart rescue of an
orphaned pathway. -/
def repair_orphan_pathway (db : DB) (orc : Oracle) (pathway_id : Nat) :
    RepairResult × DB :=
  let issue : Issue := ⟨"no_orphan_pathways", Severity.MEDIUM,
    "Rescuing orphaned pathway", "pathway", some pathway_id, true⟩
  match getPathway db pathway_id with
  | none => (⟨issue, false, "Pathway not found", some "Not found"⟩, db)
  | some pw =>
      if pw.name ∈ STRICT_ROOTS then
        (⟨issue, true, "Fixed root " ++ pw.name ++ " level to 0", none⟩,
          { db with pathways := db.pathways.map (fun p =>
            if p.id = pathway_id then { p with hierarchy_level := 0 } else p) })
      else
        let smart₀ := get_smart_rescue_parent pw.name db.pathways
          (orc.rescueResp pw.name)
        let smart := smart₀ <|> pathwayByName db "Protein Quality Control"
        match smart with
        | none => (⟨issue, false, "No fallback root", some "Missing fallback"⟩,
            db)
        | some smart_parent =>
            let withLink : DB :=
              match db.parentLinks.find? (fun l =>
                  l.child_pathway_id == pathway_id) with
              | some existing_link =>
                  { db with parentLinks := db.parentLinks.map (fun l =>
                    if l.id = existing_link.id then
                      { l with parent_pathway_id := smart_parent.id }
                    else l) }
              | none =>
                  { db with
                    parentLinks := db.parentLinks ++
                      [⟨db.nextLinkId, pathway_id, smart_parent.id⟩],
                    nextLinkId := db.nextLinkId + 1 }
            let pathways' := withLink.pathways.map (fun p =>
              if p.id = pathway_id then { p with hierarchy_level := 1 } else p)
            let db' := { withLink with pathways := pathways' }
            (⟨issue, true, "Smart rescue: " ++ pw.name ++ " -> " ++
              smart_parent.name, none⟩, db')

/-- `recalculate_all_usage_counts(db, ...)`. -/
def recalculate_all_usage_counts (db : DB) : DB :=
  { db with pathways := db.pathways.map (fun p =>
    { p with usage_count := (db.pathwayInteractions.filter (fun pi =>
        pi.pathway_id = p.id)).length }) }

/-- `recalculate_all_is_leaf(db, ...)`. -/
def recalculate_all_is_leaf (db : DB) : DB :=
  { db with pathways := db.pathways.map (fun p =>
    { p with is_leaf := (db.parentLinks.find? (fun l =>
        l.parent_pathway_id == p.id)).isNone }) }

/-- The `parent_map` dict comprehension
`{link.child: link.parent for link in PathwayParent.query.all()}`:
for duplicate child keys the *last* row wins. -/
def parentMapLookup (links : List PPLink) (c : Nat) : Option Nat :=
  (links.reverse.find? (fun l => l.child_pathway_id == c)).map
    (fun l => l.parent_pathway_id)

/-- The upward walk of `recalculate_all_ancestor_ids` /
`repair_ancestor_ids` (stops at a missing parent or a revisited node). -/
def ancestorChain (links : List PPLink) :
    Nat → Nat → List Nat → List Nat
  | 0, _, _ => []
  | fuel + 1, current, visited =>
      if current ∈ visited then []
      else
        match parentMapLookup links current with
        | none => []
        | some parent =>
            parent :: ancestorChain links fuel parent (visited ++ [current])

/-- `recalculate_all_ancestor_ids(db, ...)`. -/
def recalculate_all_ancestor_ids (db : DB) : DB :=
  { db with pathways := db.pathways.map (fun p =>
    { p with ancestor_ids :=
        ancestorChain db.parentLinks (db.parentLinks.length + 1) p.id [] }) }

/-- Routing of one issue inside `run_auto_repairs` (the body of the
`for issue in issues:` loop once the LOW/non-fixable skips have been
taken).  Returns `none` when no repair function matches. -/
def routeRepair (orc : Oracle) (db : DB) (issue : Issue) :
    Option (RepairResult × DB) :=
  if issue.check_name = "all_roots_exist" ∧
      strContainsSub issue.message "Missing root" then
    match (strSplitOn issue.message ": ").get? 1 with
    | some name => some (repair_missing_root db name)
    | none => none
  else if issue.check_name = "all_roots_exist" then
    match issue.entity_id with
    | some i => if i ≠ 0 then some (repair_root_level db i) else none
    | none => none
  else if issue.check_name = "interactions_have_pathway" then
    match issue.entity_id with
    | some i => if i ≠ 0 then some (repair_orphan_interaction db i) else none
    | none => none
  else if issue.check_name = "pathway_references_valid" then
    match issue.entity_id with
    | some i => if i ≠ 0 then some (repair_dangling_pathway_link db i) else none
    | none => none
  else if issue.check_name = "parent_exists" then
    match issue.entity_id with
    | some i => if i ≠ 0 then some (repair_broken_parent_link db i) else none
    | none => none
  else if issue.check_name = "no_orphan_pathways" then
    match issue.entity_id with
    | some i => if i ≠ 0 then some (repair_orphan_pathway db orc i) else none
    | none => none
  else none

/-- Body of the `for issue in issues:` loop of `run_auto_repairs`. -/
def repairStep (orc : Oracle) (st : RepairSummary × DB) (issue : Issue) :
    RepairSummary × DB :=
  if ¬ issue.auto_fixable then
    ({ st.1 with skipped := st.1.skipped + 1 }, st.2)
  else if issue.severity = Severity.LOW then
    ({ st.1 with skipped := st.1.skipped + 1 }, st.2)
  else
    match routeRepair orc st.2 issue with
    | some (r, db') =>
        (({ st.1 with attempted := st.1.attempted + 1 }).add_result r, db')
    | none => ({ st.1 with skipped := st.1.skipped + 1 }, st.2)

/-- `run_auto_repairs(issues, db, ...)`. -/
def run_auto_repairs (issues : List Issue) (db : DB) (orc : Oracle) :
    RepairSummary × DB :=
  let summary : RepairSummary := ⟨issues.length, 0, 0, 0, 0, []⟩
  -- batch recalculations for LOW severity issues
  let low_issues := issues.filter (fun i => i.severity = Severity.LOW)
  let db₀ :=
    if ¬ low_issues.isEmpty then
      recalculate_all_ancestor_ids (recalculate_all_is_leaf
        (recalculate_all_usage_counts (recalculate_all_levels db)))
    else db
  issues.foldl (repairStep orc) (summary, db₀)

/-! ### In-memory DAG (`pathway_hierarchy/dag_models.py`)

`PathwayNode.parent_ids` / `child_ids` are Python `set`s; they are
embedded as duplicate-free lists (`set.add` inserts only when absent,
`set.discard` removes).  `PathwayDAG.nodes` is a dict `id -> node` in
insertion order; `name_to_id` is only used by name lookups no claim
mentions and is omitted. -/

structure PathwayNode where
  id : Nat
  name : String
  parent_ids : List Nat := []
  child_ids : List Nat := []
deriving Repr, DecidableEq

structure PathwayDAG where
  nodes : List PathwayNode := []
deriving Repr, DecidableEq

def PathwayDAG.get? (d : PathwayDAG) (i : Nat) : Option PathwayNode :=
  d.nodes.find? (fun n => n.id == i)

/-- `self.nodes[node.id] = node`: replace in place or append. -/
def PathwayDAG.setNode (d : PathwayDAG) (node : PathwayNode) : PathwayDAG :=
  if (d.get? node.id).isSome then
    ⟨d.nodes.map (fun n => if n.id = node.id then node else n)⟩
  else ⟨d.nodes ++ [node]⟩

/-- `add_node(node)` as every caller in the repository invokes it: a
fresh `PathwayNode` whose edge sets are the dataclass defaults
(empty). -/
def PathwayDAG.add_node (d : PathwayDAG) (i : Nat) (name : String) :
    PathwayDAG :=
  d.setNode { id := i, name := name }

/-- Update one node in place (callers guarantee the id exists). -/
def PathwayDAG.updNode (d : PathwayDAG) (i : Nat)
    (f : PathwayNode → PathwayNode) : PathwayDAG :=
  ⟨d.nodes.map (fun n => if n.id = i then f n else n)⟩

/-- Total length of all `child_ids` (fuel bound). -/
def PathwayDAG.totalChildLen (d : PathwayDAG) : Nat :=
  (d.nodes.map (fun n => n.child_ids.length)).sum

/-- The `while stack:` loop of `PathwayDAG._would_create_cycle`: a
downward DFS from `child_id` looking for `parent_id`.  The stack is
kept top-first (Python pushes and pops at the end of the list); only
the decided Boolean, not the traversal order, is used anywhere. -/
def dagCycleDfs (d : PathwayDAG) (parent_id : Nat) :
    Nat → List Nat → List Nat → Bool
  | 0, _, _ => false
  | _ + 1, [], _ => false
  | fuel + 1, current :: stack, visited =>
      if current = parent_id then dagCycleDfs d parent_id fuel stack visited
      else if current ∈ visited then
        dagCycleDfs d parent_id fuel stack visited
      else
        let children := ((d.get? current).map PathwayNode.child_ids).getD []
        if parent_id ∈ children then true
        else dagCycleDfs d parent_id fuel (children ++ stack)
          (visited ++ [current])

/-- `_would_create_cycle(child_id, parent_id)`. -/
def dag_would_create_cycle (d : PathwayDAG) (child_id parent_id : Nat) :
    Bool :=
  dagCycleDfs d parent_id
    (d.totalChildLen + d.nodes.length + 2) [child_id] []

/-- `add_edge(child_id, parent_id)`: `(added?, dag)`. -/
def PathwayDAG.add_edge (d : PathwayDAG) (child_id parent_id : Nat) :
    Bool × PathwayDAG :=
  if (d.get? child_id).isNone ∨ (d.get? parent_id).isNone then (false, d)
  else if child_id = parent_id then (false, d)   -- no self-loops
  else if dag_would_create_cycle d child_id parent_id then (false, d)
  else
    let d₁ := d.updNode child_id (fun n =>
      if parent_id ∈ n.parent_ids then n
      else { n with parent_ids := n.parent_ids ++ [parent_id] })
    let d₂ := d₁.updNode parent_id (fun n =>
      if child_id ∈ n.child_ids then n
      else { n with child_ids := n.child_ids ++ [child_id] })
    (true, d₂)

/-- `remove_edge(child_id, parent_id)`. -/
def PathwayDAG.remove_edge (d : PathwayDAG) (child_id parent_id : Nat) :
    Bool × PathwayDAG :=
  if (d.get? child_id).isNone ∨ (d.get? parent_id).isNone then (false, d)
  else
    let d₁ := d.updNode child_id (fun n =>
      { n with parent_ids := n.parent_ids.filter (fun p => p ≠ parent_id) })
    let d₂ := d₁.updNode parent_id (fun n =>
      { n with child_ids := n.child_ids.filter (fun c => c ≠ child_id) })
    (true, d₂)

/-- Colors of the three-color DFS. -/
def dagWHITE : Nat := 0
def dagGRAY : Nat := 1
def dagBLACK : Nat := 2

def colorOf (cm : List (Nat × Nat)) (i : Nat) : Nat := (cm.lookup i).getD 0

def setColor (cm : List (Nat × Nat)) (i v : Nat) : List (Nat × Nat) :=
  match cm with
  | [] => [(i, v)]
  | (k, w) :: t => if k = i then (k, v) :: t else (k, w) :: setColor t i v

/-- The recursive `dfs` of `detect_cycles` together with its
`for child_id in ...` loop, fuel-indexed like `dfsGo`:
`Sum.inl (node, path)` is a call `dfs(node, path)`, `Sum.inr` the
remaining children of the loop. -/
def dcGo (d : PathwayDAG) :
    Nat → Sum (Nat × List Nat) (List Nat × Nat × List Nat) →
    List (Nat × Nat) × List (List Nat) → List (Nat × Nat) × List (List Nat)
  | 0, _, st => st
  | fuel + 1, Sum.inl (node, path), st =>
      let st₁ := (setColor st.1 node dagGRAY, st.2)
      let children := ((d.get? node).map PathwayNode.child_ids).getD []
      let st₂ := dcGo d fuel (Sum.inr (children, node, path)) st₁
      (setColor st₂.1 node dagBLACK, st₂.2)
  | _ + 1, Sum.inr ([], _, _), st => st
  | fuel + 1, Sum.inr (c :: cs, node, path), st =>
      if colorOf st.1 c = dagGRAY then
        -- found a cycle: path.index(child) succeeds or ValueError
        let cyc :=
          if c ∈ path then path.drop (path.indexOf c) ++ [c] else [node, c]
        dcGo d fuel (Sum.inr (cs, node, path)) (st.1, st.2 ++ [cyc])
      else if colorOf st.1 c = dagWHITE then
        let st' := dcGo d fuel (Sum.inl (c, path ++ [c])) st
        dcGo d fuel (Sum.inr (cs, node, path)) st'
      else dcGo d fuel (Sum.inr (cs, node, path)) st

/-- `detect_cycles()`. -/
def PathwayDAG.detect_cycles (d : PathwayDAG) : List (List Nat) :=
  let fuel := (d.nodes.length + 1) * (d.totalChildLen + 2)
  ((d.nodes.map (fun n => n.id)).foldl
    (fun st nid =>
      if colorOf st.1 nid = dagWHITE then dcGo d fuel (Sum.inl (nid, [nid])) st
      else st)
    (d.nodes.map (fun n => (n.id, dagWHITE)), [])).2

/-- The `while queue:` loop of `topological_sort` (Kahn's algorithm).
`in_degree` values are `Int` (Python would happily decrement below
zero on malformed graphs). -/
def kahnLoop (d : PathwayDAG) :
    Nat → List Nat → List (Nat × Int) → List Nat → List Nat
  | 0, _, _, result => result
  | _ + 1, [], _, result => result
  | fuel + 1, nid :: queue, indeg, result =>
      let children := ((d.get? nid).map PathwayNode.child_ids).getD []
      let step := children.foldl
        (fun (acc : List (Nat × Int) × List Nat) c =>
          let v := ((acc.1.lookup c).getD 0) - 1
          (setAssoc acc.1 c v, if v = 0 then acc.2 ++ [c] else acc.2))
        (indeg, queue)
      kahnLoop d fuel step.2 step.1 (result ++ [nid])

/-- `topological_sort()`: `none` models the `ValueError` raised when a
cycle keeps some node from being processed. -/
def PathwayDAG.topological_sort (d : PathwayDAG) : Option (List Nat) :=
  let indeg : List (Nat × Int) :=
    d.nodes.map (fun n => (n.id, (n.parent_ids.length : Int)))
  let queue := (d.nodes.filter (fun n => n.parent_ids.isEmpty)).map
    (fun n => n.id)
  let result := kahnLoop d (d.nodes.length + d.totalChildLen + 1) queue
    indeg []
  if result.length = d.nodes.length then some result else none

/-- The construction interface of the claim: a `PathwayDAG` built only
through `add_node`, `add_edge` and `remove_edge` calls. -/
inductive DagOp where
  | addNode (i : Nat) (name : String)
  | addEdge (child parent : Nat)
  | removeEdge (child parent : Nat)
deriving Repr, DecidableEq

def applyDagOp (d : PathwayDAG) : DagOp → PathwayDAG
  | DagOp.addNode i name => d.add_node i name
  | DagOp.addEdge c p => (d.add_edge c p).2
  | DagOp.removeEdge c p => (d.remove_edge c p).2

def buildDag (ops : List DagOp) : PathwayDAG :=
  ops.foldl applyDagOp ⟨[]⟩

/-! ### Specification-side relations

These definitions follow the words of the spec/claims (reachability,
acyclicity); the theorems below compare the embedded code against
them. -/

/-- One downward step in a parent graph: `a` is a direct parent of
`b`. -/
def StepDown (g : ParentGraph) (a b : Nat) : Prop := a ∈ parentsOf g b

/-- `k` is reachable downward from some strict-root row of the pathway
table. -/
def RootReachable (pathways : List Pathway) (g : ParentGraph) (k : Nat) :
    Prop :=
  ∃ r ∈ pathways, r.name ∈ STRICT_ROOTS ∧
    Relation.ReflTransGen (StepDown g) r.id k

/-- The child edge relation of a `PathwayDAG`: `a → b` when `b` is a
registered child of `a`. -/
def dagEdge (d : PathwayDAG) (a b : Nat) : Prop :=
  b ∈ (((d.get? a).map PathwayNode.child_ids).getD [])

/-- Acyclicity of the DAG's edge relation. -/
def DagAcyclic (d : PathwayDAG) : Prop :=
  ∀ x, ¬ Relation.TransGen (dagEdge d) x x

/-- Ids of the strict-root rows of the pathway table. -/
def rootIds (pws : List Pathway) : List Nat :=
  (pws.filter (fun p => p.name ∈ STRICT_ROOTS)).map (fun p => p.id)

/-- BFS invariant: every queued id already has a non-negative level. -/
def LevelsQueueInv (ls : List (Nat × Int)) (q : List Nat) : Prop :=
  ∀ c ∈ q, ∃ v, ls.lookup c = some v ∧ 0 ≤ v

/-- BFS invariant: recorded levels are `-1` or non-negative. -/
def LevelsRange (ls : List (Nat × Int)) : Prop :=
  ∀ k v, ls.lookup k = some v → v = -1 ∨ 0 ≤ v

/-- BFS invariant: every non-negative level is justified — zero on a
strict root, or one more than a recorded level of some parent. -/
def LevelsJustified (pws : List Pathway) (g : ParentGraph)
    (ls : List (Nat × Int)) : Prop :=
  ∀ k v, ls.lookup k = some v → 0 ≤ v →
    (v = 0 ∧ k ∈ rootIds pws) ∨
    (1 ≤ v ∧ ∃ p ∈ parentsOf g k, ls.lookup p = some (v - 1))

/-- The child list a DAG traversal reads for `i`
(`self.nodes[current].child_ids`, with a missing id reading as the
empty list, which no reachable state hits). -/
def childrenOf (d : PathwayDAG) (i : Nat) : List Nat :=
  ((d.get? i).map PathwayNode.child_ids).getD []

/-- Node ids of a DAG, as a finset. -/
def dagKeyFinset (d : PathwayDAG) : Finset Nat :=
  (d.nodes.map (fun n => n.id)).toFinset

/-- Remaining-work measure for `dagCycleDfs`: stack length plus, for
every unvisited node id, its child count plus one. -/
def dagMeasure (d : PathwayDAG) (stack visited : List Nat) : Nat :=
  stack.length +
    ∑ k ∈ (dagKeyFinset d).filter (fun k => k ∉ visited),
      ((childrenOf d k).length + 1)

/-- The op sequence of the C10 counterexample: re-registering node 1
resets its edge sets while node 2 still records `1` as its parent. -/
def c10ops : List DagOp :=
  [DagOp.addNode 1 "A", DagOp.addNode 2 "B", DagOp.addEdge 2 1,
   DagOp.addNode 1 "A", DagOp.addEdge 1 2]

/-- Ops for the C10 witness evaluation: a 3-node chain. -/
def c10wops : List DagOp :=
  [DagOp.addNode 1 "A", DagOp.addNode 2 "B", DagOp.addNode 3 "C",
   DagOp.addEdge 2 1, DagOp.addEdge 3 2]

/-- Two-row fixture for level computation: a strict root and one
child. -/
def c5pws : List Pathway :=
  [⟨1, "Proteostasis", 0, false, 0, [], false⟩,
   ⟨2, "X", -1, true, 0, [], false⟩]

/-- Parent graph of `c5pws`: `2`'s only parent is the root `1`. -/
def c5g : ParentGraph := [(2, [1])]

/-- Diamond fixture: root `1`, child `2` of `1`, and `3` with the two
parents `1` and `2`. -/
def c5pwsD : List Pathway :=
  [⟨1, "Gene Expression", 0, false, 0, [], false⟩,
   ⟨2, "X", -1, false, 0, [], false⟩,
   ⟨3, "Y", -1, true, 0, [], false⟩]

/-- Parent graph of `c5pwsD`. -/
def c5gD : ParentGraph := [(2, [1]), (3, [1, 2])]

/-- One unreachable pathway carrying a leaf association, with no
`Protein Quality Control` row in the table. -/
def c2DB : DB :=
  { pathways := [⟨10, "qqq", -1, true, 0, [], false⟩]
    parentLinks := []
    pathwayInteractions := [⟨1, 10, 5, "llm"⟩]
    interactions := [⟨5, none⟩]
    nextPathwayId := 11
    nextLinkId := 1
    nextPIId := 2 }

/-- The `(child, parent)` pair of a `pathway_parents` row (the columns
covered by the table's uniqueness constraint). -/
def linkPair (l : PPLink) : Nat × Nat :=
  (l.child_pathway_id, l.parent_pathway_id)

/-- The `(pathway, interaction)` pair of a `pathway_interactions`
row. -/
def piPair (q : PILink) : Nat × Nat := (q.pathway_id, q.interaction_id)

/-- Well-formedness of the link table during a merge of `s` into `t`:
uniqueness of `(child, parent)` (the table's unique constraint),
primary-key uniqueness, the no-self-reference CHECK constraint, and
absence of a `t → s` edge (retargeting such an edge would produce a
self-reference, violate the CHECK constraint and abort the
transaction, a state outside the success path modelled here). -/
def LinksWF (s t : Nat) (links : List PPLink) : Prop :=
  (links.map linkPair).Nodup ∧
  (links.map (fun l => l.id)).Nodup ∧
  (∀ l ∈ links, l.child_pathway_id ≠ l.parent_pathway_id) ∧
  (∀ l ∈ links, ¬(l.child_pathway_id = t ∧ l.parent_pathway_id = s))

/-- Well-formedness of the association table: uniqueness of
`(pathway, interaction)` and of the primary key. -/
def PIWF (pis : List PILink) : Prop :=
  (pis.map piPair).Nodup ∧ (pis.map (fun q => q.id)).Nodup

/-- Merge fixture: source 1 with child 3, parent 2 (= the target), and
one association. -/
def c3DB : DB :=
  { pathways := [⟨1, "S", 1, false, 0, [], false⟩,
                 ⟨2, "T", 1, false, 0, [], false⟩,
                 ⟨3, "C", 2, true, 0, [], false⟩]
    parentLinks := [⟨1, 3, 1⟩, ⟨2, 1, 2⟩]
    pathwayInteractions := [⟨1, 1, 9, "llm"⟩]
    interactions := [⟨9, none⟩]
    nextPathwayId := 4
    nextLinkId := 3
    nextPIId := 2 }

/-- A single strict-root row, used to evaluate the pruning-safety
theorem. -/
def c2wDB : DB :=
  { pathways := [⟨1, "Proteostasis", 0, false, 0, [], false⟩]
    parentLinks := []
    pathwayInteractions := []
    interactions := []
    nextPathwayId := 2
    nextLinkId := 1
    nextPIId := 1 }

/-- Pathway rows for the C4 counterexample: the seven canonical roots
plus the fallback row. -/
def c4Roots : List Pathway :=
  [⟨1, "Proteostasis", 0, false, 0, [], false⟩,
   ⟨2, "Metabolism & Bioenergetics", 0, false, 0, [], false⟩,
   ⟨3, "Membrane & Transport", 0, false, 0, [], false⟩,
   ⟨4, "Genome Maintenance", 0, false, 0, [], false⟩,
   ⟨5, "Gene Expression", 0, false, 0, [], false⟩,
   ⟨6, "Signal Transduction", 0, false, 0, [], false⟩,
   ⟨7, "Cytoskeletal Dynamics", 0, false, 0, [], false⟩]

def c4Table : List Pathway :=
  c4Roots ++ [⟨8, "Protein Quality Control", 1, false, 0, [], false⟩]

/-- A concrete oracle whose every call fails/misses (any oracle works
for the evaluations below; this one is simply explicit). -/
def trivialOracle : Oracle :=
  { similarity := fun _ _ => 0
    mergeResp := fun _ => none
    bestParent := fun _ _ => none
    findParent := fun _ => none
    shallow := fun _ _ => none
    rescueResp := fun _ => none }

/-- Two pathways in a mutual 2-node cycle `A→B, B→A`, each with exactly
one parent. -/
def c1DB : DB :=
  { pathways := [⟨1, "A", 1, false, 0, [], false⟩,
                 ⟨2, "B", 1, false, 0, [], false⟩]
    parentLinks := [⟨1, 1, 2⟩, ⟨2, 2, 1⟩]
    pathwayInteractions := []
    interactions := []
    nextPathwayId := 3
    nextLinkId := 3
    nextPIId := 1 }

/-- A state with one unreachable pathway and no "Protein Quality
Control" row: phase 4 fails on it, phase 5 then prunes the orphan. -/
def c9DB : DB :=
  { pathways := [⟨1, "Orphan X", -1, true, 0, [], true⟩]
    parentLinks := []
    pathwayInteractions := []
    interactions := []
    nextPathwayId := 2
    nextLinkId := 1
    nextPIId := 1 }

/-- One pathway at level 0 and one parent link whose parent id (99)
does not exist: a "broken chain" for phase 3, pass A. -/
def c7DB : DB :=
  { pathways := [⟨1, "A", 0, false, 0, [], false⟩]
    parentLinks := [⟨1, 1, 99⟩]
    pathwayInteractions := []
    interactions := []
    nextPathwayId := 2
    nextLinkId := 2
    nextPIId := 1 }

/-- An oracle whose `FIND_PARENT` call answers "B" (so phase 3 reaches
its explicit `[DRY RUN] FIX BROKEN` branch). -/
def c7Oracle : Oracle :=
  { trivialOracle with findParent := fun _ => some (some "B") }

/-- An empty pathway table: every strict root is missing, producing
seven CRITICAL `auto_fixable` issues. -/
def c8DB : DB :=
  { pathways := []
    parentLinks := []
    pathwayInteractions := []
    interactions := []
    nextPathwayId := 10
    nextLinkId := 1
    nextPIId := 1 }

/-! ## Theorems

Everything from here on is a proof about the definitions above: first
the supporting lemmas, then one theorem (plus witness or
counterexample) per claim. -/

/-! ### The upward BFS of `get_all_ancestors` computes exactly the
ancestor closure -/

theorem parentsOf_cons_self (k : Nat) (l : List Nat) (t : ParentGraph) :
    parentsOf ((k, l) :: t) k = l := by
  simp [parentsOf, List.lookup]

theorem parentsOf_cons_ne {x k : Nat} (l : List Nat) (t : ParentGraph)
    (hne : x ≠ k) : parentsOf ((k, l) :: t) x = parentsOf t x := by
  have hbeq : (x == k) = false := beq_eq_false_iff_ne.2 hne
  simp [parentsOf, List.lookup, hbeq]

theorem parentsOf_of_not_key {g : ParentGraph} {x : Nat}
    (hx : x ∉ keyFinset g) : parentsOf g x = [] := by
  induction g with
  | nil => simp [parentsOf]
  | cons kv t ih =>
      obtain ⟨k0, l0⟩ := kv
      simp only [keyFinset, List.map_cons, List.toFinset_cons,
        Finset.mem_insert, not_or] at hx
      rw [parentsOf_cons_ne l0 t hx.1]
      exact ih (by simpa [keyFinset] using hx.2)

theorem gaaMeasure_step {g : ParentGraph} {x : Nat} {q anc : List Nat}
    (hx : x ∉ anc) :
    gaaMeasure g (q ++ parentsOf g x) (anc ++ [x]) + 1 =
      gaaMeasure g (x :: q) anc := by
  classical
  unfold gaaMeasure
  by_cases hk : x ∈ keyFinset g
  · have hmem : x ∈ (keyFinset g).filter (fun k => k ∉ anc) := by
      simp [Finset.mem_filter, hk, hx]
    have hfe :
        (keyFinset g).filter (fun k => k ∉ anc ++ [x]) =
          ((keyFinset g).filter (fun k => k ∉ anc)).erase x := by
      ext a
      simp only [Finset.mem_filter, Finset.mem_erase, List.mem_append,
        List.mem_singleton, not_or]
      tauto
    rw [hfe, ← Finset.sum_erase_add ((keyFinset g).filter (fun k => k ∉ anc))
      (fun k => (parentsOf g k).length) hmem]
    simp only [List.length_append, List.length_cons]
    omega
  · have hlen : (parentsOf g x).length = 0 := by
      rw [parentsOf_of_not_key hk]
      rfl
    have hfe :
        (keyFinset g).filter (fun k => k ∉ anc ++ [x]) =
          (keyFinset g).filter (fun k => k ∉ anc) := by
      apply Finset.filter_congr
      intro a ha
      have hax : a ≠ x := by rintro rfl; exact hk ha
      simp [List.mem_append, hax]
    rw [hfe]
    simp only [List.length_append, List.length_cons, hlen]
    omega

/-! #### BFS soundness: everything returned is reachable -/

theorem gaaFuel_sound {g : ParentGraph} (P : Nat → Prop)
    (hstep : ∀ a b, P a → b ∈ parentsOf g a → P b) :
    ∀ (fuel : Nat) (q anc : List Nat),
      (∀ a ∈ anc, P a) → (∀ a ∈ q, P a) →
      ∀ a ∈ gaaFuel g fuel q anc, P a := by
  intro fuel
  induction fuel with
  | zero => intro q anc hanc _ a ha; exact hanc a ha
  | succ n ih =>
      intro q anc hanc hq a ha
      match q with
      | [] => exact hanc a ha
      | x :: q' =>
          by_cases hx : x ∈ anc
          · rw [gaaFuel, if_pos hx] at ha
            exact ih q' anc hanc (fun b hb => hq b (List.mem_cons_of_mem _ hb)) a ha
          · rw [gaaFuel, if_neg hx] at ha
            refine ih (q' ++ parentsOf g x) (anc ++ [x]) ?_ ?_ a ha
            · intro b hb
              rcases List.mem_append.1 hb with hb | hb
              · exact hanc b hb
              · rw [List.mem_singleton] at hb
                subst hb
                exact hq b (List.mem_cons_self _ _)
            · intro b hb
              rcases List.mem_append.1 hb with hb | hb
              · exact hq b (List.mem_cons_of_mem _ hb)
              · exact hstep x b (hq x (List.mem_cons_self _ _)) hb

/-! #### BFS completeness: with sufficient fuel the result contains the
queue and the accumulator, and is closed under parent steps -/

theorem gaaFuel_supset {g : ParentGraph} :
    ∀ (fuel : Nat) (q anc : List Nat),
      gaaMeasure g q anc ≤ fuel →
      ∀ a, a ∈ anc ∨ a ∈ q → a ∈ gaaFuel g fuel q anc := by
  intro fuel
  induction fuel with
  | zero =>
      intro q anc hm a ha
      have hq : q = [] := by
        have : q.length = 0 := by
          unfold gaaMeasure at hm; omega
        exact List.length_eq_zero.1 this
      subst hq
      rcases ha with ha | ha
      · exact ha
      · simp at ha
  | succ n ih =>
      intro q anc hm a ha
      match q with
      | [] =>
          rcases ha with ha | ha
          · exact ha
          · simp at ha
      | x :: q' =>
          by_cases hx : x ∈ anc
          · rw [gaaFuel, if_pos hx]
            have hm' : gaaMeasure g q' anc ≤ n := by
              unfold gaaMeasure at hm ⊢
              simp only [List.length_cons] at hm
              omega
            refine ih q' anc hm' a ?_
            rcases ha with ha | ha
            · exact Or.inl ha
            · rcases List.mem_cons.1 ha with rfl | ha
              · exact Or.inl hx
              · exact Or.inr ha
          · rw [gaaFuel, if_neg hx]
            have hm' : gaaMeasure g (q' ++ parentsOf g x) (anc ++ [x]) ≤ n := by
              have := gaaMeasure_step (g := g) (q := q') hx
              omega
            refine ih _ _ hm' a ?_
            rcases ha with ha | ha
            · exact Or.inl (List.mem_append.2 (Or.inl ha))
            · rcases List.mem_cons.1 ha with rfl | ha
              · exact Or.inl (List.mem_append.2 (Or.inr (by simp)))
              · exact Or.inr (List.mem_append.2 (Or.inl ha))

theorem gaaFuel_closed {g : ParentGraph} :
    ∀ (fuel : Nat) (q anc : List Nat),
      gaaMeasure g q anc ≤ fuel →
      (∀ a ∈ anc, ∀ b ∈ parentsOf g a, b ∈ anc ∨ b ∈ q) →
      ∀ a ∈ gaaFuel g fuel q anc, ∀ b ∈ parentsOf g a,
        b ∈ gaaFuel g fuel q anc := by
  intro fuel
  induction fuel with
  | zero =>
      intro q anc hm hcl a ha b hb
      have hq : q = [] := by
        have : q.length = 0 := by
          unfold gaaMeasure at hm; omega
        exact List.length_eq_zero.1 this
      subst hq
      rcases hcl a ha b hb with h | h
      · exact h
      · simp at h
  | succ n ih =>
      intro q anc hm hcl a ha b hb
      match q with
      | [] =>
          rcases hcl a ha b hb with h | h
          · exact h
          · simp at h
      | x :: q' =>
          by_cases hx : x ∈ anc
          · rw [gaaFuel, if_pos hx] at ha ⊢
            have hm' : gaaMeasure g q' anc ≤ n := by
              unfold gaaMeasure at hm ⊢
              simp only [List.length_cons] at hm
              omega
            refine ih q' anc hm' ?_ a ha b hb
            intro c hc d hd
            rcases hcl c hc d hd with h | h
            · exact Or.inl h
            · rcases List.mem_cons.1 h with rfl | h
              · exact Or.inl hx
              · exact Or.inr h
          · rw [gaaFuel, if_neg hx] at ha ⊢
            have hm' : gaaMeasure g (q' ++ parentsOf g x) (anc ++ [x]) ≤ n := by
              have := gaaMeasure_step (g := g) (q := q') hx
              omega
            refine ih _ _ hm' ?_ a ha b hb
            intro c hc d hd
            rcases List.mem_append.1 hc with hc | hc
            · rcases hcl c hc d hd with h | h
              · exact Or.inl (List.mem_append.2 (Or.inl h))
              · rcases List.mem_cons.1 h with rfl | h
                · exact Or.inl (List.mem_append.2 (Or.inr (by simp)))
                · exact Or.inr (List.mem_append.2 (Or.inl h))
            · rw [List.mem_singleton] at hc
              subst hc
              exact Or.inr (List.mem_append.2 (Or.inr hd))

/-- The sum of the first-binding parent-list lengths over the distinct
keys is bounded by the total parent-list length. -/
theorem sum_parentsOf_le_totalParentLen (g : ParentGraph) :
    ∑ k ∈ keyFinset g, (parentsOf g k).length ≤ totalParentLen g := by
  classical
  induction g with
  | nil => simp [keyFinset, totalParentLen]
  | cons kv t ih =>
      obtain ⟨k0, l0⟩ := kv
      have hkey : keyFinset ((k0, l0) :: t) = insert k0 (keyFinset t) := by
        simp [keyFinset]
      have htot : totalParentLen ((k0, l0) :: t) =
          l0.length + totalParentLen t := by
        simp [totalParentLen]
      rw [hkey, htot]
      by_cases hk : k0 ∈ keyFinset t
      · rw [Finset.insert_eq_self.2 hk]
        set f : Nat → Nat := fun k => (parentsOf ((k0, l0) :: t) k).length
          with hf
        have herase := Finset.sum_erase_add (keyFinset t) f hk
        have hsub : ∑ k ∈ (keyFinset t).erase k0, f k =
            ∑ k ∈ (keyFinset t).erase k0, (parentsOf t k).length := by
          apply Finset.sum_congr rfl
          intro k hkmem
          simp only [hf]
          rw [parentsOf_cons_ne l0 t (Finset.ne_of_mem_erase hkmem)]
        have hle : ∑ k ∈ (keyFinset t).erase k0, (parentsOf t k).length ≤
            ∑ k ∈ keyFinset t, (parentsOf t k).length :=
          Finset.sum_le_sum_of_subset (Finset.erase_subset _ _)
        have hfk0 : f k0 = l0.length := by
          simp only [hf]
          rw [parentsOf_cons_self]
        rw [← herase, hsub, hfk0]
        omega
      · rw [Finset.sum_insert hk]
        have hsub : ∑ k ∈ keyFinset t, (parentsOf ((k0, l0) :: t) k).length =
            ∑ k ∈ keyFinset t, (parentsOf t k).length := by
          apply Finset.sum_congr rfl
          intro k hkmem
          rw [parentsOf_cons_ne l0 t (by rintro rfl; exact hk hkmem)]
        rw [hsub, parentsOf_cons_self]
        omega

theorem get_all_ancestors_fuel_ok (x : Nat) (g : ParentGraph) :
    gaaMeasure g (parentsOf g x) [] ≤
      (parentsOf g x).length + totalParentLen g + 1 := by
  unfold gaaMeasure
  have h1 : ∑ k ∈ (keyFinset g).filter (fun k => (k ∉ ([] : List Nat))),
      (parentsOf g k).length ≤ ∑ k ∈ keyFinset g, (parentsOf g k).length := by
    apply Finset.sum_le_sum_of_subset
    exact Finset.filter_subset _ _
  have h2 := sum_parentsOf_le_totalParentLen g
  omega

/-- Claim-supporting characterisation: membership in `get_all_ancestors`
is exactly upward reachability. -/
theorem mem_get_all_ancestors {g : ParentGraph} {x a : Nat} :
    a ∈ get_all_ancestors x g ↔ UpReach g x a := by
  constructor
  · intro ha
    refine gaaFuel_sound (g := g) (fun c => UpReach g x c) ?_ _ _ _ ?_ ?_ a ha
    · intro c b hc hb
      obtain ⟨d, hd, hrt⟩ := hc
      exact ⟨d, hd, Relation.ReflTransGen.tail hrt hb⟩
    · intro c hc
      simp at hc
    · intro c hc
      exact ⟨c, hc, Relation.ReflTransGen.refl⟩
  · rintro ⟨b, hb, hrt⟩
    unfold get_all_ancestors
    have hfuel := get_all_ancestors_fuel_ok x g
    induction hrt with
    | refl =>
        exact gaaFuel_supset _ _ _ hfuel b (Or.inr hb)
    | tail hprev hstep ihprev =>
        rename_i c d
        have hc := ihprev
        exact gaaFuel_closed _ _ _ hfuel
          (by intro c hc; simp at hc) c hc d hstep

/-- Claim C6: `would_create_cycle(child, proposedParent, graph)` returns
true if and only if `child = proposedParent` or `child` is already an
ancestor of `proposedParent` (i.e. `child` lies in the transitive
closure of parents reachable upward from `proposedParent`). -/
theorem claim_C6_would_create_cycle (g : ParentGraph)
    (child proposedParent : Nat) :
    would_create_cycle child proposedParent g = true ↔
      (child = proposedParent ∨ UpReach g proposedParent child) := by
  by_cases h : child = proposedParent
  · simp [would_create_cycle, h]
  · simp [would_create_cycle, h, mem_get_all_ancestors]

/-! ### The rescue resolver (claim C4) -/

theorem firstRootMatch_spec {roots : List String} {rl : String}
    {pws : List Pathway} {p : Pathway}
    (h : firstRootMatch roots rl pws = some p) :
    p ∈ pws ∧ p.name ∈ roots := by
  induction roots with
  | nil => simp [firstRootMatch] at h
  | cons r rs ih =>
      rw [firstRootMatch] at h
      by_cases hm : (strContainsSub rl (strToLower r) ||
          strContainsSub (strToLower r) rl) = true
      · rw [if_pos hm] at h
        rcases hfind : pws.find? (fun q => q.name == r) with _ | f
        · rw [hfind] at h
          have := ih h
          exact ⟨this.1, List.mem_cons_of_mem _ this.2⟩
        · rw [hfind] at h
          cases h
          have hmem := List.mem_of_find?_eq_some hfind
          have hname := List.find?_some hfind
          simp only [beq_iff_eq] at hname
          exact ⟨hmem, by rw [hname]; exact List.mem_cons_self _ _⟩
      · rw [if_neg hm] at h
        have := ih h
        exact ⟨this.1, List.mem_cons_of_mem _ this.2⟩

theorem keyword_fold_keys {kw : String} :
    ∀ (l : List (String × List String)) (acc : Option String × Nat)
      (pl : String),
      ((l.foldl (fun acc rk =>
          let score := (rk.2.filter (fun k => strContainsSub pl k)).length
          if acc.2 < score then (some rk.1, score) else acc) acc).1 =
        some kw) →
      acc.1 = some kw ∨ kw ∈ l.map Prod.fst := by
  intro l
  induction l with
  | nil => intro acc pl h; exact Or.inl h
  | cons rk rs ih =>
      intro acc pl h
      rw [List.foldl_cons] at h
      rcases ih _ pl h with hacc | hmem
      · by_cases hlt : acc.2 <
            (rk.2.filter (fun k => strContainsSub pl k)).length
        · rw [if_pos hlt] at hacc
          cases hacc
          exact Or.inr (List.mem_cons_self _ _)
        · rw [if_neg hlt] at hacc
          exact Or.inl hacc
      · exact Or.inr (List.mem_cons_of_mem _ hmem)

theorem keyword_rescue_match_mem {n kw : String}
    (h : keyword_rescue_match n = some kw) : kw ∈ STRICT_ROOTS := by
  unfold keyword_rescue_match at h
  rcases keyword_fold_keys ROOT_KEYWORDS (none, 0) (strToLower n) h with h' | h'
  · exact absurd h' (by simp)
  · have : ∀ k ∈ ROOT_KEYWORDS.map Prod.fst, k ∈ STRICT_ROOTS := by decide
    exact this kw h'

theorem rescueFallback_spec (n : String) (pws : List Pathway) :
    (∃ p, rescueFallback n pws = some p ∧ p ∈ pws ∧
      (p.name ∈ STRICT_ROOTS ∨ p.name = "Protein Quality Control")) ∨
    (rescueFallback n pws = none ∧
      ∀ p ∈ pws, p.name ≠ "Protein Quality Control") := by
  have hPQC :
      (∃ p, pws.find? (fun q => q.name == "Protein Quality Control") = some p ∧
        p ∈ pws ∧ (p.name ∈ STRICT_ROOTS ∨ p.name = "Protein Quality Control")) ∨
      (pws.find? (fun q => q.name == "Protein Quality Control") = none ∧
        ∀ p ∈ pws, p.name ≠ "Protein Quality Control") := by
    rcases hf : pws.find? (fun q => q.name == "Protein Quality Control") with
      _ | f
    · refine Or.inr ⟨hf, fun p hp hpe => ?_⟩
      have := List.find?_eq_none.1 hf p hp
      simp [hpe] at this
    · refine Or.inl ⟨f, hf, List.mem_of_find?_eq_some hf, Or.inr ?_⟩
      have := List.find?_some hf
      simpa using this
  unfold rescueFallback
  rcases hk : keyword_rescue_match n with _ | kw
  · simp only []
    exact hPQC
  · simp only []
    rcases hfind : pws.find? (fun p => p.name == kw) with _ | f
    · rw [hfind]
      exact hPQC
    · rw [hfind]
      refine Or.inl ⟨f, rfl, List.mem_of_find?_eq_some hfind, Or.inl ?_⟩
      have hname := List.find?_some hfind
      simp only [beq_iff_eq] at hname
      rw [hname]
      exact keyword_rescue_match_mem hk

/-- Claim C4 (amended): the rescue resolver returns the oracle- or
keyword-matched canonical root when that root exists in the pathway
table, and otherwise falls back to the pathway named "Protein Quality
Control" (which is *not* one of the canonical roots); when that row
does not exist either, it returns `None` — the resolver is not total. -/
theorem claim_C4_rescue_resolver (pathway_name : String)
    (pws : List Pathway) (resp : Option String) :
    (∃ p, get_smart_rescue_parent pathway_name pws resp = some p ∧
      p ∈ pws ∧ (p.name ∈ STRICT_ROOTS ∨ p.name = "Protein Quality Control")) ∨
    (get_smart_rescue_parent pathway_name pws resp = none ∧
      ∀ p ∈ pws, p.name ≠ "Protein Quality Control") := by
  unfold get_smart_rescue_parent
  rcases hr : resp with _ | root_name
  · exact rescueFallback_spec pathway_name pws
  · by_cases he : root_name.isEmpty
    · simp only [he, if_true]
      exact rescueFallback_spec pathway_name pws
    · simp only [he, if_false]
      rcases hm : firstRootMatch STRICT_ROOTS (strToLower root_name) pws with
        _ | found
      · exact rescueFallback_spec pathway_name pws
      · have := firstRootMatch_spec hm
        exact Or.inl ⟨found, rfl, this.1, Or.inl this.2⟩


/-- Claim C4 is false as stated: on the nonsense name "zzz" with the
oracle unavailable, the resolver returns the "Protein Quality Control"
row — which is not one of the N canonical roots — and when that row is
absent (only the seven roots exist) it returns `None` instead of a
canonical root. -/
theorem claim_C4_counterexample :
    (∃ p, get_smart_rescue_parent "zzz" c4Table none = some p ∧
      p.name = "Protein Quality Control" ∧ p.name ∉ STRICT_ROOTS) ∧
    get_smart_rescue_parent "zzz" c4Roots none = none := by
  decide

/-! ### Tree enforcement and surviving cycles (claim C1) -/


/-- Claim C1 is false as stated: on the input containing the mutual
2-node cycle `A→B, B→A` (each node single-parent), the TreeEnforce
phase is a no-op that even reports success, and `find_all_cycles`
afterwards still returns the cycle, not the empty list. -/
theorem claim_C1_counterexample :
    (phase2_tree_enforcement c1DB trivialOracle false).2 = c1DB ∧
    (phase2_tree_enforcement c1DB trivialOracle false).1.success = true ∧
    find_all_cycles (build_parent_graph
      (phase2_tree_enforcement c1DB trivialOracle false).2.parentLinks) ≠ [] := by
  decide

/-- Claim C1 (amended): `phase2_tree_enforcement` only acts on nodes
with more than one parent; when the input graph has no multi-parent
node the phase returns the input state unchanged with `success=true`,
so any pre-existing cycle among single-parent nodes — including a
mutual `A→B, B→A` cycle — survives the phase and is still reported by
`find_all_cycles`. -/
theorem claim_C1_tree_enforce_noop (db : DB) (orc : Oracle) (dry : Bool)
    (h : detect_multi_parent_nodes (build_parent_graph db.parentLinks) = []) :
    phase2_tree_enforcement db orc dry =
      ({ phase_name := "Tree Enforcement", success := true }, db) := by
  unfold phase2_tree_enforcement
  simp [h]

theorem claim_C1_tree_enforce_noop_witness :
    detect_multi_parent_nodes (build_parent_graph c1DB.parentLinks) = [] ∧
    phase2_tree_enforcement c1DB trivialOracle false =
      ({ phase_name := "Tree Enforcement", success := true }, c1DB) :=
  ⟨by decide, claim_C1_tree_enforce_noop c1DB trivialOracle false (by decide)⟩

/-! ### The orchestrator does not halt on phase failure (claim C9) -/


/-- Claim C9 is false as stated: starting at phase 4 on `c9DB`, the
InteractionSync phase returns `success=false` (missing fallback
pathway), yet the Pruning and PreflightValidation phases still execute
— Pruning even deletes the orphan row after the failed phase. -/
theorem claim_C9_counterexample :
    ((reorganize_pathways false 4 trivialOracle c9DB).1.map
        (fun kv => (kv.1, kv.2.success)) =
      [("interaction_sync", false), ("pruning", true), ("preflight", false)]) ∧
    (reorganize_pathways false 4 trivialOracle c9DB).2.pathways = [] := by
  decide

/-- Claim C9 (amended): the orchestrator is the fixed phase sequence
Dedup → TreeEnforce → HierarchyRepair → AssociationSync → Pruning →
PreflightValidation, but it is *not* terminal on a phase reporting
`success=false`: for every database, oracle and mode, the phases
executed are exactly those with index ≥ `start_phase`, independent of
any phase's success flag. -/
theorem claim_C9_phases_unconditional (dry : Bool) (start : Nat)
    (orc : Oracle) (db : DB) :
    (reorganize_pathways dry start orc db).1.map Prod.fst =
      (([(1, "deduplication"), (2, "tree_enforcement"),
         (3, "hierarchy_repair"), (4, "interaction_sync"),
         (5, "pruning"), (6, "preflight")] : List (Nat × String)).filter
        (fun kv => start ≤ kv.1)).map Prod.snd := by
  match start with
  | 0 => simp [reorganize_pathways, runPhase]
  | 1 => simp [reorganize_pathways, runPhase]
  | 2 => simp [reorganize_pathways, runPhase]
  | 3 => simp [reorganize_pathways, runPhase]
  | 4 => simp [reorganize_pathways, runPhase]
  | 5 => simp [reorganize_pathways, runPhase]
  | 6 => simp [reorganize_pathways, runPhase]
  | (s + 7) =>
      have h1 : ¬ (s + 7 ≤ 1) := by omega
      have h2 : ¬ (s + 7 ≤ 2) := by omega
      have h3 : ¬ (s + 7 ≤ 3) := by omega
      have h4 : ¬ (s + 7 ≤ 4) := by omega
      have h5 : ¬ (s + 7 ≤ 5) := by omega
      have h6 : ¬ (s + 7 ≤ 6) := by omega
      simp [reorganize_pathways, runPhase, h1, h2, h3, h4, h5, h6]

/-! ### Dry-run is not side-effect free (claim C7) -/


/-- Claim C7 fails on the code: invoked with `dry_run=True` on a state
with one broken parent link, `phase3_hierarchy_repair` deletes the link
from the session inside its `[DRY RUN]` branch and then commits, so the
persisted edge table after the dry run differs from the one before. -/
theorem claim_C7_dry_run_mutates :
    (phase3_hierarchy_repair c7DB c7Oracle true).2.parentLinks = [] ∧
    c7DB.parentLinks ≠ [] ∧
    (phase3_hierarchy_repair c7DB c7Oracle true).2 ≠ c7DB := by
  decide

/-! ### CRITICAL issues and auto-repair (claim C8) -/


/-- Claim C8 is false as stated: every issue `check_all_roots_exist`
reports on the empty table is CRITICAL, yet `run_auto_repairs` repairs
all seven of them (creating the missing root rows). -/
theorem claim_C8_counterexample :
    (∀ i ∈ (check_all_roots_exist c8DB).issues,
      i.severity = Severity.CRITICAL ∧ i.auto_fixable = true) ∧
    (run_auto_repairs (check_all_roots_exist c8DB).issues c8DB
      trivialOracle).1.succeeded = 7 ∧
    ((run_auto_repairs (check_all_roots_exist c8DB).issues c8DB
      trivialOracle).2.pathways.map (fun p => p.name)) = STRICT_ROOTS := by
  decide

theorem repairStep_all_skipped (orc : Oracle) :
    ∀ (issues : List Issue) (s : RepairSummary) (db : DB),
      (∀ i ∈ issues, i.auto_fixable = false ∧ i.severity ≠ Severity.LOW) →
      issues.foldl (repairStep orc) (s, db) =
        ({ s with skipped := s.skipped + issues.length }, db) := by
  intro issues
  induction issues with
  | nil => intro s db _; simp
  | cons i t ih =>
      intro s db h
      have hi := h i (List.mem_cons_self _ _)
      rw [List.foldl_cons]
      have hstep : repairStep orc (s, db) i =
          ({ s with skipped := s.skipped + 1 }, db) := by
        unfold repairStep
        rw [if_pos (by simp [hi.1])]
      have harith : s.skipped + 1 + t.length = s.skipped + (t.length + 1) := by
        omega
      rw [hstep, ih _ _ (fun j hj => h j (List.mem_cons_of_mem _ hj))]
      simp only [List.length_cons, harith]

theorem add_issue_issues (r : CheckResult) (sev : Severity)
    (msg etype : String) (eid : Option Nat) (fx : Bool) :
    (r.add_issue sev msg etype eid fx).issues =
      r.issues ++ [⟨r.check_name, sev, msg, etype, eid, fx⟩] := by
  unfold CheckResult.add_issue
  split <;> rfl

theorem add_issue_preserves_false {r : CheckResult} (h : r.passed = false)
    (sev : Severity) (msg etype : String) (eid : Option Nat) (fx : Bool) :
    (r.add_issue sev msg etype eid fx).passed = false := by
  unfold CheckResult.add_issue
  split
  · rfl
  · exact h

theorem foldl_add_issue_preserves_false {α : Type}
    (sev : α → Severity) (msg : α → String) (etype : α → String)
    (eid : α → Option Nat) (fx : α → Bool) :
    ∀ (l : List α) (r : CheckResult), r.passed = false →
      (l.foldl (fun r a =>
        r.add_issue (sev a) (msg a) (etype a) (eid a) (fx a)) r).passed =
        false := by
  intro l
  induction l with
  | nil => intro r h; exact h
  | cons a t ih =>
      intro r h
      rw [List.foldl_cons]
      exact ih _ (add_issue_preserves_false h _ _ _ _ _)

theorem foldl_add_issue_all {α : Type} (P : Issue → Prop)
    (sev : α → Severity) (msg : α → String) (etype : α → String)
    (eid : α → Option Nat) (fx : α → Bool)
    (hP : ∀ (r : CheckResult) (a : α),
      P ⟨r.check_name, sev a, msg a, etype a, eid a, fx a⟩) :
    ∀ (l : List α) (r : CheckResult), (∀ i ∈ r.issues, P i) →
      ∀ i ∈ (l.foldl (fun r a =>
          r.add_issue (sev a) (msg a) (etype a) (eid a) (fx a)) r).issues,
        P i := by
  intro l
  induction l with
  | nil => intro r h; exact h
  | cons a t ih =>
      intro r h
      rw [List.foldl_cons]
      refine ih _ ?_
      intro i hi
      rw [add_issue_issues] at hi
      rcases List.mem_append.1 hi with hi | hi
      · exact h i hi
      · rw [List.mem_singleton] at hi
        subst hi
        exact hP r a

theorem check_no_cycles_issues_critical_unfixable (db : DB) :
    ∀ i ∈ (check_no_cycles db).issues,
      i.severity = Severity.CRITICAL ∧ i.auto_fixable = false := by
  intro i hi
  unfold check_no_cycles at hi
  dsimp only [] at hi
  split at hi
  · refine foldl_add_issue_all
      (fun j => j.severity = Severity.CRITICAL ∧ j.auto_fixable = false)
      (fun _ => Severity.CRITICAL)
      (fun (c : List Nat) => "Cycle detected: " ++ String.intercalate " -> "
        (c.map toString))
      (fun _ => "pathway") (fun _ => none) (fun _ => false)
      (fun _ _ => ⟨rfl, rfl⟩) _ _ ?_ i hi
    intro j hj
    simp at hj
  · simp at hi

theorem check_no_cycles_blocks (db : DB)
    (h : ¬ (check_no_cycles db).issues.isEmpty) :
    (check_no_cycles db).passed = false := by
  unfold check_no_cycles at h ⊢
  dsimp only [] at h ⊢
  split at h
  · next hcond =>
      rw [if_pos hcond]
      exact foldl_add_issue_preserves_false
        (fun _ => Severity.CRITICAL)
        (fun (c : List Nat) => "Cycle detected: " ++ String.intercalate " -> "
          (c.map toString))
        (fun _ => "pathway") (fun _ => none) (fun _ => false) _ _ rfl
  · next hcond =>
      exfalso
      apply h
      simp

theorem check_all_roots_critical_blocks (db : DB) :
    ∀ i ∈ (check_all_roots_exist db).issues,
      i.severity = Severity.CRITICAL →
      (check_all_roots_exist db).passed = false := by
  intro i hi hc
  unfold check_all_roots_exist at hi ⊢
  dsimp only [] at hi ⊢
  by_cases hm : (STRICT_ROOTS.filter (fun n =>
      ¬ ((db.pathways.filter (fun p => p.name ∈ STRICT_ROOTS)).map
        (fun r => r.name)).contains n)).isEmpty = true
  · rw [if_neg (not_not_intro hm)] at hi
    have hmed := foldl_add_issue_all
      (fun j => j.severity = Severity.MEDIUM)
      (fun _ => Severity.MEDIUM)
      (fun (pw : Pathway) =>
        "Root " ++ pw.name ++ " has wrong level, should be 0")
      (fun _ => "pathway") (fun (pw : Pathway) => some pw.id) (fun _ => true)
      (fun _ _ => rfl) _ _ (by intro j hj; simp at hj) i hi
    have hmed' : i.severity = Severity.MEDIUM := hmed
    rw [hc] at hmed'
    cases hmed'
  · rw [if_pos hm]
    exact foldl_add_issue_preserves_false
      (fun _ => Severity.MEDIUM)
      (fun (pw : Pathway) =>
        "Root " ++ pw.name ++ " has wrong level, should be 0")
      (fun _ => "pathway") (fun (pw : Pathway) => some pw.id) (fun _ => true)
      _ _
      (foldl_add_issue_preserves_false
        (fun _ => Severity.CRITICAL)
        (fun (name : String) => "Missing root pathway: " ++ name)
        (fun _ => "pathway") (fun _ => none) (fun _ => true) _ _ rfl)

/-- Claim C8 (amended): the auto-repair runner never touches an issue
that is not `auto_fixable` — in particular every cycle issue, which
`check_no_cycles` always emits as CRITICAL and non-fixable, and any
CRITICAL issue forces the emitting check's `passed=False` (blocking) —
but CRITICAL missing-root issues *are* marked auto-fixable and are
auto-repaired by `run_auto_repairs` via `repair_missing_root`. -/
theorem claim_C8_critical_auto_repair (db : DB) (orc : Oracle)
    (issues : List Issue) :
    ((∀ i ∈ issues, i.auto_fixable = false ∧ i.severity ≠ Severity.LOW) →
      run_auto_repairs issues db orc =
        (⟨issues.length, 0, 0, 0, issues.length, []⟩, db)) ∧
    (∀ i ∈ (check_no_cycles db).issues,
      i.severity = Severity.CRITICAL ∧ i.auto_fixable = false) ∧
    (¬ (check_no_cycles db).issues.isEmpty →
      (check_no_cycles db).passed = false) ∧
    (∀ i ∈ (check_all_roots_exist db).issues,
      i.severity = Severity.CRITICAL →
      (check_all_roots_exist db).passed = false) := by
  refine ⟨?_, check_no_cycles_issues_critical_unfixable db,
    fun h => check_no_cycles_blocks db h,
    check_all_roots_critical_blocks db⟩
  intro h
  unfold run_auto_repairs
  have hlow : issues.filter (fun i =>
      decide (i.severity = Severity.LOW)) = [] := by
    rw [List.filter_eq_nil_iff]
    intro a ha
    simp [(h a ha).2]
  dsimp only []
  rw [hlow]
  rw [if_neg (by simp)]
  rw [repairStep_all_skipped orc issues _ db h]
  simp

theorem claim_C8_critical_auto_repair_witness :
    (run_auto_repairs (check_no_cycles c1DB).issues c1DB trivialOracle =
      (⟨(check_no_cycles c1DB).issues.length, 0, 0, 0,
        (check_no_cycles c1DB).issues.length, []⟩, c1DB)) ∧
    (check_no_cycles c1DB).passed = false :=
  ⟨(claim_C8_critical_auto_repair c1DB trivialOracle
      (check_no_cycles c1DB).issues).1 (by decide),
   (claim_C8_critical_auto_repair c1DB trivialOracle []).2.2.1 (by decide)⟩

/-! ### Level computation (claim C5) -/

theorem lookup_cons_self {β : Type} (k : Nat) (v : β)
    (t : List (Nat × β)) : List.lookup k ((k, v) :: t) = some v := by
  simp [List.lookup]

theorem lookup_cons_ne {β : Type} {x k : Nat} (v : β) (t : List (Nat × β))
    (h : x ≠ k) : List.lookup x ((k, v) :: t) = List.lookup x t := by
  have hbeq : (x == k) = false := beq_eq_false_iff_ne.2 h
  simp [List.lookup, hbeq]

theorem lookup_setAssoc_self (ls : List (Nat × Int)) (k : Nat) (v : Int) :
    (setAssoc ls k v).lookup k = some v := by
  induction ls with
  | nil => simp [setAssoc, List.lookup]
  | cons kv t ih =>
      obtain ⟨k', v'⟩ := kv
      unfold setAssoc
      by_cases h : k' = k
      · rw [if_pos h, h]
        exact lookup_cons_self _ _ _
      · rw [if_neg h]
        rw [lookup_cons_ne _ _ (fun he => h he.symm)]
        exact ih

theorem lookup_setAssoc_ne (ls : List (Nat × Int)) {x k : Nat} (v : Int)
    (h : x ≠ k) : (setAssoc ls k v).lookup x = ls.lookup x := by
  induction ls with
  | nil =>
      simp only [setAssoc]
      rw [lookup_cons_ne _ _ h]
  | cons kv t ih =>
      obtain ⟨k', v'⟩ := kv
      unfold setAssoc
      by_cases hk : k' = k
      · rw [if_pos hk]
        subst hk
        by_cases hx : x = k'
        · exact absurd hx h
        · rw [lookup_cons_ne _ _ hx, lookup_cons_ne _ _ hx]
      · rw [if_neg hk]
        by_cases hx : x = k'
        · subst hx
          rw [lookup_cons_self, lookup_cons_self]
        · rw [lookup_cons_ne _ _ hx, lookup_cons_ne _ _ hx]
          exact ih

theorem childStep_preserve {curLevel : Int}
    {acc : List (Nat × Int) × List Nat} {child k : Nat} {v : Int}
    (hv : v ≠ -1) (h : acc.1.lookup k = some v) :
    (bfsChildStep curLevel acc child).1.lookup k = some v := by
  unfold bfsChildStep
  split
  · next hcond =>
      have hne : k ≠ child := by
        rintro rfl
        rw [h] at hcond
        exact hv (by injection hcond)
      simpa [lookup_setAssoc_ne _ _ hne] using h
  · exact h

theorem childFold_preserve (curLevel : Int) :
    ∀ (children : List Nat) (acc : List (Nat × Int) × List Nat)
      (k : Nat) (v : Int), v ≠ -1 → acc.1.lookup k = some v →
      ((children.foldl (bfsChildStep curLevel) acc).1.lookup k = some v) := by
  intro children
  induction children with
  | nil => intro acc k v _ h; exact h
  | cons c cs ih =>
      intro acc k v hv h
      rw [List.foldl_cons]
      exact ih _ k v hv (childStep_preserve hv h)

theorem bfsLevels_preserve (cg : ParentGraph) :
    ∀ (fuel : Nat) (q : List Nat) (ls : List (Nat × Int)) (k : Nat)
      (v : Int), v ≠ -1 → ls.lookup k = some v →
      (bfsLevels cg fuel q ls).lookup k = some v := by
  intro fuel
  induction fuel with
  | zero => intro q ls k v _ h; exact h
  | succ n ih =>
      intro q ls k v hv h
      match q with
      | [] => exact h
      | cur :: queue =>
          rw [bfsLevels]
          rcases hcur : ls.lookup cur with _ | curLevel
          · exact ih queue ls k v hv h
          · exact ih _ _ k v hv (childFold_preserve curLevel _ _ k v hv h)

theorem parentsOf_dictAppend_self (d : List (Nat × List Nat)) (k v : Nat) :
    parentsOf (dictAppend d k v) k = parentsOf d k ++ [v] := by
  induction d with
  | nil => simp [dictAppend, parentsOf, List.lookup]
  | cons kv t ih =>
      obtain ⟨k', l⟩ := kv
      unfold dictAppend
      by_cases h : k' = k
      · rw [if_pos h]
        subst h
        rw [parentsOf_cons_self, parentsOf_cons_self]
  
      · rw [if_neg h]
        rw [parentsOf_cons_ne _ _ (fun he => h he.symm),
          parentsOf_cons_ne _ _ (fun he => h he.symm)]
        exact ih

theorem parentsOf_dictAppend_ne (d : List (Nat × List Nat)) {x k : Nat}
    (v : Nat) (h : x ≠ k) :
    parentsOf (dictAppend d k v) x = parentsOf d x := by
  induction d with
  | nil =>
      simp only [dictAppend]
      rw [parentsOf_cons_ne _ _ h]
  | cons kv t ih =>
      obtain ⟨k', l⟩ := kv
      unfold dictAppend
      by_cases hk : k' = k
      · rw [if_pos hk]
        subst hk
        by_cases hx : x = k'
        · exact absurd hx h
        · rw [parentsOf_cons_ne _ _ hx, parentsOf_cons_ne _ _ hx]
      · rw [if_neg hk]
        by_cases hx : x = k'
        · subst hx
          rw [parentsOf_cons_self, parentsOf_cons_self]
        · rw [parentsOf_cons_ne _ _ hx, parentsOf_cons_ne _ _ hx]
          exact ih

theorem innerCG_mem (c0 : Nat) :
    ∀ (ps : List Nat) (acc : ParentGraph) (p c : Nat),
      (c ∈ parentsOf (ps.foldl (fun cg' q => dictAppend cg' q c0) acc) p ↔
        c ∈ parentsOf acc p ∨ (c = c0 ∧ p ∈ ps)) := by
  intro ps
  induction ps with
  | nil => intro acc p c; simp
  | cons q qs ih =>
      intro acc p c
      rw [List.foldl_cons, ih]
      by_cases hp : p = q
      · subst hp
        rw [parentsOf_dictAppend_self]
        simp only [List.mem_append, List.mem_singleton, List.mem_cons]
        tauto
      · rw [parentsOf_dictAppend_ne _ _ hp]
        simp only [List.mem_cons]
        constructor
        · rintro (h | ⟨rfl, h⟩)
          · exact Or.inl h
          · exact Or.inr ⟨rfl, Or.inr h⟩
        · rintro (h | ⟨rfl, (rfl | h)⟩)
          · exact Or.inl h
          · exact absurd rfl hp
          · exact Or.inr ⟨rfl, h⟩

theorem buildCG_mem :
    ∀ (g acc : ParentGraph) (p c : Nat),
      (c ∈ parentsOf (g.foldl (fun cg kv =>
          kv.2.foldl (fun cg' q => dictAppend cg' q kv.1) cg) acc) p ↔
        c ∈ parentsOf acc p ∨ ∃ kv ∈ g, kv.1 = c ∧ p ∈ kv.2) := by
  intro g
  induction g with
  | nil => intro acc p c; simp
  | cons kv t ih =>
      intro acc p c
      rw [List.foldl_cons, ih, innerCG_mem]
      simp only [List.mem_cons]
      constructor
      · rintro ((h | ⟨rfl, h⟩) | ⟨kv', hkv', h⟩)
        · exact Or.inl h
        · exact Or.inr ⟨kv, Or.inl rfl, rfl, h⟩
        · exact Or.inr ⟨kv', Or.inr hkv', h⟩
      · rintro (h | ⟨kv', (rfl | hkv'), h⟩)
        · exact Or.inl (Or.inl h)
        · exact Or.inl (Or.inr ⟨h.1.symm ▸ rfl, h.2⟩)
        · exact Or.inr ⟨kv', hkv', h⟩

theorem lookup_mem {β : Type} {g : List (Nat × β)} {x : Nat} {l : β}
    (h : g.lookup x = some l) : (x, l) ∈ g := by
  induction g with
  | nil => simp [List.lookup] at h
  | cons kv t ih =>
      obtain ⟨k, v⟩ := kv
      by_cases hx : x = k
      · subst hx
        rw [lookup_cons_self] at h
        injection h with h
        subst h
        exact List.mem_cons_self _ _
      · rw [lookup_cons_ne _ _ hx] at h
        exact List.mem_cons_of_mem _ (ih h)

theorem nodup_lookup_eq {g : ParentGraph}
    (hnd : (g.map Prod.fst).Nodup) {kv : Nat × List Nat} (hkv : kv ∈ g) :
    g.lookup kv.1 = some kv.2 := by
  induction g with
  | nil => simp at hkv
  | cons hd t ih =>
      obtain ⟨k, v⟩ := hd
      rw [List.map_cons, List.nodup_cons] at hnd
      rcases List.mem_cons.1 hkv with rfl | hkv'
      · exact lookup_cons_self _ _ _
      · have hne : kv.1 ≠ k := by
          intro he
          apply hnd.1
          rw [← he]
          exact List.mem_map.2 ⟨kv, hkv', rfl⟩
        rw [lookup_cons_ne _ _ hne]
        exact ih hnd.2 hkv'

theorem mem_buildChildGraph {g : ParentGraph}
    (hnd : (g.map Prod.fst).Nodup) (p c : Nat) :
    c ∈ parentsOf (buildChildGraph g) p ↔ p ∈ parentsOf g c := by
  unfold buildChildGraph
  rw [buildCG_mem]
  constructor
  · rintro (h | ⟨kv, hkv, rfl, h⟩)
    · simp [parentsOf, List.lookup] at h
    · have := nodup_lookup_eq hnd hkv
      unfold parentsOf
      rw [this]
      exact h
  · intro h
    unfold parentsOf at h
    rcases hl : g.lookup c with _ | l
    · rw [hl] at h; simp at h
    · rw [hl] at h
      exact Or.inr ⟨(c, l), lookup_mem hl, rfl, h⟩

theorem init_levels_lookup {pws : List Pathway} {k : Nat} {v : Int}
    (h : ((pws.map (fun p => (p.id, (-1 : Int)))).lookup k) = some v) :
    v = -1 := by
  induction pws with
  | nil => simp [List.lookup] at h
  | cons p t ih =>
      by_cases hk : k = p.id
      · subst hk
        rw [List.map_cons, lookup_cons_self] at h
        injection h with h
        exact h.symm
      · rw [List.map_cons, lookup_cons_ne _ _ hk] at h
        exact ih h

theorem fold_setzero_preserve :
    ∀ (rs : List Pathway) (ls : List (Nat × Int)) (k : Nat),
      ls.lookup k = some 0 →
      ((rs.foldl (fun ls r => setAssoc ls r.id 0) ls).lookup k) = some 0 := by
  intro rs
  induction rs with
  | nil => intro ls k h; exact h
  | cons r t ih =>
      intro ls k h
      rw [List.foldl_cons]
      refine ih _ k ?_
      by_cases hk : k = r.id
      · subst hk
        exact lookup_setAssoc_self _ _ _
      · rw [lookup_setAssoc_ne _ _ hk]
        exact h

theorem fold_setzero_zero :
    ∀ (rs : List Pathway) (ls : List (Nat × Int)) (k : Nat),
      k ∈ rs.map (fun r => r.id) →
      ((rs.foldl (fun ls r => setAssoc ls r.id 0) ls).lookup k) = some 0 := by
  intro rs
  induction rs with
  | nil => intro ls k h; simp at h
  | cons r t ih =>
      intro ls k h
      rw [List.foldl_cons]
      rcases List.mem_cons.1 h with rfl | h'
      · exact fold_setzero_preserve t _ _ (lookup_setAssoc_self _ _ _)
      · exact ih _ _ h'

theorem fold_setzero_cases :
    ∀ (rs : List Pathway) (ls : List (Nat × Int)) (k : Nat),
      ((rs.foldl (fun ls r => setAssoc ls r.id 0) ls).lookup k) =
          ls.lookup k ∨
      (((rs.foldl (fun ls r => setAssoc ls r.id 0) ls).lookup k) = some 0 ∧
        k ∈ rs.map (fun r => r.id)) := by
  intro rs
  induction rs with
  | nil => intro ls k; exact Or.inl rfl
  | cons r t ih =>
      intro ls k
      rw [List.foldl_cons]
      rcases ih (setAssoc ls r.id 0) k with h | ⟨h, hm⟩
      · by_cases hk : k = r.id
        · subst hk
          rw [lookup_setAssoc_self] at h
          exact Or.inr ⟨h, by simp⟩
        · rw [lookup_setAssoc_ne _ _ hk] at h
          exact Or.inl h
      · exact Or.inr ⟨h, by simp [hm]⟩

theorem childFold_inv (pws : List Pathway) (g : ParentGraph)
    (hnd : (g.map Prod.fst).Nodup) (cur : Nat) (curLevel : Int)
    (hcur0 : 0 ≤ curLevel) :
    ∀ (children : List Nat),
      (∀ c ∈ children, c ∈ parentsOf (buildChildGraph g) cur) →
      ∀ (acc : List (Nat × Int) × List Nat),
        acc.1.lookup cur = some curLevel →
        LevelsQueueInv acc.1 acc.2 →
        LevelsRange acc.1 →
        LevelsJustified pws g acc.1 →
        ((children.foldl (bfsChildStep curLevel) acc).1.lookup cur =
            some curLevel) ∧
        LevelsQueueInv (children.foldl (bfsChildStep curLevel) acc).1
          (children.foldl (bfsChildStep curLevel) acc).2 ∧
        LevelsRange (children.foldl (bfsChildStep curLevel) acc).1 ∧
        LevelsJustified pws g (children.foldl (bfsChildStep curLevel) acc).1 := by
  intro children
  induction children with
  | nil => intro _ acc h1 h2 h3 h4; exact ⟨h1, h2, h3, h4⟩
  | cons c cs ih =>
      intro hch acc hcur hq hr hj
      rw [List.foldl_cons]
      refine ih (fun d hd => hch d (List.mem_cons_of_mem _ hd))
        (bfsChildStep curLevel acc c) ?_ ?_ ?_ ?_
      all_goals (
        unfold bfsChildStep
        split)
      case _ hcond =>
        -- lookup cur preserved: cur ≠ c because its level is ≥ 0
        have hne : cur ≠ c := by
          rintro rfl
          rw [hcur] at hcond
          injection hcond with h
          omega
        simpa [lookup_setAssoc_ne _ _ hne] using hcur
      case _ => exact hcur
      case _ hcond =>
        -- queue invariant
        intro e he
        simp only [List.mem_append, List.mem_singleton] at he
        rcases he with he | rfl
        · obtain ⟨v, hv, hv0⟩ := hq e he
          have hne : e ≠ c := by
            rintro rfl
            rw [hv] at hcond
            injection hcond with h
            omega
          exact ⟨v, by simpa [lookup_setAssoc_ne _ _ hne] using hv, hv0⟩
        · exact ⟨curLevel + 1, lookup_setAssoc_self _ _ _, by omega⟩
      case _ => exact hq
      case _ hcond =>
        -- range
        intro k v hk
        by_cases hkc : k = c
        · subst hkc
          rw [lookup_setAssoc_self] at hk
          injection hk with hk
          right
          omega
        · rw [lookup_setAssoc_ne _ _ hkc] at hk
          exact hr k v hk
      case _ => exact hr
      case _ hcond =>
        -- justification
        intro k v hk hv0
        by_cases hkc : k = c
        · subst hkc
          rw [lookup_setAssoc_self] at hk
          injection hk with hk
          subst hk
          refine Or.inr ⟨by omega, cur, ?_, ?_⟩
          · exact (mem_buildChildGraph hnd cur k).1
              (hch k (List.mem_cons_self _ _))
          · have hne : cur ≠ k := by
              rintro rfl
              rw [hcur] at hcond
              injection hcond with h
              omega
            have : curLevel + 1 - 1 = curLevel := by omega
            rw [this, lookup_setAssoc_ne _ _ hne]
            exact hcur
        · rw [lookup_setAssoc_ne _ _ hkc] at hk
          rcases hj k v hk hv0 with ⟨hv, hroot⟩ | ⟨hv1, p, hp, hlp⟩
          · exact Or.inl ⟨hv, hroot⟩
          · refine Or.inr ⟨hv1, p, hp, ?_⟩
            have hne : p ≠ c := by
              rintro rfl
              rw [hlp] at hcond
              injection hcond with h
              omega
            rw [lookup_setAssoc_ne _ _ hne]
            exact hlp
      case _ => exact hj

theorem bfsLevels_inv (pws : List Pathway) (g : ParentGraph)
    (hnd : (g.map Prod.fst).Nodup) :
    ∀ (fuel : Nat) (q : List Nat) (ls : List (Nat × Int)),
      LevelsQueueInv ls q → LevelsRange ls → LevelsJustified pws g ls →
      LevelsRange (bfsLevels (buildChildGraph g) fuel q ls) ∧
      LevelsJustified pws g (bfsLevels (buildChildGraph g) fuel q ls) := by
  intro fuel
  induction fuel with
  | zero => intro q ls _ hr hj; exact ⟨hr, hj⟩
  | succ n ih =>
      intro q ls hq hr hj
      match q with
      | [] => exact ⟨hr, hj⟩
      | cur :: queue =>
          rw [bfsLevels]
          rcases hcur : ls.lookup cur with _ | curLevel
          · exact ih queue ls
              (fun c hc => hq c (List.mem_cons_of_mem _ hc)) hr hj
          · obtain ⟨v0, hv0, hv0pos⟩ := hq cur (List.mem_cons_self _ _)
            rw [hcur] at hv0
            injection hv0 with hv0eq
            subst hv0eq
            have hinv := childFold_inv pws g hnd cur curLevel hv0pos
              (parentsOf (buildChildGraph g) cur) (fun _ hc => hc)
              (ls, queue) hcur
              (fun c hc => hq c (List.mem_cons_of_mem _ hc)) hr hj
            exact ih _ _ hinv.2.1 hinv.2.2.1 hinv.2.2.2

theorem rootIds_mem {pws : List Pathway} {k : Nat} (h : k ∈ rootIds pws) :
    ∃ r ∈ pws, r.name ∈ STRICT_ROOTS ∧ r.id = k := by
  unfold rootIds at h
  rcases List.mem_map.1 h with ⟨r, hr, hrk⟩
  rcases List.mem_filter.1 hr with ⟨hrm, hrp⟩
  exact ⟨r, hrm, of_decide_eq_true hrp, hrk⟩

theorem justified_reachable (pws : List Pathway) (g : ParentGraph)
    (ls : List (Nat × Int)) (hj : LevelsJustified pws g ls) :
    ∀ (n : Nat) (k : Nat) (v : Int), v.toNat ≤ n →
      ls.lookup k = some v → 0 ≤ v → RootReachable pws g k := by
  intro n
  induction n with
  | zero =>
      intro k v hn hk hv
      rcases hj k v hk hv with ⟨_, hroot⟩ | ⟨hv1, _⟩
      · rcases rootIds_mem hroot with ⟨r, hrm, hrn, hrk⟩
        refine ⟨r, hrm, hrn, ?_⟩
        rw [hrk]
      · exfalso; omega
  | succ n ih =>
      intro k v hn hk hv
      rcases hj k v hk hv with ⟨_, hroot⟩ | ⟨hv1, p, hp, hlp⟩
      · rcases rootIds_mem hroot with ⟨r, hrm, hrn, hrk⟩
        refine ⟨r, hrm, hrn, ?_⟩
        rw [hrk]
      · rcases ih p (v - 1) (by omega) hlp (by omega) with ⟨r, hrm, hrn, hrr⟩
        exact ⟨r, hrm, hrn, Relation.ReflTransGen.tail hrr hp⟩

/-- C5.  Corrected: `calculate_hierarchy_levels` is BFS from the
strict-root rows and every strict root does get level `0`, while every
pathway the BFS never reaches keeps the sentinel `-1`; but an assigned
positive level is one more than the level of the FIRST parent that
reached the node (its BFS distance from the root set), not
`max(parent levels) + 1` as claimed — see the diamond counterexample. -/
theorem claim_C5_level_computation (pws : List Pathway) (g : ParentGraph)
    (hkeys : (g.map Prod.fst).Nodup) :
    (∀ r ∈ pws, r.name ∈ STRICT_ROOTS →
       (calculate_hierarchy_levels pws g).lookup r.id = some 0) ∧
    (∀ k v, (calculate_hierarchy_levels pws g).lookup k = some v → 0 ≤ v →
       (v = 0 ∧ k ∈ rootIds pws) ∨
       (1 ≤ v ∧ ∃ p ∈ parentsOf g k,
          (calculate_hierarchy_levels pws g).lookup p = some (v - 1))) ∧
    (∀ k v, (calculate_hierarchy_levels pws g).lookup k = some v →
       ¬ RootReachable pws g k → v = -1) := by
  have hdef : calculate_hierarchy_levels pws g =
      bfsLevels (buildChildGraph g) (2 * pws.length + 1)
        ((pws.filter (fun p => p.name ∈ STRICT_ROOTS)).map (fun r => r.id))
        ((pws.filter (fun p => p.name ∈ STRICT_ROOTS)).foldl
          (fun ls r => setAssoc ls r.id 0)
          (pws.map (fun p => (p.id, (-1 : Int))))) := rfl
  have hinit_range : LevelsRange
      ((pws.filter (fun p => p.name ∈ STRICT_ROOTS)).foldl
        (fun ls r => setAssoc ls r.id 0)
        (pws.map (fun p => (p.id, (-1 : Int))))) := by
    intro k v hk
    rcases fold_setzero_cases _ _ k with h | ⟨h, _⟩
    · rw [h] at hk
      exact Or.inl (init_levels_lookup hk)
    · rw [h] at hk
      injection hk with hk
      right
      omega
  have hinit_just : LevelsJustified pws g
      ((pws.filter (fun p => p.name ∈ STRICT_ROOTS)).foldl
        (fun ls r => setAssoc ls r.id 0)
        (pws.map (fun p => (p.id, (-1 : Int))))) := by
    intro k v hk hv
    rcases fold_setzero_cases _ _ k with h | ⟨h, hm⟩
    · rw [h] at hk
      have h1 := init_levels_lookup hk
      exfalso
      omega
    · rw [h] at hk
      injection hk with hk
      refine Or.inl ⟨by omega, ?_⟩
      exact hm
  have hinit_queue : LevelsQueueInv
      ((pws.filter (fun p => p.name ∈ STRICT_ROOTS)).foldl
        (fun ls r => setAssoc ls r.id 0)
        (pws.map (fun p => (p.id, (-1 : Int)))))
      ((pws.filter (fun p => p.name ∈ STRICT_ROOTS)).map (fun r => r.id)) := by
    intro c hc
    exact ⟨0, fold_setzero_zero _ _ c hc, le_refl 0⟩
  have hfin := bfsLevels_inv pws g hkeys (2 * pws.length + 1) _ _
    hinit_queue hinit_range hinit_just
  refine ⟨?_, ?_, ?_⟩
  · intro r hr hname
    rw [hdef]
    refine bfsLevels_preserve _ _ _ _ r.id 0 (by omega) ?_
    refine fold_setzero_zero _ _ r.id ?_
    exact List.mem_map.2
      ⟨r, List.mem_filter.2 ⟨hr, decide_eq_true hname⟩, rfl⟩
  · intro k v hk hv
    rw [hdef] at hk ⊢
    exact hfin.2 k v hk hv
  · intro k v hk hnr
    rw [hdef] at hk
    rcases hfin.1 k v hk with h | h
    · exact h
    · exact absurd
        (justified_reachable pws g _ hfin.2 v.toNat k v (le_refl _) hk h) hnr

/-- C5 witness: on the two-row fixture the key-nodup hypothesis holds
and the strict root `Proteostasis` (id 1) gets level `0`. -/
theorem claim_C5_level_computation_witness :
    (c5g.map Prod.fst).Nodup ∧
    (calculate_hierarchy_levels c5pws c5g).lookup 1 = some 0 := by
  refine ⟨by decide, ?_⟩
  exact (claim_C5_level_computation c5pws c5g (by decide)).1
    ⟨1, "Proteostasis", 0, false, 0, [], false⟩ (by decide) (by decide)

/-- C5 counterexample to `max(parent levels) + 1`: in the diamond
`1 → 2`, `1 → 3`, `2 → 3` the node `3` has parents `1` (level 0) and
`2` (level 1), so the claimed value is `max(0, 1) + 1 = 2`, but the BFS
records level `1` for it. -/
theorem claim_C5_counterexample :
    parentsOf c5gD 3 = [1, 2] ∧
    (calculate_hierarchy_levels c5pwsD c5gD).lookup 1 = some 0 ∧
    (calculate_hierarchy_levels c5pwsD c5gD).lookup 2 = some 1 ∧
    (calculate_hierarchy_levels c5pwsD c5gD).lookup 3 = some 1 ∧
    ¬ ((calculate_hierarchy_levels c5pwsD c5gD).lookup 3 =
        some (max 0 1 + 1)) := by decide

/-! ### Safe pruning (claim C2) -/

theorem rowChildStep_idname (lvl : Int) (acc : List Pathway × List Nat)
    (child_id : Nat) :
    ((rowChildStep lvl acc child_id).1).map (fun p => (p.id, p.name)) =
      acc.1.map (fun p => (p.id, p.name)) := by
  unfold rowChildStep
  split
  · split
    · rw [List.map_map]
      refine List.map_congr_left ?_
      intro p _
      simp only [Function.comp_apply]
      split <;> rfl
    · rfl
  · rfl

theorem rowFold_idname (lvl : Int) :
    ∀ (children : List Nat) (acc : List Pathway × List Nat),
      ((children.foldl (rowChildStep lvl) acc).1).map
          (fun p => (p.id, p.name)) =
        acc.1.map (fun p => (p.id, p.name)) := by
  intro children
  induction children with
  | nil => intro acc; rfl
  | cons c cs ih =>
      intro acc
      rw [List.foldl_cons, ih, rowChildStep_idname]

theorem bfsLevelRows_idname (cg : ParentGraph) :
    ∀ (fuel : Nat) (q : List Nat) (rows : List Pathway),
      (bfsLevelRows cg fuel q rows).map (fun p => (p.id, p.name)) =
        rows.map (fun p => (p.id, p.name)) := by
  intro fuel
  induction fuel with
  | zero => intro q rows; rfl
  | succ n ih =>
      intro q rows
      match q with
      | [] => rfl
      | cur :: queue =>
          rw [bfsLevelRows]
          rcases hf : rows.find? (fun p => p.id == cur) with _ | current
          · rw [hf]
            exact ih queue rows
          · rw [hf]
            exact (ih _ _).trans (rowFold_idname _ _ _)

theorem recalc_idname (d : DB) :
    (recalculate_all_levels d).pathways.map (fun p => (p.id, p.name)) =
      d.pathways.map (fun p => (p.id, p.name)) := by
  simp only [recalculate_all_levels]
  rw [bfsLevelRows_idname, List.map_map, List.map_map]
  refine List.map_congr_left ?_
  intro p _
  simp only [Function.comp_apply]
  split <;> rfl

theorem recalc_mem_idname {d : DB} {p : Pathway} (hp : p ∈ d.pathways) :
    ∃ q ∈ (recalculate_all_levels d).pathways,
      q.id = p.id ∧ q.name = p.name := by
  have h : (p.id, p.name) ∈
      (recalculate_all_levels d).pathways.map (fun p => (p.id, p.name)) := by
    rw [recalc_idname]
    exact List.mem_map.2 ⟨p, hp, rfl⟩
  rcases List.mem_map.1 h with ⟨q, hq, hqe⟩
  exact ⟨q, hq, congrArg Prod.fst hqe, congrArg Prod.snd hqe⟩

theorem recalc_ids (d : DB) :
    (recalculate_all_levels d).pathways.map (fun p => p.id) =
      d.pathways.map (fun p => p.id) := by
  have h := congrArg (List.map Prod.fst) (recalc_idname d)
  simpa [List.map_map, Function.comp] using h

theorem phase5ProcessOrphan_db (orc : Oracle)
    (st : PhaseResult × DB × Nat × Nat) (pw : Pathway) :
    (phase5ProcessOrphan orc false st pw).2.1.pathwayInteractions =
        st.2.1.pathwayInteractions ∧
    ((phase5ProcessOrphan orc false st pw).2.1.pathways =
        st.2.1.pathways ∨
      ((phase5ProcessOrphan orc false st pw).2.1.pathways =
          st.2.1.pathways.eraseP (fun q => q.id == pw.id) ∧
        pw.name ∉ STRICT_ROOTS ∧
        (∀ pi ∈ st.2.1.pathwayInteractions, pi.pathway_id ≠ pw.id))) := by
  unfold phase5ProcessOrphan
  dsimp only []
  split
  · exact ⟨rfl, Or.inl rfl⟩
  · next hroot =>
      split
      · rw [if_neg Bool.false_ne_true]
        split
        · exact ⟨rfl, Or.inl rfl⟩
        · exact ⟨rfl, Or.inl rfl⟩
      · next hdata =>
          rw [if_neg Bool.false_ne_true]
          refine ⟨rfl, Or.inr ⟨rfl, hroot, ?_⟩⟩
          intro pi hpi heq
          apply hdata
          left
          refine List.length_pos_of_mem
            (List.mem_filter.2 ⟨hpi, decide_eq_true heq⟩)

theorem phase5Fold_inv (db₀ : DB) (orc : Oracle)
    (hids : (db₀.pathways.map (fun p => p.id)).Nodup) :
    ∀ (ors : List Pathway),
      (∀ pw ∈ ors, pw ∈ db₀.pathways ∧ pw.hierarchy_level = -1) →
      ∀ (st : PhaseResult × DB × Nat × Nat),
        st.2.1.pathwayInteractions = db₀.pathwayInteractions →
        (∀ q ∈ st.2.1.pathways, q ∈ db₀.pathways) →
        (∀ p ∈ db₀.pathways, p ∉ st.2.1.pathways →
          p.hierarchy_level = -1 ∧ p.name ∉ STRICT_ROOTS ∧
          ∀ pi ∈ db₀.pathwayInteractions, pi.pathway_id ≠ p.id) →
        (ors.foldl (phase5ProcessOrphan orc false)
            st).2.1.pathwayInteractions = db₀.pathwayInteractions ∧
        (∀ q ∈ (ors.foldl (phase5ProcessOrphan orc false) st).2.1.pathways,
          q ∈ db₀.pathways) ∧
        (∀ p ∈ db₀.pathways,
          p ∉ (ors.foldl (phase5ProcessOrphan orc false) st).2.1.pathways →
          p.hierarchy_level = -1 ∧ p.name ∉ STRICT_ROOTS ∧
          ∀ pi ∈ db₀.pathwayInteractions, pi.pathway_id ≠ p.id) := by
  intro ors
  induction ors with
  | nil => intro _ st h1 h2 h3; exact ⟨h1, h2, h3⟩
  | cons pw t ih =>
      intro hors st h1 h2 h3
      rw [List.foldl_cons]
      obtain ⟨hPI, hpaths⟩ := phase5ProcessOrphan_db orc st pw
      refine ih (fun x hx => hors x (List.mem_cons_of_mem _ hx)) _
        (hPI.trans h1) ?_ ?_
      · intro q hq
        rcases hpaths with h | ⟨h, _, _⟩
        · rw [h] at hq
          exact h2 q hq
        · rw [h] at hq
          exact h2 q ((List.eraseP_sublist _).mem hq)
      · intro p hp hpn
        rcases hpaths with h | ⟨h, hroot, hnpi⟩
        · rw [h] at hpn
          exact h3 p hp hpn
        · rw [h] at hpn
          by_cases hmem : p ∈ st.2.1.pathways
          · by_cases hpred : (p.id == pw.id) = true
            · have hpid : p.id = pw.id := by
                simpa using hpred
              obtain ⟨hpwmem, hpwlvl⟩ := hors pw (List.mem_cons_self _ _)
              have hpe : p = pw :=
                List.inj_on_of_nodup_map hids (h2 p hmem) hpwmem hpid
              subst hpe
              refine ⟨hpwlvl, hroot, ?_⟩
              intro pi hpi
              rw [← h1] at hpi
              exact hnpi pi hpi
            · have : p ∈ st.2.1.pathways.eraseP (fun q => q.id == pw.id) :=
                (List.mem_eraseP_of_neg (by simpa using hpred)).2 hmem
              exact absurd this hpn
          · exact h3 p hp hmem

/-- C2.  Corrected: in a live (non-dry) run the pruning phase never
touches the association table, keeps every pathway that carries at
least one leaf association and every strict-root row, and a deleted
pathway was unreachable (recalculated `hierarchy_level = -1`), not a
strict root, and had no leaf association; but an unreachable pathway
with live data is NOT always "rescued (given a parent)": when the
oracle and keyword lexicon fail and no `Protein Quality Control` row
exists, `get_smart_rescue_parent` returns `None` and the node is left
orphaned with no parent link — see the counterexample. -/
theorem claim_C2_safe_pruning (db : DB) (orc : Oracle)
    (hids : (db.pathways.map (fun p => p.id)).Nodup) :
    (phase5_pruning db orc false).2.pathwayInteractions =
        db.pathwayInteractions ∧
    (∀ p ∈ db.pathways,
      (∃ pi ∈ db.pathwayInteractions, pi.pathway_id = p.id) →
      ∃ q ∈ (phase5_pruning db orc false).2.pathways,
        q.id = p.id ∧ q.name = p.name) ∧
    (∀ p ∈ db.pathways, p.name ∈ STRICT_ROOTS →
      ∃ q ∈ (phase5_pruning db orc false).2.pathways,
        q.id = p.id ∧ q.name = p.name) ∧
    (∀ p ∈ db.pathways,
      (¬ ∃ q ∈ (phase5_pruning db orc false).2.pathways, q.id = p.id) →
      (∀ pi ∈ db.pathwayInteractions, pi.pathway_id ≠ p.id) ∧
      p.name ∉ STRICT_ROOTS ∧
      ∃ p' ∈ (recalculate_all_levels db).pathways,
        p'.id = p.id ∧ p'.hierarchy_level = -1) := by
  have hids0 : ((recalculate_all_levels db).pathways.map
      (fun p => p.id)).Nodup := by
    rw [recalc_ids]
    exact hids
  have hors : ∀ pw ∈ (recalculate_all_levels db).pathways.filter
      (fun p => p.hierarchy_level = -1),
      pw ∈ (recalculate_all_levels db).pathways ∧
        pw.hierarchy_level = -1 := by
    intro pw hpw
    rcases List.mem_filter.1 hpw with ⟨h1, h2⟩
    exact ⟨h1, of_decide_eq_true h2⟩
  have hinv := phase5Fold_inv (recalculate_all_levels db) orc hids0 _ hors
    ({ phase_name := "Pruning", success := true },
      recalculate_all_levels db, 0, 0)
    rfl (fun _ hq => hq) (fun p hp hnp => absurd hp hnp)
  have hdef : (phase5_pruning db orc false).2 =
      recalculate_all_levels
        ((((recalculate_all_levels db).pathways.filter
            (fun p => p.hierarchy_level = -1)).foldl
          (phase5ProcessOrphan orc false)
          ({ phase_name := "Pruning", success := true },
            recalculate_all_levels db, 0, 0)).2.1) := rfl
  obtain ⟨hI, hS, hD⟩ := hinv
  refine ⟨?_, ?_, ?_, ?_⟩
  · rw [hdef]
    exact hI
  · rintro p hp ⟨pi, hpi, hpiid⟩
    obtain ⟨p', hp', hp'id, hp'name⟩ := recalc_mem_idname hp
    by_contra hng
    have hcontr := hD p' hp' (fun hmem => hng
      (match recalc_mem_idname hmem with
       | ⟨q, hq, hqid, hqname⟩ =>
          ⟨q, hdef.symm ▸ hq, hqid.trans hp'id, hqname.trans hp'name⟩))
    exact hcontr.2.2 pi hpi (hpiid.trans hp'id.symm)
  · intro p hp hname
    obtain ⟨p', hp', hp'id, hp'name⟩ := recalc_mem_idname hp
    by_contra hng
    have hcontr := hD p' hp' (fun hmem => hng
      (match recalc_mem_idname hmem with
       | ⟨q, hq, hqid, hqname⟩ =>
          ⟨q, hdef.symm ▸ hq, hqid.trans hp'id, hqname.trans hp'name⟩))
    exact hcontr.2.1 (hp'name.symm ▸ hname)
  · rintro p hp hnq
    obtain ⟨p', hp', hp'id, hp'name⟩ := recalc_mem_idname hp
    have hcontr := hD p' hp' (fun hmem => hnq
      (match recalc_mem_idname hmem with
       | ⟨q, hq, hqid, _⟩ => ⟨q, hdef.symm ▸ hq, hqid.trans hp'id⟩))
    refine ⟨?_, ?_, p', hp', hp'id, hcontr.1⟩
    · intro pi hpi heq
      exact hcontr.2.2 pi hpi (heq.trans hp'id.symm)
    · rw [← hp'name]
      exact hcontr.2.1

/-- C2 witness: on a table holding a single strict root, the id-nodup
hypothesis holds and the root row survives a live pruning run. -/
theorem claim_C2_safe_pruning_witness :
    ((c2wDB.pathways.map (fun p => p.id)).Nodup) ∧
    ∃ q ∈ (phase5_pruning c2wDB trivialOracle false).2.pathways,
      q.id = 1 ∧ q.name = "Proteostasis" := by
  refine ⟨by decide, ?_⟩
  exact (claim_C2_safe_pruning c2wDB trivialOracle (by decide)).2.2.1
    ⟨1, "Proteostasis", 0, false, 0, [], false⟩ (by decide) (by decide)

/-- C2 counterexample to "rescued (given a parent)": pathway 10 is
unreachable and carries a leaf association, the oracle misses, its name
matches no rescue keyword, and no `Protein Quality Control` row exists;
a live pruning run keeps the row (it is not deleted) but attaches no
parent link — the node is left an orphan, not rescued. -/
theorem claim_C2_counterexample :
    (phase5_pruning c2DB trivialOracle false).2.pathways.map
        (fun p => (p.id, p.name)) = [(10, "qqq")] ∧
    (phase5_pruning c2DB trivialOracle false).2.parentLinks = [] ∧
    c2DB.pathwayInteractions.map (fun pi => pi.pathway_id) = [10] := by
  decide

/-! ### Atomic merge execution (claim C3) -/

theorem link_pred_iff (a b : Nat) (l : PPLink) :
    ((l.child_pathway_id == a && l.parent_pathway_id == b) = true) ↔
      linkPair l = (a, b) := by
  simp [linkPair, Prod.ext_iff]

theorem pi_pred_iff (a b : Nat) (q : PILink) :
    ((q.pathway_id == a && q.interaction_id == b) = true) ↔
      piPair q = (a, b) := by
  simp [piPair, Prod.ext_iff]

theorem reparentChildStep_WF {s t : Nat} (hst : s ≠ t)
    {links : List PPLink} (hwf : LinksWF s t links) (c : Nat) :
    LinksWF s t (reparentChildStep s t links c) := by
  obtain ⟨hpair, hid, hself, hts⟩ := hwf
  have hidinj := List.inj_on_of_nodup_map hid
  have hpinj := List.inj_on_of_nodup_map hpair
  unfold reparentChildStep
  split
  · exact ⟨hpair, hid, hself, hts⟩
  · next link hf =>
      have hlmem := List.mem_of_find?_eq_some hf
      have hfp := List.find?_some hf
      have hlpair : linkPair link = (c, s) := (link_pred_iff c s link).1 hfp
      have hlc : link.child_pathway_id = c := congrArg Prod.fst hlpair
      have hls : link.parent_pathway_id = s := congrArg Prod.snd hlpair
      split
      · next ex hg =>
          refine ⟨?_, ?_, ?_, ?_⟩
          · exact List.Sublist.nodup
              (List.Sublist.map linkPair (List.filter_sublist links)) hpair
          · exact List.Sublist.nodup
              (List.Sublist.map (fun l => l.id)
                (List.filter_sublist links)) hid
          · intro l hl
            exact hself l (List.mem_of_mem_filter hl)
          · intro l hl
            exact hts l (List.mem_of_mem_filter hl)
      · next hg =>
          have hnoct : ∀ l ∈ links, linkPair l ≠ (c, t) := by
            intro l hl he
            exact absurd ((link_pred_iff c t l).2 he)
              (by simpa using List.find?_eq_none.1 hg l hl)
          have hct : c ≠ t := by
            intro he
            exact hts link hlmem ⟨hlc.trans he, hls⟩
          refine ⟨?_, ?_, ?_, ?_⟩
          · rw [List.map_map]
            refine List.Nodup.map_on ?_ (List.Nodup.of_map _ hid)
            intro x hx y hy hxy
            simp only [Function.comp_apply] at hxy
            by_cases hxl : x.id = link.id
            · have hx' : x = link := hidinj hx hlmem hxl
              by_cases hyl : y.id = link.id
              · exact hx'.trans (hidinj hy hlmem hyl).symm
              · exfalso
                rw [if_pos hxl, if_neg hyl] at hxy
                refine hnoct y hy ?_
                rw [← hxy]
                simp only [linkPair, hx', hlc]
            · by_cases hyl : y.id = link.id
              · exfalso
                have hy' : y = link := hidinj hy hlmem hyl
                rw [if_neg hxl, if_pos hyl] at hxy
                refine hnoct x hx ?_
                rw [hxy]
                simp only [linkPair, hy', hlc]
              · rw [if_neg hxl, if_neg hyl] at hxy
                exact hpinj hx hy hxy
          · have hids : (links.map (fun l =>
                if l.id = link.id then { l with parent_pathway_id := t }
                else l)).map (fun l => l.id) = links.map (fun l => l.id) := by
              rw [List.map_map]
              refine List.map_congr_left ?_
              intro l _
              simp only [Function.comp_apply]
              split <;> rfl
            rw [hids]
            exact hid
          · intro l hl
            rcases List.mem_map.1 hl with ⟨l₀, hl₀, rfl⟩
            by_cases h0 : l₀.id = link.id
            · have : l₀ = link := hidinj hl₀ hlmem h0
              rw [if_pos h0, this]
              simpa [hlc] using hct
            · rw [if_neg h0]
              exact hself l₀ hl₀
          · intro l hl
            rcases List.mem_map.1 hl with ⟨l₀, hl₀, rfl⟩
            by_cases h0 : l₀.id = link.id
            · rw [if_pos h0]
              rintro ⟨_, hps⟩
              exact hst hps.symm
            · rw [if_neg h0]
              exact hts l₀ hl₀

theorem reparentChildStep_cover {s t : Nat} (hst : s ≠ t)
    {links : List PPLink} (hwf : LinksWF s t links) {c : Nat} {cs : List Nat}
    (hcov : ∀ l ∈ links, l.parent_pathway_id = s →
      l.child_pathway_id ∈ c :: cs) :
    ∀ l ∈ reparentChildStep s t links c, l.parent_pathway_id = s →
      l.child_pathway_id ∈ cs := by
  obtain ⟨hpair, hid, hself, hts⟩ := hwf
  have hpinj := List.inj_on_of_nodup_map hpair
  unfold reparentChildStep
  split
  · next hf =>
      intro l hl hp
      rcases List.mem_cons.1 (hcov l hl hp) with he | he
      · exact absurd ((link_pred_iff c s l).2 (by simp [linkPair, he, hp]))
          (by simpa using List.find?_eq_none.1 hf l hl)
      · exact he
  · next link hf =>
      have hlmem := List.mem_of_find?_eq_some hf
      have hfp := List.find?_some hf
      have hlpair : linkPair link = (c, s) := (link_pred_iff c s link).1 hfp
      split
      · intro l hl hp
        have hl0 := List.mem_of_mem_filter hl
        rcases List.mem_cons.1 (hcov l hl0 hp) with he | he
        · exfalso
          have hle : l = link := hpinj hl0 hlmem
            (by rw [hlpair]; simp [linkPair, he, hp])
          have hpf := List.of_mem_filter hl
          have hne : l.id ≠ link.id := of_decide_eq_true hpf
          exact hne (congrArg PPLink.id hle)
        · exact he
      · intro l hl hp
        rcases List.mem_map.1 hl with ⟨l₀, hl₀, rfl⟩
        by_cases h0 : l₀.id = link.id
        · rw [if_pos h0] at hp
          exact absurd hp.symm hst
        · rw [if_neg h0] at hp ⊢
          rcases List.mem_cons.1 (hcov l₀ hl₀ hp) with he | he
          · exfalso
            have hle : l₀ = link := hpinj hl₀ hlmem
              (by rw [hlpair]; simp [linkPair, he, hp])
            exact h0 (congrArg PPLink.id hle)
          · exact he

theorem reparentChildStep_childQ {s t : Nat}
    {links : List PPLink} (hwf : LinksWF s t links) (c : Nat)
    (Q : Nat → Prop)
    (hq : ∀ l ∈ links, l.child_pathway_id = s → Q l.parent_pathway_id) :
    ∀ l ∈ reparentChildStep s t links c, l.child_pathway_id = s →
      Q l.parent_pathway_id := by
  obtain ⟨hpair, hid, hself, hts⟩ := hwf
  have hidinj := List.inj_on_of_nodup_map hid
  unfold reparentChildStep
  split
  · exact hq
  · next link hf =>
      have hlmem := List.mem_of_find?_eq_some hf
      have hfp := List.find?_some hf
      have hlpair : linkPair link = (c, s) := (link_pred_iff c s link).1 hfp
      have hls : link.parent_pathway_id = s := congrArg Prod.snd hlpair
      split
      · intro l hl
        exact hq l (List.mem_of_mem_filter hl)
      · intro l hl hcs
        rcases List.mem_map.1 hl with ⟨l₀, hl₀, rfl⟩
        by_cases h0 : l₀.id = link.id
        · exfalso
          have hle : l₀ = link := hidinj hl₀ hlmem h0
          rw [if_pos h0] at hcs
          have hcs' : link.child_pathway_id = s := by
            rw [← hle]
            exact hcs
          exact hself link hlmem (hcs'.trans hls.symm)
        · rw [if_neg h0] at hcs ⊢
          exact hq l₀ hl₀ hcs

theorem reparentChildStep_keep_t {s t : Nat} (hst : s ≠ t)
    {links : List PPLink} (hwf : LinksWF s t links) (c x : Nat)
    (hex : ∃ l ∈ links, linkPair l = (x, t)) :
    ∃ l ∈ reparentChildStep s t links c, linkPair l = (x, t) := by
  obtain ⟨hpair, hid, hself, hts⟩ := hwf
  have hidinj := List.inj_on_of_nodup_map hid
  obtain ⟨l, hl, hlp⟩ := hex
  unfold reparentChildStep
  split
  · exact ⟨l, hl, hlp⟩
  · next link hf =>
      have hlmem := List.mem_of_find?_eq_some hf
      have hfp := List.find?_some hf
      have hlpair : linkPair link = (c, s) := (link_pred_iff c s link).1 hfp
      have hne : l.id ≠ link.id := by
        intro he
        have h2 : l = link := hidinj hl hlmem he
        rw [h2, hlpair] at hlp
        exact hst (congrArg Prod.snd hlp)
      split
      · exact ⟨l, List.mem_filter.2 ⟨hl, decide_eq_true hne⟩, hlp⟩
      · refine ⟨_, List.mem_map.2 ⟨l, hl, rfl⟩, ?_⟩
        rw [if_neg hne]
        exact hlp

theorem reparentChildStep_make_t {s t : Nat} (hst : s ≠ t)
    {links : List PPLink} (hwf : LinksWF s t links) (c : Nat)
    (hex : ∃ l ∈ links, linkPair l = (c, s)) :
    ∃ l ∈ reparentChildStep s t links c, linkPair l = (c, t) := by
  obtain ⟨hpair, hid, hself, hts⟩ := hwf
  have hidinj := List.inj_on_of_nodup_map hid
  unfold reparentChildStep
  split
  · next hf =>
      obtain ⟨l, hl, hlp⟩ := hex
      refine absurd ((link_pred_iff c s l).2 hlp) ?_
      simpa using List.find?_eq_none.1 hf l hl
  · next link hf =>
      have hlmem := List.mem_of_find?_eq_some hf
      have hfp := List.find?_some hf
      have hlpair : linkPair link = (c, s) := (link_pred_iff c s link).1 hfp
      split
      · next ex hg =>
          have hexmem := List.mem_of_find?_eq_some hg
          have hgp := List.find?_some hg
          have hexp : linkPair ex = (c, t) := (link_pred_iff c t ex).1 hgp
          have hne : ex.id ≠ link.id := by
            intro he
            have h2 : ex = link := hidinj hexmem hlmem he
            rw [h2, hlpair] at hexp
            exact hst (congrArg Prod.snd hexp)
          exact ⟨ex, List.mem_filter.2 ⟨hexmem, decide_eq_true hne⟩, hexp⟩
      · next hg =>
          have hlc : link.child_pathway_id = c := congrArg Prod.fst hlpair
          refine ⟨_, List.mem_map.2 ⟨link, hlmem, rfl⟩, ?_⟩
          rw [if_pos rfl]
          simp [linkPair, hlc]

theorem reparentChildStep_keep_s {s t : Nat}
    {links : List PPLink} (hwf : LinksWF s t links) {c x : Nat}
    (hxc : x ≠ c) (hex : ∃ l ∈ links, linkPair l = (x, s)) :
    ∃ l ∈ reparentChildStep s t links c, linkPair l = (x, s) := by
  obtain ⟨hpair, hid, hself, hts⟩ := hwf
  have hidinj := List.inj_on_of_nodup_map hid
  obtain ⟨l, hl, hlp⟩ := hex
  unfold reparentChildStep
  split
  · exact ⟨l, hl, hlp⟩
  · next link hf =>
      have hlmem := List.mem_of_find?_eq_some hf
      have hfp := List.find?_some hf
      have hlpair : linkPair link = (c, s) := (link_pred_iff c s link).1 hfp
      have hne : l.id ≠ link.id := by
        intro he
        have h2 : l = link := hidinj hl hlmem he
        rw [h2, hlpair] at hlp
        exact hxc (congrArg Prod.fst hlp).symm
      split
      · exact ⟨l, List.mem_filter.2 ⟨hl, decide_eq_true hne⟩, hlp⟩
      · refine ⟨_, List.mem_map.2 ⟨l, hl, rfl⟩, ?_⟩
        rw [if_neg hne]
        exact hlp

theorem reparentFold_WF {s t : Nat} (hst : s ≠ t) :
    ∀ (cs : List Nat) (links : List PPLink), LinksWF s t links →
      LinksWF s t (cs.foldl (reparentChildStep s t) links) := by
  intro cs
  induction cs with
  | nil => intro links h; exact h
  | cons c cs ih =>
      intro links h
      rw [List.foldl_cons]
      exact ih _ (reparentChildStep_WF hst h c)

theorem reparentFold_no_parent_s {s t : Nat} (hst : s ≠ t) :
    ∀ (cs : List Nat) (links : List PPLink), LinksWF s t links →
      (∀ l ∈ links, l.parent_pathway_id = s → l.child_pathway_id ∈ cs) →
      ∀ l ∈ cs.foldl (reparentChildStep s t) links,
        l.parent_pathway_id ≠ s := by
  intro cs
  induction cs with
  | nil =>
      intro links _ hcov l hl hp
      exact absurd (hcov l hl hp) (List.not_mem_nil _)
  | cons c cs ih =>
      intro links hwf hcov
      rw [List.foldl_cons]
      exact ih _ (reparentChildStep_WF hst hwf c)
        (reparentChildStep_cover hst hwf hcov)

theorem reparentFold_childQ {s t : Nat} (hst : s ≠ t) (Q : Nat → Prop) :
    ∀ (cs : List Nat) (links : List PPLink), LinksWF s t links →
      (∀ l ∈ links, l.child_pathway_id = s → Q l.parent_pathway_id) →
      ∀ l ∈ cs.foldl (reparentChildStep s t) links,
        l.child_pathway_id = s → Q l.parent_pathway_id := by
  intro cs
  induction cs with
  | nil => intro links _ h; exact h
  | cons c cs ih =>
      intro links hwf hq
      rw [List.foldl_cons]
      exact ih _ (reparentChildStep_WF hst hwf c)
        (reparentChildStep_childQ hwf c Q hq)

theorem reparentFold_keep_t {s t : Nat} (hst : s ≠ t) :
    ∀ (cs : List Nat) (links : List PPLink), LinksWF s t links →
      ∀ x, (∃ l ∈ links, linkPair l = (x, t)) →
      ∃ l ∈ cs.foldl (reparentChildStep s t) links,
        linkPair l = (x, t) := by
  intro cs
  induction cs with
  | nil => intro links _ x h; exact h
  | cons c cs ih =>
      intro links hwf x hex
      rw [List.foldl_cons]
      exact ih _ (reparentChildStep_WF hst hwf c) x
        (reparentChildStep_keep_t hst hwf c x hex)

theorem reparentFold_make_t {s t : Nat} (hst : s ≠ t) :
    ∀ (cs : List Nat) (links : List PPLink), LinksWF s t links →
      ∀ x ∈ cs, (∃ l ∈ links, linkPair l = (x, s)) →
      ∃ l ∈ cs.foldl (reparentChildStep s t) links,
        linkPair l = (x, t) := by
  intro cs
  induction cs with
  | nil => intro links _ x hx; exact absurd hx (List.not_mem_nil _)
  | cons c cs ih =>
      intro links hwf x hx hex
      rw [List.foldl_cons]
      by_cases hxc : x = c
      · subst hxc
        exact reparentFold_keep_t hst cs _ (reparentChildStep_WF hst hwf x)
          x (reparentChildStep_make_t hst hwf x hex)
      · have hx' : x ∈ cs := by
          rcases List.mem_cons.1 hx with h | h
          · exact absurd h hxc
          · exact h
        exact ih _ (reparentChildStep_WF hst hwf c) x hx'
          (reparentChildStep_keep_s hwf hxc hex)

theorem reassignStep_WF {s t : Nat} (_hst : s ≠ t)
    {pis : List PILink} (hwf : PIWF pis) (i : Nat) :
    PIWF (reassignInteractionStep s t pis i) := by
  obtain ⟨hpair, hid⟩ := hwf
  have hidinj := List.inj_on_of_nodup_map hid
  have hpinj := List.inj_on_of_nodup_map hpair
  unfold reassignInteractionStep
  split
  · exact ⟨hpair, hid⟩
  · next pirow hf =>
      have hlmem := List.mem_of_find?_eq_some hf
      have hfp := List.find?_some hf
      have hlpair : piPair pirow = (s, i) := (pi_pred_iff s i pirow).1 hfp
      split
      · exact ⟨List.Sublist.nodup
            (List.Sublist.map piPair (List.filter_sublist pis)) hpair,
          List.Sublist.nodup
            (List.Sublist.map (fun q => q.id)
              (List.filter_sublist pis)) hid⟩
      · next hg =>
          have hnoti : ∀ q ∈ pis, piPair q ≠ (t, i) := by
            intro q hq he
            exact absurd ((pi_pred_iff t i q).2 he)
              (by simpa using List.find?_eq_none.1 hg q hq)
          constructor
          · rw [List.map_map]
            refine List.Nodup.map_on ?_ (List.Nodup.of_map _ hid)
            intro x hx y hy hxy
            simp only [Function.comp_apply] at hxy
            by_cases hxl : x.id = pirow.id
            · have hx' : x = pirow := hidinj hx hlmem hxl
              by_cases hyl : y.id = pirow.id
              · exact hx'.trans (hidinj hy hlmem hyl).symm
              · exfalso
                rw [if_pos hxl, if_neg hyl] at hxy
                refine hnoti y hy ?_
                rw [← hxy]
                have hxi : x.interaction_id = i := by
                  rw [hx']
                  exact congrArg Prod.snd hlpair
                simp only [piPair, hxi]
            · by_cases hyl : y.id = pirow.id
              · exfalso
                have hy' : y = pirow := hidinj hy hlmem hyl
                rw [if_neg hxl, if_pos hyl] at hxy
                refine hnoti x hx ?_
                rw [hxy]
                have hyi : y.interaction_id = i := by
                  rw [hy']
                  exact congrArg Prod.snd hlpair
                simp only [piPair, hyi]
              · rw [if_neg hxl, if_neg hyl] at hxy
                exact hpinj hx hy hxy
          · have hids : (pis.map (fun q =>
                if q.id = pirow.id then { q with pathway_id := t }
                else q)).map (fun q => q.id) = pis.map (fun q => q.id) := by
              rw [List.map_map]
              refine List.map_congr_left ?_
              intro q _
              simp only [Function.comp_apply]
              split <;> rfl
            rw [hids]
            exact hid

theorem reassignStep_cover {s t : Nat} (hst : s ≠ t)
    {pis : List PILink} (hwf : PIWF pis) {i : Nat} {is : List Nat}
    (hcov : ∀ q ∈ pis, q.pathway_id = s → q.interaction_id ∈ i :: is) :
    ∀ q ∈ reassignInteractionStep s t pis i, q.pathway_id = s →
      q.interaction_id ∈ is := by
  obtain ⟨hpair, hid⟩ := hwf
  have hpinj := List.inj_on_of_nodup_map hpair
  unfold reassignInteractionStep
  split
  · next hf =>
      intro q hq hp
      rcases List.mem_cons.1 (hcov q hq hp) with he | he
      · exact absurd ((pi_pred_iff s i q).2 (by simp [piPair, he, hp]))
          (by simpa using List.find?_eq_none.1 hf q hq)
      · exact he
  · next pirow hf =>
      have hlmem := List.mem_of_find?_eq_some hf
      have hfp := List.find?_some hf
      have hlpair : piPair pirow = (s, i) := (pi_pred_iff s i pirow).1 hfp
      split
      · intro q hq hp
        have hq0 := List.mem_of_mem_filter hq
        rcases List.mem_cons.1 (hcov q hq0 hp) with he | he
        · exfalso
          have hqe : q = pirow := hpinj hq0 hlmem
            (by rw [hlpair]; simp [piPair, he, hp])
          have hpf := List.of_mem_filter hq
          have hne : q.id ≠ pirow.id := of_decide_eq_true hpf
          exact hne (congrArg PILink.id hqe)
        · exact he
      · intro q hq hp
        rcases List.mem_map.1 hq with ⟨q₀, hq₀, rfl⟩
        by_cases h0 : q₀.id = pirow.id
        · rw [if_pos h0] at hp
          exact absurd hp.symm hst
        · rw [if_neg h0] at hp ⊢
          rcases List.mem_cons.1 (hcov q₀ hq₀ hp) with he | he
          · exfalso
            have hqe : q₀ = pirow := hpinj hq₀ hlmem
              (by rw [hlpair]; simp [piPair, he, hp])
            exact h0 (congrArg PILink.id hqe)
          · exact he

theorem reassignStep_keep_t {s t : Nat} (hst : s ≠ t)
    {pis : List PILink} (hwf : PIWF pis) (i x : Nat)
    (hex : ∃ q ∈ pis, piPair q = (t, x)) :
    ∃ q ∈ reassignInteractionStep s t pis i, piPair q = (t, x) := by
  obtain ⟨hpair, hid⟩ := hwf
  have hidinj := List.inj_on_of_nodup_map hid
  obtain ⟨q, hq, hqp⟩ := hex
  unfold reassignInteractionStep
  split
  · exact ⟨q, hq, hqp⟩
  · next pirow hf =>
      have hlmem := List.mem_of_find?_eq_some hf
      have hfp := List.find?_some hf
      have hlpair : piPair pirow = (s, i) := (pi_pred_iff s i pirow).1 hfp
      have hne : q.id ≠ pirow.id := by
        intro he
        have h2 : q = pirow := hidinj hq hlmem he
        rw [h2, hlpair] at hqp
        exact hst (congrArg Prod.fst hqp)
      split
      · exact ⟨q, List.mem_filter.2 ⟨hq, decide_eq_true hne⟩, hqp⟩
      · refine ⟨_, List.mem_map.2 ⟨q, hq, rfl⟩, ?_⟩
        rw [if_neg hne]
        exact hqp

theorem reassignStep_make_t {s t : Nat} (hst : s ≠ t)
    {pis : List PILink} (hwf : PIWF pis) (i : Nat)
    (hex : ∃ q ∈ pis, piPair q = (s, i)) :
    ∃ q ∈ reassignInteractionStep s t pis i, piPair q = (t, i) := by
  obtain ⟨hpair, hid⟩ := hwf
  have hidinj := List.inj_on_of_nodup_map hid
  unfold reassignInteractionStep
  split
  · next hf =>
      obtain ⟨q, hq, hqp⟩ := hex
      refine absurd ((pi_pred_iff s i q).2 hqp) ?_
      simpa using List.find?_eq_none.1 hf q hq
  · next pirow hf =>
      have hlmem := List.mem_of_find?_eq_some hf
      have hfp := List.find?_some hf
      have hlpair : piPair pirow = (s, i) := (pi_pred_iff s i pirow).1 hfp
      split
      · next ex hg =>
          have hexmem := List.mem_of_find?_eq_some hg
          have hgp := List.find?_some hg
          have hexp : piPair ex = (t, i) := (pi_pred_iff t i ex).1 hgp
          have hne : ex.id ≠ pirow.id := by
            intro he
            have h2 : ex = pirow := hidinj hexmem hlmem he
            rw [h2, hlpair] at hexp
            exact hst (congrArg Prod.fst hexp)
          exact ⟨ex, List.mem_filter.2 ⟨hexmem, decide_eq_true hne⟩, hexp⟩
      · next hg =>
          have hli : pirow.interaction_id = i := congrArg Prod.snd hlpair
          refine ⟨_, List.mem_map.2 ⟨pirow, hlmem, rfl⟩, ?_⟩
          rw [if_pos rfl]
          simp [piPair, hli]

theorem reassignStep_keep_s {s t : Nat}
    {pis : List PILink} (hwf : PIWF pis) {i x : Nat}
    (hxi : x ≠ i) (hex : ∃ q ∈ pis, piPair q = (s, x)) :
    ∃ q ∈ reassignInteractionStep s t pis i, piPair q = (s, x) := by
  obtain ⟨hpair, hid⟩ := hwf
  have hidinj := List.inj_on_of_nodup_map hid
  obtain ⟨q, hq, hqp⟩ := hex
  unfold reassignInteractionStep
  split
  · exact ⟨q, hq, hqp⟩
  · next pirow hf =>
      have hlmem := List.mem_of_find?_eq_some hf
      have hfp := List.find?_some hf
      have hlpair : piPair pirow = (s, i) := (pi_pred_iff s i pirow).1 hfp
      have hne : q.id ≠ pirow.id := by
        intro he
        have h2 : q = pirow := hidinj hq hlmem he
        rw [h2, hlpair] at hqp
        exact hxi (congrArg Prod.snd hqp).symm
      split
      · exact ⟨q, List.mem_filter.2 ⟨hq, decide_eq_true hne⟩, hqp⟩
      · refine ⟨_, List.mem_map.2 ⟨q, hq, rfl⟩, ?_⟩
        rw [if_neg hne]
        exact hqp

theorem reassignFold_WF {s t : Nat} (hst : s ≠ t) :
    ∀ (is : List Nat) (pis : List PILink), PIWF pis →
      PIWF (is.foldl (reassignInteractionStep s t) pis) := by
  intro is
  induction is with
  | nil => intro pis h; exact h
  | cons i is ih =>
      intro pis h
      rw [List.foldl_cons]
      exact ih _ (reassignStep_WF hst h i)

theorem reassignFold_no_pathway_s {s t : Nat} (hst : s ≠ t) :
    ∀ (is : List Nat) (pis : List PILink), PIWF pis →
      (∀ q ∈ pis, q.pathway_id = s → q.interaction_id ∈ is) →
      ∀ q ∈ is.foldl (reassignInteractionStep s t) pis,
        q.pathway_id ≠ s := by
  intro is
  induction is with
  | nil =>
      intro pis _ hcov q hq hp
      exact absurd (hcov q hq hp) (List.not_mem_nil _)
  | cons i is ih =>
      intro pis hwf hcov
      rw [List.foldl_cons]
      exact ih _ (reassignStep_WF hst hwf i)
        (reassignStep_cover hst hwf hcov)

theorem reassignFold_keep_t {s t : Nat} (hst : s ≠ t) :
    ∀ (is : List Nat) (pis : List PILink), PIWF pis →
      ∀ x, (∃ q ∈ pis, piPair q = (t, x)) →
      ∃ q ∈ is.foldl (reassignInteractionStep s t) pis,
        piPair q = (t, x) := by
  intro is
  induction is with
  | nil => intro pis _ x h; exact h
  | cons i is ih =>
      intro pis hwf x hex
      rw [List.foldl_cons]
      exact ih _ (reassignStep_WF hst hwf i) x
        (reassignStep_keep_t hst hwf i x hex)

theorem reassignFold_make_t {s t : Nat} (hst : s ≠ t) :
    ∀ (is : List Nat) (pis : List PILink), PIWF pis →
      ∀ x ∈ is, (∃ q ∈ pis, piPair q = (s, x)) →
      ∃ q ∈ is.foldl (reassignInteractionStep s t) pis,
        piPair q = (t, x) := by
  intro is
  induction is with
  | nil => intro pis _ x hx; exact absurd hx (List.not_mem_nil _)
  | cons i is ih =>
      intro pis hwf x hx hex
      rw [List.foldl_cons]
      by_cases hxi : x = i
      · subst hxi
        exact reassignFold_keep_t hst is _ (reassignStep_WF hst hwf x) x
          (reassignStep_make_t hst hwf x hex)
      · have hx' : x ∈ is := by
          rcases List.mem_cons.1 hx with h | h
          · exact absurd h hxi
          · exact h
        exact ih _ (reassignStep_WF hst hwf i) x hx'
          (reassignStep_keep_s hwf hxi hex)

theorem transferDrop_subset {s p : Nat} {links : List PPLink} :
    ∀ l ∈ transferDrop s p links, l ∈ links := by
  unfold transferDrop
  split
  · intro l hl; exact hl
  · intro l hl; exact List.mem_of_mem_filter hl

theorem transferDrop_WF {s t p : Nat} {links : List PPLink}
    (hwf : LinksWF s t links) : LinksWF s t (transferDrop s p links) := by
  obtain ⟨hpair, hid, hself, hts⟩ := hwf
  unfold transferDrop
  split
  · exact ⟨hpair, hid, hself, hts⟩
  · refine ⟨?_, ?_, ?_, ?_⟩
    · exact List.Sublist.nodup
        (List.Sublist.map linkPair (List.filter_sublist links)) hpair
    · exact List.Sublist.nodup
        (List.Sublist.map (fun l => l.id) (List.filter_sublist links)) hid
    · intro l hl
      exact hself l (List.mem_of_mem_filter hl)
    · intro l hl
      exact hts l (List.mem_of_mem_filter hl)

theorem transferDrop_cover {s t p : Nat} {ps : List Nat}
    {links : List PPLink} (hwf : LinksWF s t links)
    (hcov : ∀ l ∈ links, l.child_pathway_id = s →
      l.parent_pathway_id ∈ p :: ps) :
    ∀ l ∈ transferDrop s p links, l.child_pathway_id = s →
      l.parent_pathway_id ∈ ps := by
  obtain ⟨hpair, hid, hself, hts⟩ := hwf
  have hpinj := List.inj_on_of_nodup_map hpair
  unfold transferDrop
  split
  · next hf =>
      intro l hl hc
      rcases List.mem_cons.1 (hcov l hl hc) with he | he
      · exact absurd ((link_pred_iff s p l).2 (by simp [linkPair, he, hc]))
          (by simpa using List.find?_eq_none.1 hf l hl)
      · exact he
  · next source_link hf =>
      have hlmem := List.mem_of_find?_eq_some hf
      have hfp := List.find?_some hf
      have hlpair : linkPair source_link = (s, p) :=
        (link_pred_iff s p source_link).1 hfp
      intro l hl hc
      have hl0 := List.mem_of_mem_filter hl
      rcases List.mem_cons.1 (hcov l hl0 hc) with he | he
      · exfalso
        have hle : l = source_link := hpinj hl0 hlmem
          (by rw [hlpair]; simp [linkPair, he, hc])
        have hpf := List.of_mem_filter hl
        have hne : l.id ≠ source_link.id := of_decide_eq_true hpf
        exact hne (congrArg PPLink.id hle)
      · exact he

theorem transferDrop_keep {s t p a b : Nat} {links : List PPLink}
    (hwf : LinksWF s t links) (has : a ≠ s)
    (hex : ∃ l ∈ links, linkPair l = (a, b)) :
    ∃ l ∈ transferDrop s p links, linkPair l = (a, b) := by
  obtain ⟨hpair, hid, hself, hts⟩ := hwf
  have hidinj := List.inj_on_of_nodup_map hid
  obtain ⟨l, hl, hlp⟩ := hex
  unfold transferDrop
  split
  · exact ⟨l, hl, hlp⟩
  · next source_link hf =>
      have hlmem := List.mem_of_find?_eq_some hf
      have hfp := List.find?_some hf
      have hlpair : linkPair source_link = (s, p) :=
        (link_pred_iff s p source_link).1 hfp
      have hne : l.id ≠ source_link.id := by
        intro he
        have h2 : l = source_link := hidinj hl hlmem he
        rw [h2, hlpair] at hlp
        exact has (congrArg Prod.fst hlp).symm
      exact ⟨l, List.mem_filter.2 ⟨hl, decide_eq_true hne⟩, hlp⟩

theorem transferAdd_superset {t p : Nat} {st : List PPLink × Nat} :
    ∀ l ∈ st.1, l ∈ (transferAdd t p st).1 := by
  unfold transferAdd
  split
  · intro l hl; exact hl
  · split
    · intro l hl
      exact List.mem_append_left _ hl
    · intro l hl; exact hl

theorem transferAdd_WF {s t p : Nat} {st : List PPLink × Nat}
    (hwf : LinksWF s t st.1) (hfresh : ∀ l ∈ st.1, l.id < st.2)
    (hps : p ≠ s) :
    LinksWF s t (transferAdd t p st).1 := by
  obtain ⟨hpair, hid, hself, hts⟩ := hwf
  unfold transferAdd
  split
  · exact ⟨hpair, hid, hself, hts⟩
  · next hg =>
      split
      · next hpt =>
          refine ⟨?_, ?_, ?_, ?_⟩
          · rw [List.map_append]
            rw [List.nodup_append]
            refine ⟨hpair, List.nodup_singleton _, ?_⟩
            intro x hx hx1
            simp only [List.map_cons, List.map_nil, List.mem_singleton] at hx1
            subst hx1
            rcases List.mem_map.1 hx with ⟨l, hl, hlp⟩
            exact absurd ((link_pred_iff t p l).2 hlp)
              (by simpa using List.find?_eq_none.1 hg l hl)
          · rw [List.map_append]
            rw [List.nodup_append]
            refine ⟨hid, List.nodup_singleton _, ?_⟩
            intro x hx hx1
            simp only [List.map_cons, List.map_nil, List.mem_singleton] at hx1
            subst hx1
            rcases List.mem_map.1 hx with ⟨l, hl, hlp⟩
            have := hfresh l hl
            omega
          · intro l hl
            rcases List.mem_append.1 hl with h | h
            · exact hself l h
            · rcases List.mem_singleton.1 h with rfl
              intro he
              exact hpt he.symm
          · intro l hl
            rcases List.mem_append.1 hl with h | h
            · exact hts l h
            · rcases List.mem_singleton.1 h with rfl
              rintro ⟨_, hps'⟩
              exact hps hps'
      · exact ⟨hpair, hid, hself, hts⟩

theorem transferAdd_fresh {t p : Nat} {st : List PPLink × Nat}
    (hfresh : ∀ l ∈ st.1, l.id < st.2) :
    ∀ l ∈ (transferAdd t p st).1, l.id < (transferAdd t p st).2 := by
  unfold transferAdd
  split
  · exact hfresh
  · split
    · intro l hl
      rcases List.mem_append.1 hl with h | h
      · have := hfresh l h
        omega
      · rcases List.mem_singleton.1 h with rfl
        show st.2 < st.2 + 1
        omega
    · exact hfresh

theorem transferAdd_child_ne {s t p : Nat} (hst : s ≠ t)
    {st : List PPLink × Nat}
    (h : ∀ l ∈ st.1, l.child_pathway_id ≠ s) :
    ∀ l ∈ (transferAdd t p st).1, l.child_pathway_id ≠ s := by
  unfold transferAdd
  split
  · exact h
  · split
    · intro l hl
      rcases List.mem_append.1 hl with hm | hm
      · exact h l hm
      · rcases List.mem_singleton.1 hm with rfl
        intro he
        exact hst he.symm
    · exact h

theorem transferAdd_parent_ne {t p x : Nat} (hpx : p ≠ x)
    {st : List PPLink × Nat}
    (h : ∀ l ∈ st.1, l.parent_pathway_id ≠ x) :
    ∀ l ∈ (transferAdd t p st).1, l.parent_pathway_id ≠ x := by
  unfold transferAdd
  split
  · exact h
  · split
    · intro l hl
      rcases List.mem_append.1 hl with hm | hm
      · exact h l hm
      · rcases List.mem_singleton.1 hm with rfl
        exact hpx
    · exact h

theorem transferAdd_make {t p : Nat} (hpt : p ≠ t)
    (st : List PPLink × Nat) :
    ∃ l ∈ (transferAdd t p st).1, linkPair l = (t, p) := by
  unfold transferAdd
  split
  · next ex hg =>
      have hexmem := List.mem_of_find?_eq_some hg
      have hgp := List.find?_some hg
      exact ⟨ex, hexmem, (link_pred_iff t p ex).1 hgp⟩
  · split
    · exact ⟨_, List.mem_append_right _ (List.mem_singleton_self _),
        rfl⟩
    · next hc => exact absurd hpt hc

theorem transferAdd_all {t p : Nat} {st : List PPLink × Nat}
    (P : PPLink → Prop) (h : ∀ l ∈ st.1, P l)
    (hnew : P ⟨st.2, t, p⟩) :
    ∀ l ∈ (transferAdd t p st).1, P l := by
  unfold transferAdd
  split
  · exact h
  · split
    · intro l hl
      rcases List.mem_append.1 hl with hm | hm
      · exact h l hm
      · rcases List.mem_singleton.1 hm with rfl
        exact hnew
    · exact h

theorem transferFold_WF {s t : Nat} (_hst : s ≠ t) :
    ∀ (ps : List Nat), (∀ p ∈ ps, p ≠ s) →
      ∀ (st : List PPLink × Nat), LinksWF s t st.1 →
        (∀ l ∈ st.1, l.id < st.2) →
        LinksWF s t (ps.foldl (transferParentStep s t) st).1 ∧
        (∀ l ∈ (ps.foldl (transferParentStep s t) st).1,
          l.id < (ps.foldl (transferParentStep s t) st).2) := by
  intro ps
  induction ps with
  | nil => intro _ st h1 h2; exact ⟨h1, h2⟩
  | cons p ps ih =>
      intro hps st hwf hfresh
      rw [List.foldl_cons]
      have hp : p ≠ s := hps p (List.mem_cons_self _ _)
      refine ih (fun q hq => hps q (List.mem_cons_of_mem _ hq)) _ ?_ ?_
      · exact transferAdd_WF (transferDrop_WF hwf)
          (fun l hl => hfresh l (transferDrop_subset l hl)) hp
      · exact transferAdd_fresh
          (fun l hl => hfresh l (transferDrop_subset l hl))

theorem transferFold_no_child_s {s t : Nat} (hst : s ≠ t) :
    ∀ (ps : List Nat), (∀ p ∈ ps, p ≠ s) →
      ∀ (st : List PPLink × Nat), LinksWF s t st.1 →
        (∀ l ∈ st.1, l.id < st.2) →
        (∀ l ∈ st.1, l.child_pathway_id = s →
          l.parent_pathway_id ∈ ps) →
        ∀ l ∈ (ps.foldl (transferParentStep s t) st).1,
          l.child_pathway_id ≠ s := by
  intro ps
  induction ps with
  | nil =>
      intro _ st _ _ hcov l hl he
      exact absurd (hcov l hl he) (List.not_mem_nil _)
  | cons p ps ih =>
      intro hps st hwf hfresh hcov
      rw [List.foldl_cons]
      have hp : p ≠ s := hps p (List.mem_cons_self _ _)
      refine ih (fun q hq => hps q (List.mem_cons_of_mem _ hq)) _
        (transferAdd_WF (transferDrop_WF hwf)
          (fun l hl => hfresh l (transferDrop_subset l hl)) hp)
        (transferAdd_fresh
          (fun l hl => hfresh l (transferDrop_subset l hl))) ?_
      refine transferAdd_all
        (fun l => l.child_pathway_id = s → l.parent_pathway_id ∈ ps)
        (transferDrop_cover hwf hcov) ?_
      intro he
      exact absurd he.symm hst

theorem transferFold_no_parent_s {s : Nat} (t : Nat) :
    ∀ (ps : List Nat), (∀ p ∈ ps, p ≠ s) →
      ∀ (st : List PPLink × Nat),
        (∀ l ∈ st.1, l.parent_pathway_id ≠ s) →
        ∀ l ∈ (ps.foldl (transferParentStep s t) st).1,
          l.parent_pathway_id ≠ s := by
  intro ps
  induction ps with
  | nil => intro _ st h; exact h
  | cons p ps ih =>
      intro hps st h
      rw [List.foldl_cons]
      have hp : p ≠ s := hps p (List.mem_cons_self _ _)
      refine ih (fun q hq => hps q (List.mem_cons_of_mem _ hq)) _ ?_
      exact transferAdd_parent_ne hp
        (fun l hl => h l (transferDrop_subset l hl))

theorem transferFold_keep {s t : Nat} (_hst : s ≠ t) :
    ∀ (ps : List Nat), (∀ p ∈ ps, p ≠ s) →
      ∀ (st : List PPLink × Nat), LinksWF s t st.1 →
        (∀ l ∈ st.1, l.id < st.2) →
        ∀ a b, a ≠ s → (∃ l ∈ st.1, linkPair l = (a, b)) →
        ∃ l ∈ (ps.foldl (transferParentStep s t) st).1,
          linkPair l = (a, b) := by
  intro ps
  induction ps with
  | nil => intro _ st _ _ a b _ h; exact h
  | cons p ps ih =>
      intro hps st hwf hfresh a b has hex
      rw [List.foldl_cons]
      have hp : p ≠ s := hps p (List.mem_cons_self _ _)
      have hwf' : LinksWF s t
          (transferAdd t p (transferDrop s p st.1, st.2)).1 :=
        transferAdd_WF (transferDrop_WF hwf)
          (fun l hl => hfresh l (transferDrop_subset l hl)) hp
      have hfresh' : ∀ l ∈ (transferAdd t p
            (transferDrop s p st.1, st.2)).1,
          l.id < (transferAdd t p (transferDrop s p st.1, st.2)).2 :=
        transferAdd_fresh (fun l hl => hfresh l (transferDrop_subset l hl))
      refine ih (fun q hq => hps q (List.mem_cons_of_mem _ hq)) _
        hwf' hfresh' a b has ?_
      obtain ⟨l, hl, hlp⟩ := transferDrop_keep hwf has hex
      exact ⟨l, transferAdd_superset l hl, hlp⟩

theorem transferFold_make {s t : Nat} (hst : s ≠ t) :
    ∀ (ps : List Nat), (∀ p ∈ ps, p ≠ s) →
      ∀ (st : List PPLink × Nat), LinksWF s t st.1 →
        (∀ l ∈ st.1, l.id < st.2) →
        ∀ x ∈ ps, x ≠ t →
        ∃ l ∈ (ps.foldl (transferParentStep s t) st).1,
          linkPair l = (t, x) := by
  intro ps
  induction ps with
  | nil => intro _ st _ _ x hx; exact absurd hx (List.not_mem_nil _)
  | cons p ps ih =>
      intro hps st hwf hfresh x hx hxt
      rw [List.foldl_cons]
      have hp : p ≠ s := hps p (List.mem_cons_self _ _)
      have hwf' : LinksWF s t
          (transferAdd t p (transferDrop s p st.1, st.2)).1 :=
        transferAdd_WF (transferDrop_WF hwf)
          (fun l hl => hfresh l (transferDrop_subset l hl)) hp
      have hfresh' : ∀ l ∈ (transferAdd t p
            (transferDrop s p st.1, st.2)).1,
          l.id < (transferAdd t p (transferDrop s p st.1, st.2)).2 :=
        transferAdd_fresh (fun l hl => hfresh l (transferDrop_subset l hl))
      by_cases hxp : x = p
      · subst hxp
        refine transferFold_keep hst ps
          (fun q hq => hps q (List.mem_cons_of_mem _ hq)) _
          hwf' hfresh' t x (Ne.symm hst) ?_
        exact transferAdd_make hxt _
      · have hx' : x ∈ ps := by
          rcases List.mem_cons.1 hx with h | h
          · exact absurd h hxp
          · exact h
        exact ih (fun q hq => hps q (List.mem_cons_of_mem _ hq)) _
          hwf' hfresh' x hx' hxt

theorem reparentChildStep_id_lt {s t n : Nat} {links : List PPLink}
    (h : ∀ l ∈ links, l.id < n) (c : Nat) :
    ∀ l ∈ reparentChildStep s t links c, l.id < n := by
  unfold reparentChildStep
  split
  · exact h
  · next link hf =>
      split
      · intro l hl
        exact h l (List.mem_of_mem_filter hl)
      · intro l hl
        rcases List.mem_map.1 hl with ⟨l₀, hl₀, rfl⟩
        have h0 := h l₀ hl₀
        split
        · exact h0
        · exact h0

theorem reparentFold_id_lt {s t n : Nat} :
    ∀ (cs : List Nat) (links : List PPLink),
      (∀ l ∈ links, l.id < n) →
      ∀ l ∈ cs.foldl (reparentChildStep s t) links, l.id < n := by
  intro cs
  induction cs with
  | nil => intro links h; exact h
  | cons c cs ih =>
      intro links h
      rw [List.foldl_cons]
      exact ih _ (reparentChildStep_id_lt h c)

theorem eraseP_id_complete (s : Nat) :
    ∀ (rows : List Pathway), (rows.map (fun p => p.id)).Nodup →
      ∀ p ∈ rows.eraseP (fun q => q.id == s), p.id ≠ s := by
  intro rows
  induction rows with
  | nil =>
      intro _ p hp
      simp [List.eraseP] at hp
  | cons r rs ih =>
      intro h p hp
      rw [List.map_cons, List.nodup_cons] at h
      rw [List.eraseP_cons] at hp
      cases hb : (r.id == s) with
      | false =>
          rw [hb, cond_false] at hp
          rcases List.mem_cons.1 hp with rfl | hp'
          · exact beq_eq_false_iff_ne.1 hb
          · exact ih h.2 p hp'
      | true =>
          rw [hb, cond_true] at hp
          intro he
          refine h.1 ?_
          have hrs : r.id = s := eq_of_beq hb
          rw [hrs, ← he]
          exact List.mem_map.2 ⟨p, hp, rfl⟩

theorem mergeBody_success (source target : Nat) (db : DB)
    (hst : source ≠ target)
    (hpid : (db.pathways.map (fun p => p.id)).Nodup)
    (hlpair : (db.parentLinks.map linkPair).Nodup)
    (hlid : (db.parentLinks.map (fun l => l.id)).Nodup)
    (hlfresh : ∀ l ∈ db.parentLinks, l.id < db.nextLinkId)
    (hnoself : ∀ l ∈ db.parentLinks,
      l.child_pathway_id ≠ l.parent_pathway_id)
    (hnots : ∀ l ∈ db.parentLinks,
      ¬(l.child_pathway_id = target ∧ l.parent_pathway_id = source))
    (hppair : (db.pathwayInteractions.map piPair).Nodup)
    (hpiid : (db.pathwayInteractions.map (fun q => q.id)).Nodup)
    (htrow : ∃ q ∈ db.pathways, q.id = target) :
    (∀ p ∈ (executeMigrationBody (build_merge_migration_plan source target
        db.parentLinks db.pathwayInteractions) db).pathways,
      p.id ≠ source) ∧
    (∃ q ∈ (executeMigrationBody (build_merge_migration_plan source target
        db.parentLinks db.pathwayInteractions) db).pathways,
      q.id = target) ∧
    (∀ l ∈ (executeMigrationBody (build_merge_migration_plan source target
        db.parentLinks db.pathwayInteractions) db).parentLinks,
      l.child_pathway_id ≠ source ∧ l.parent_pathway_id ≠ source) ∧
    (∀ q ∈ (executeMigrationBody (build_merge_migration_plan source target
        db.parentLinks db.pathwayInteractions) db).pathwayInteractions,
      q.pathway_id ≠ source) ∧
    (((executeMigrationBody (build_merge_migration_plan source target
        db.parentLinks db.pathwayInteractions) db).parentLinks.map
      linkPair).Nodup) ∧
    (((executeMigrationBody (build_merge_migration_plan source target
        db.parentLinks db.pathwayInteractions) db).pathwayInteractions.map
      piPair).Nodup) ∧
    (∀ l ∈ db.parentLinks, l.parent_pathway_id = source →
      ∃ l' ∈ (executeMigrationBody (build_merge_migration_plan source target
          db.parentLinks db.pathwayInteractions) db).parentLinks,
        linkPair l' = (l.child_pathway_id, target)) ∧
    (∀ q ∈ db.pathwayInteractions, q.pathway_id = source →
      ∃ q' ∈ (executeMigrationBody (build_merge_migration_plan source target
          db.parentLinks db.pathwayInteractions) db).pathwayInteractions,
        piPair q' = (target, q.interaction_id)) ∧
    (∀ l ∈ db.parentLinks, l.child_pathway_id = source →
      l.parent_pathway_id = target ∨
      ∃ l' ∈ (executeMigrationBody (build_merge_migration_plan source target
          db.parentLinks db.pathwayInteractions) db).parentLinks,
        linkPair l' = (target, l.parent_pathway_id)) := by
  have hPL : (executeMigrationBody (build_merge_migration_plan source target
      db.parentLinks db.pathwayInteractions) db).parentLinks =
      (((db.parentLinks.filter (fun l =>
          l.child_pathway_id == source)).map
          (fun l => l.parent_pathway_id)).foldl
        (transferParentStep source target)
        ((((db.parentLinks.filter (fun l =>
            l.parent_pathway_id == source)).map
            (fun l => l.child_pathway_id)).foldl
          (reparentChildStep source target) db.parentLinks),
          db.nextLinkId)).1 := rfl
  have hPI : (executeMigrationBody (build_merge_migration_plan source target
      db.parentLinks db.pathwayInteractions) db).pathwayInteractions =
      ((db.pathwayInteractions.filter (fun q =>
          q.pathway_id == source)).map (fun q => q.interaction_id)).foldl
        (reassignInteractionStep source target)
        db.pathwayInteractions := rfl
  have hPW : (executeMigrationBody (build_merge_migration_plan source target
      db.parentLinks db.pathwayInteractions) db).pathways =
      db.pathways.eraseP (fun p => p.id == source) := rfl
  have hwf0 : LinksWF source target db.parentLinks :=
    ⟨hlpair, hlid, hnoself, hnots⟩
  have hpiwf : PIWF db.pathwayInteractions := ⟨hppair, hpiid⟩
  have cover0 : ∀ l ∈ db.parentLinks, l.parent_pathway_id = source →
      l.child_pathway_id ∈ (db.parentLinks.filter (fun l =>
        l.parent_pathway_id == source)).map (fun l => l.child_pathway_id) := by
    intro l hl hp
    exact List.mem_map.2 ⟨l, List.mem_filter.2 ⟨hl, by simp [hp]⟩, rfl⟩
  have covChild0 : ∀ l ∈ db.parentLinks, l.child_pathway_id = source →
      l.parent_pathway_id ∈ (db.parentLinks.filter (fun l =>
        l.child_pathway_id == source)).map (fun l => l.parent_pathway_id) := by
    intro l hl hp
    exact List.mem_map.2 ⟨l, List.mem_filter.2 ⟨hl, by simp [hp]⟩, rfl⟩
  have coverPI : ∀ q ∈ db.pathwayInteractions, q.pathway_id = source →
      q.interaction_id ∈ (db.pathwayInteractions.filter (fun q =>
        q.pathway_id == source)).map (fun q => q.interaction_id) := by
    intro q hq hp
    exact List.mem_map.2 ⟨q, List.mem_filter.2 ⟨hq, by simp [hp]⟩, rfl⟩
  have hps : ∀ p ∈ (db.parentLinks.filter (fun l =>
      l.child_pathway_id == source)).map (fun l => l.parent_pathway_id),
      p ≠ source := by
    intro p hp
    rcases List.mem_map.1 hp with ⟨l, hlf, rfl⟩
    rcases List.mem_filter.1 hlf with ⟨hl, hb⟩
    have hc : l.child_pathway_id = source := eq_of_beq hb
    intro he
    exact hnoself l hl (hc.trans he.symm)
  have hwf1 : LinksWF source target
      (((db.parentLinks.filter (fun l =>
        l.parent_pathway_id == source)).map
        (fun l => l.child_pathway_id)).foldl
        (reparentChildStep source target) db.parentLinks) :=
    reparentFold_WF hst _ _ hwf0
  have hnp1 := reparentFold_no_parent_s hst
    ((db.parentLinks.filter (fun l => l.parent_pathway_id == source)).map
      (fun l => l.child_pathway_id)) db.parentLinks hwf0 cover0
  have hcov1 := reparentFold_childQ hst
    (fun x => x ∈ (db.parentLinks.filter (fun l =>
      l.child_pathway_id == source)).map (fun l => l.parent_pathway_id))
    ((db.parentLinks.filter (fun l => l.parent_pathway_id == source)).map
      (fun l => l.child_pathway_id)) db.parentLinks hwf0 covChild0
  have hfresh1 : ∀ l ∈ ((db.parentLinks.filter (fun l =>
      l.parent_pathway_id == source)).map
      (fun l => l.child_pathway_id)).foldl
      (reparentChildStep source target) db.parentLinks,
      l.id < db.nextLinkId :=
    reparentFold_id_lt _ _ hlfresh
  refine ⟨?_, ?_, ?_, ?_, ?_, ?_, ?_, ?_, ?_⟩
  · rw [hPW]
    exact eraseP_id_complete source db.pathways hpid
  · rw [hPW]
    obtain ⟨q, hq, hqid⟩ := htrow
    refine ⟨q, ?_, hqid⟩
    refine (List.mem_eraseP_of_neg ?_).2 hq
    rw [hqid]
    simpa using Ne.symm hst
  · intro l hl
    rw [hPL] at hl
    constructor
    · exact transferFold_no_child_s hst _ hps _ hwf1 hfresh1 hcov1 l hl
    · exact transferFold_no_parent_s target _ hps _ hnp1 l hl
  · intro q hq
    rw [hPI] at hq
    exact reassignFold_no_pathway_s hst _ _ hpiwf coverPI q hq
  · rw [hPL]
    exact (transferFold_WF hst _ hps _ hwf1 hfresh1).1.1
  · rw [hPI]
    exact (reassignFold_WF hst _ _ hpiwf).1
  · intro l hl hp
    rw [hPL]
    have h1 := reparentFold_make_t hst
      ((db.parentLinks.filter (fun l => l.parent_pathway_id == source)).map
        (fun l => l.child_pathway_id)) db.parentLinks hwf0
      l.child_pathway_id (cover0 l hl hp)
      ⟨l, hl, by simp [linkPair, hp]⟩
    refine transferFold_keep hst _ hps _ hwf1 hfresh1
      l.child_pathway_id target ?_ h1
    intro he
    exact hnoself l hl (he.trans hp.symm)
  · intro q hq hp
    rw [hPI]
    exact reassignFold_make_t hst _ db.pathwayInteractions hpiwf
      q.interaction_id (coverPI q hq hp) ⟨q, hq, by simp [piPair, hp]⟩
  · intro l hl hc
    by_cases hpt : l.parent_pathway_id = target
    · exact Or.inl hpt
    · refine Or.inr ?_
      rw [hPL]
      exact transferFold_make hst _ hps _ hwf1 hfresh1
        l.parent_pathway_id (covChild0 l hl hc) hpt

/-- C3.  Confirmed: executing a merge plan built from the current
tables is all-or-nothing.  Any failure (missing target or source, or
an exception at any point of the transaction, modelled by `failAfter`)
returns the input state unchanged together with a non-empty error
list; a missing endpoint always fails; and a successful run deletes
the source row, leaves no link or association referencing the source,
keeps the target row, folds the source's children, associations and
parent links into the target with duplicates dropped (the uniqueness
constraints still hold afterwards).  The hypotheses are the database's
own invariants: unique primary keys, the unique `(child, parent)` and
`(pathway, interaction)` constraints, the no-self-reference CHECK
constraint, fresh autoincrement counters, and no `target → source`
edge (whose retargeting would abort the transaction). -/
theorem claim_C3_merge_atomic (source target : Nat) (db : DB)
    (failAfter : Option Nat)
    (hst : source ≠ target)
    (hpid : (db.pathways.map (fun p => p.id)).Nodup)
    (hlpair : (db.parentLinks.map linkPair).Nodup)
    (hlid : (db.parentLinks.map (fun l => l.id)).Nodup)
    (hlfresh : ∀ l ∈ db.parentLinks, l.id < db.nextLinkId)
    (hnoself : ∀ l ∈ db.parentLinks,
      l.child_pathway_id ≠ l.parent_pathway_id)
    (hnots : ∀ l ∈ db.parentLinks,
      ¬(l.child_pathway_id = target ∧ l.parent_pathway_id = source))
    (hppair : (db.pathwayInteractions.map piPair).Nodup)
    (hpiid : (db.pathwayInteractions.map (fun q => q.id)).Nodup) :
    ((mergeRun source target db failAfter).1 = false →
      (mergeRun source target db failAfter).2.2 = db ∧
      (mergeRun source target db failAfter).2.1 ≠ []) ∧
    ((getPathway db target = none ∨ getPathway db source = none) →
      (mergeRun source target db failAfter).1 = false) ∧
    ((mergeRun source target db failAfter).1 = true →
      (∀ p ∈ (mergeRun source target db failAfter).2.2.pathways,
        p.id ≠ source) ∧
      (∃ q ∈ (mergeRun source target db failAfter).2.2.pathways,
        q.id = target) ∧
      (∀ l ∈ (mergeRun source target db failAfter).2.2.parentLinks,
        l.child_pathway_id ≠ source ∧ l.parent_pathway_id ≠ source) ∧
      (∀ q ∈ (mergeRun source target db
          failAfter).2.2.pathwayInteractions, q.pathway_id ≠ source) ∧
      (((mergeRun source target db failAfter).2.2.parentLinks.map
        linkPair).Nodup) ∧
      (((mergeRun source target db failAfter).2.2.pathwayInteractions.map
        piPair).Nodup) ∧
      (∀ l ∈ db.parentLinks, l.parent_pathway_id = source →
        ∃ l' ∈ (mergeRun source target db failAfter).2.2.parentLinks,
          linkPair l' = (l.child_pathway_id, target)) ∧
      (∀ q ∈ db.pathwayInteractions, q.pathway_id = source →
        ∃ q' ∈ (mergeRun source target db
            failAfter).2.2.pathwayInteractions,
          piPair q' = (target, q.interaction_id)) ∧
      (∀ l ∈ db.parentLinks, l.child_pathway_id = source →
        l.parent_pathway_id = target ∨
        ∃ l' ∈ (mergeRun source target db failAfter).2.2.parentLinks,
          linkPair l' = (target, l.parent_pathway_id))) := by
  have hT : (build_merge_migration_plan source target db.parentLinks
      db.pathwayInteractions).target_pathway_id = target := rfl
  have hS : (build_merge_migration_plan source target db.parentLinks
      db.pathwayInteractions).source_pathway_id = source := rfl
  rcases ht : getPathway db target with _ | trow
  · have hout : mergeRun source target db failAfter =
        (false, ["Target pathway " ++ toString target ++ " not found"],
          db) := by
      unfold mergeRun execute_migration_plan
      rw [hT, ht]
    refine ⟨?_, ?_, ?_⟩
    · intro _
      rw [hout]
      exact ⟨rfl, by simp⟩
    · intro _
      rw [hout]
    · intro htrue
      rw [hout] at htrue
      exact absurd htrue (by simp)
  · rcases hs : getPathway db source with _ | srow
    · have hout : mergeRun source target db failAfter =
          (false, ["Source pathway " ++ toString source ++ " not found"],
            db) := by
        unfold mergeRun execute_migration_plan
        rw [hT, hS, ht, hs]
      refine ⟨?_, ?_, ?_⟩
      · intro _
        rw [hout]
        exact ⟨rfl, by simp⟩
      · intro _
        rw [hout]
      · intro htrue
        rw [hout] at htrue
        exact absurd htrue (by simp)
    · have htrow : ∃ q ∈ db.pathways, q.id = target := by
        have hmem := List.mem_of_find?_eq_some ht
        have hb := List.find?_some ht
        exact ⟨trow, hmem, eq_of_beq hb⟩
      have hbody := mergeBody_success source target db hst hpid hlpair
        hlid hlfresh hnoself hnots hppair hpiid htrow
      have hneither : (some trow = none ∨ some srow = none) →
          (mergeRun source target db failAfter).1 = false := by
        intro hor
        rcases hor with h | h <;> exact absurd h (by simp)
      rcases failAfter with _ | k
      · have hout : mergeRun source target db none =
            (true, [], executeMigrationBody
              (build_merge_migration_plan source target db.parentLinks
                db.pathwayInteractions) db) := by
          unfold mergeRun execute_migration_plan
          rw [hT, hS, ht, hs]
        refine ⟨?_, hneither, ?_⟩
        · intro hfalse
          rw [hout] at hfalse
          exact absurd hfalse (by simp)
        · intro _
          rw [hout]
          exact hbody
      · by_cases hk : k < (build_merge_migration_plan source target
            db.parentLinks
            db.pathwayInteractions).children_to_reparent.length +
            (build_merge_migration_plan source target db.parentLinks
              db.pathwayInteractions).interactions_to_reassign.length +
            (build_merge_migration_plan source target db.parentLinks
              db.pathwayInteractions).parent_links_to_transfer.length + 2
        · have hout : mergeRun source target db (some k) =
              (false, ["Migration failed: exception"], db) := by
            unfold mergeRun execute_migration_plan
            rw [hT, hS, ht, hs]
            exact if_pos hk
          refine ⟨?_, hneither, ?_⟩
          · intro _
            rw [hout]
            exact ⟨rfl, by simp⟩
          · intro htrue
            rw [hout] at htrue
            exact absurd htrue (by simp)
        · have hout : mergeRun source target db (some k) =
              (true, [], executeMigrationBody
                (build_merge_migration_plan source target db.parentLinks
                  db.pathwayInteractions) db) := by
            unfold mergeRun execute_migration_plan
            rw [hT, hS, ht, hs]
            exact if_neg hk
          refine ⟨?_, hneither, ?_⟩
          · intro hfalse
            rw [hout] at hfalse
            exact absurd hfalse (by simp)
          · intro _
            rw [hout]
            exact hbody

/-- C3 witness: on the concrete three-row fixture all database
invariants hold, the merge of 1 into 2 succeeds, and afterwards no
association references the deleted source. -/
theorem claim_C3_merge_atomic_witness :
    (c3DB.parentLinks.map linkPair).Nodup ∧
    (∀ l ∈ c3DB.parentLinks, l.id < c3DB.nextLinkId) ∧
    (∀ q ∈ (mergeRun 1 2 c3DB none).2.2.pathwayInteractions,
      q.pathway_id ≠ 1) := by
  refine ⟨by decide, by decide, ?_⟩
  exact ((claim_C3_merge_atomic 1 2 c3DB none (by decide) (by decide)
    (by decide) (by decide) (by decide) (by decide) (by decide)
    (by decide) (by decide)).2.2 (by decide)).2.2.2.1

/-! ### The in-memory DAG stays acyclic (claim C10) -/

theorem childrenOf_def (d : PathwayDAG) (i : Nat) :
    ((d.get? i).map PathwayNode.child_ids).getD [] = childrenOf d i := rfl

theorem dagEdge_iff (d : PathwayDAG) (a b : Nat) :
    dagEdge d a b ↔ b ∈ childrenOf d a := Iff.rfl

theorem childrenOf_of_not_key {d : PathwayDAG} {x : Nat}
    (hx : x ∉ dagKeyFinset d) : childrenOf d x = [] := by
  unfold childrenOf PathwayDAG.get?
  have hnone : d.nodes.find? (fun n => n.id == x) = none := by
    rw [List.find?_eq_none]
    intro n hn hbeq
    refine hx ?_
    rw [← eq_of_beq hbeq]
    simp only [dagKeyFinset, List.mem_toFinset]
    exact List.mem_map.2 ⟨n, hn, rfl⟩
  rw [hnone]
  rfl

theorem dagMeasure_step {d : PathwayDAG} {x : Nat}
    {rest visited : List Nat} (hx : x ∉ visited) :
    dagMeasure d (childrenOf d x ++ rest) (visited ++ [x]) + 1 ≤
      dagMeasure d (x :: rest) visited := by
  classical
  unfold dagMeasure
  by_cases hk : x ∈ dagKeyFinset d
  · have hmem : x ∈ (dagKeyFinset d).filter (fun k => k ∉ visited) := by
      simp [Finset.mem_filter, hk, hx]
    have hfe :
        (dagKeyFinset d).filter (fun k => k ∉ visited ++ [x]) =
          ((dagKeyFinset d).filter (fun k => k ∉ visited)).erase x := by
      ext a
      simp only [Finset.mem_filter, Finset.mem_erase, List.mem_append,
        List.mem_singleton, not_or]
      tauto
    rw [hfe, ← Finset.sum_erase_add
      ((dagKeyFinset d).filter (fun k => k ∉ visited))
      (fun k => (childrenOf d k).length + 1) hmem]
    simp only [List.length_append, List.length_cons]
    omega
  · have hlen : (childrenOf d x).length = 0 := by
      rw [childrenOf_of_not_key hk]
      rfl
    have hfe :
        (dagKeyFinset d).filter (fun k => k ∉ visited ++ [x]) =
          (dagKeyFinset d).filter (fun k => k ∉ visited) := by
      apply Finset.filter_congr
      intro a ha
      have hax : a ≠ x := by
        rintro rfl
        exact hk ha
      simp [List.mem_append, hax]
    rw [hfe]
    simp only [List.length_append, List.length_cons, hlen]
    omega

theorem reach_stays {r : Nat → Nat → Prop} {V : Nat → Prop}
    (hcl : ∀ v, V v → ∀ y, r v y → V y) :
    ∀ {x y : Nat}, Relation.ReflTransGen r x y → V x → V y := by
  intro x y h
  induction h with
  | refl => exact id
  | tail _ hbc ih => intro hx; exact hcl _ (ih hx) _ hbc

theorem dagCycleDfs_false (d : PathwayDAG) (p : Nat) :
    ∀ (fuel : Nat) (stack visited : List Nat),
      dagMeasure d stack visited ≤ fuel →
      p ∉ stack → p ∉ visited →
      (∀ v ∈ visited, ∀ y, dagEdge d v y →
        y ≠ p ∧ (y ∈ visited ∨ y ∈ stack)) →
      dagCycleDfs d p fuel stack visited = false →
      ∀ x, (x ∈ stack ∨ x ∈ visited) →
        ¬ Relation.ReflTransGen (dagEdge d) x p := by
  intro fuel
  induction fuel with
  | zero =>
      intro stack visited hm _ hpvis hvis _ x hx hrt
      have hq : stack = [] := by
        have : stack.length = 0 := by
          unfold dagMeasure at hm
          omega
        exact List.length_eq_zero.1 this
      subst hq
      rcases hx with hx | hx
      · simp at hx
      · refine hpvis (reach_stays (V := fun v => v ∈ visited) ?_ hrt hx)
        intro v hv y hy
        rcases (hvis v hv y hy).2 with h | h
        · exact h
        · simp at h
  | succ n ih =>
      intro stack visited hm hpstack hpvis hvis hfalse x hx
      match stack, hpstack, hm, hfalse, hx with
      | [], _, _, _, hx =>
          intro hrt
          rcases hx with hx | hx
          · simp at hx
          · refine hpvis (reach_stays (V := fun v => v ∈ visited) ?_ hrt hx)
            intro v hv y hy
            rcases (hvis v hv y hy).2 with h | h
            · exact h
            · simp at h
      | cur :: rest, hpstack, hm, hfalse, hx =>
          have hcp : cur ≠ p := by
            intro he
            refine hpstack ?_
            rw [← he]
            exact List.mem_cons_self _ _
          rw [dagCycleDfs, if_neg hcp] at hfalse
          by_cases hcv : cur ∈ visited
          · rw [if_pos hcv] at hfalse
            have hm' : dagMeasure d rest visited ≤ n := by
              unfold dagMeasure at hm ⊢
              simp only [List.length_cons] at hm
              omega
            have hvis' : ∀ v ∈ visited, ∀ y, dagEdge d v y →
                y ≠ p ∧ (y ∈ visited ∨ y ∈ rest) := by
              intro v hv y hy
              refine ⟨(hvis v hv y hy).1, ?_⟩
              rcases (hvis v hv y hy).2 with h | h
              · exact Or.inl h
              · rcases List.mem_cons.1 h with rfl | h
                · exact Or.inl hcv
                · exact Or.inr h
            have hrec := ih rest visited hm'
              (fun h => hpstack (List.mem_cons_of_mem _ h)) hpvis
              hvis' hfalse
            rcases hx with hx | hx
            · rcases List.mem_cons.1 hx with rfl | hx
              · exact hrec x (Or.inr hcv)
              · exact hrec x (Or.inl hx)
            · exact hrec x (Or.inr hx)
          · rw [if_neg hcv] at hfalse
            dsimp only [] at hfalse
            by_cases hpc : p ∈ ((d.get? cur).map PathwayNode.child_ids).getD []
            · rw [if_pos hpc] at hfalse
              exact absurd hfalse (by simp)
            · rw [if_neg hpc] at hfalse
              rw [childrenOf_def] at hfalse hpc
              have hm' : dagMeasure d (childrenOf d cur ++ rest)
                  (visited ++ [cur]) ≤ n := by
                have hstep : dagMeasure d (childrenOf d cur ++ rest)
                    (visited ++ [cur]) + 1 ≤
                    dagMeasure d (cur :: rest) visited := dagMeasure_step hcv
                omega
              have hps' : p ∉ childrenOf d cur ++ rest := by
                intro h
                rcases List.mem_append.1 h with h | h
                · exact hpc h
                · exact hpstack (List.mem_cons_of_mem _ h)
              have hpv' : p ∉ visited ++ [cur] := by
                intro h
                rcases List.mem_append.1 h with h | h
                · exact hpvis h
                · rw [List.mem_singleton] at h
                  exact hcp h.symm
              have hvis' : ∀ v ∈ visited ++ [cur], ∀ y, dagEdge d v y →
                  y ≠ p ∧ (y ∈ visited ++ [cur] ∨
                    y ∈ childrenOf d cur ++ rest) := by
                intro v hv y hy
                rcases List.mem_append.1 hv with hv | hv
                · refine ⟨(hvis v hv y hy).1, ?_⟩
                  rcases (hvis v hv y hy).2 with h | h
                  · exact Or.inl (List.mem_append.2 (Or.inl h))
                  · rcases List.mem_cons.1 h with rfl | h
                    · exact Or.inl (List.mem_append.2 (Or.inr (by simp)))
                    · exact Or.inr (List.mem_append.2 (Or.inr h))
                · rw [List.mem_singleton] at hv
                  subst hv
                  have hyc : y ∈ childrenOf d v := hy
                  refine ⟨?_, Or.inr (List.mem_append.2 (Or.inl hyc))⟩
                  intro he
                  exact hpc (he ▸ hyc)
              have hrec := ih (childrenOf d cur ++ rest) (visited ++ [cur])
                hm' hps' hpv' hvis' hfalse
              rcases hx with hx | hx
              · rcases List.mem_cons.1 hx with rfl | hx
                · exact hrec x
                    (Or.inr (List.mem_append.2 (Or.inr (by simp))))
                · exact hrec x (Or.inl (List.mem_append.2 (Or.inr hx)))
              · exact hrec x (Or.inr (List.mem_append.2 (Or.inl hx)))

theorem childrenOf_cons_self (n : PathwayNode) (t : List PathwayNode) :
    childrenOf ⟨n :: t⟩ n.id = n.child_ids := by
  unfold childrenOf PathwayDAG.get?
  rw [List.find?_cons_of_pos _ (by simp)]
  rfl

theorem childrenOf_cons_ne {k : Nat} (n : PathwayNode)
    (t : List PathwayNode) (h : n.id ≠ k) :
    childrenOf ⟨n :: t⟩ k = childrenOf ⟨t⟩ k := by
  unfold childrenOf PathwayDAG.get?
  rw [List.find?_cons_of_neg _ (by simpa using h)]

theorem sum_childrenOf_le_totalChildLen :
    ∀ (ns : List PathwayNode),
      ∑ k ∈ dagKeyFinset ⟨ns⟩, (childrenOf ⟨ns⟩ k).length ≤
        PathwayDAG.totalChildLen ⟨ns⟩ := by
  intro ns
  induction ns with
  | nil => simp [dagKeyFinset, PathwayDAG.totalChildLen]
  | cons n t ih =>
      classical
      have hkey : dagKeyFinset ⟨n :: t⟩ = insert n.id (dagKeyFinset ⟨t⟩) := by
        simp [dagKeyFinset]
      have htot : PathwayDAG.totalChildLen ⟨n :: t⟩ =
          n.child_ids.length + PathwayDAG.totalChildLen ⟨t⟩ := by
        simp [PathwayDAG.totalChildLen]
      rw [hkey, htot]
      by_cases hk : n.id ∈ dagKeyFinset ⟨t⟩
      · rw [Finset.insert_eq_self.2 hk]
        set f : Nat → Nat := fun k => (childrenOf ⟨n :: t⟩ k).length
          with hf
        have herase := Finset.sum_erase_add (dagKeyFinset ⟨t⟩) f hk
        have hsub : ∑ k ∈ (dagKeyFinset ⟨t⟩).erase n.id, f k =
            ∑ k ∈ (dagKeyFinset ⟨t⟩).erase n.id,
              (childrenOf ⟨t⟩ k).length := by
          apply Finset.sum_congr rfl
          intro k hkmem
          simp only [hf]
          rw [childrenOf_cons_ne n t (Ne.symm (Finset.ne_of_mem_erase hkmem))]
        have hle : ∑ k ∈ (dagKeyFinset ⟨t⟩).erase n.id,
            (childrenOf ⟨t⟩ k).length ≤
            ∑ k ∈ dagKeyFinset ⟨t⟩, (childrenOf ⟨t⟩ k).length :=
          Finset.sum_le_sum_of_subset (Finset.erase_subset _ _)
        have hfk0 : f n.id = n.child_ids.length := by
          simp only [hf]
          rw [childrenOf_cons_self]
        rw [← herase, hsub, hfk0]
        omega
      · rw [Finset.sum_insert hk]
        have hsub : ∑ k ∈ dagKeyFinset ⟨t⟩,
            (childrenOf ⟨n :: t⟩ k).length =
            ∑ k ∈ dagKeyFinset ⟨t⟩, (childrenOf ⟨t⟩ k).length := by
          apply Finset.sum_congr rfl
          intro k hkmem
          rw [childrenOf_cons_ne n t (by rintro rfl; exact hk hkmem)]
        rw [hsub, childrenOf_cons_self]
        omega

theorem dag_fuel_ok (d : PathwayDAG) (c : Nat) :
    dagMeasure d [c] [] ≤ d.totalChildLen + d.nodes.length + 2 := by
  classical
  unfold dagMeasure
  have hfe : (dagKeyFinset d).filter (fun k => k ∉ ([] : List Nat)) =
      dagKeyFinset d := by
    apply Finset.filter_true_of_mem
    intro _ _
    simp
  rw [hfe, Finset.sum_add_distrib]
  have h1 : ∑ k ∈ dagKeyFinset d, (childrenOf d k).length ≤
      d.totalChildLen := by
    obtain ⟨ns⟩ := d
    exact sum_childrenOf_le_totalChildLen ns
  have h2 : ∑ _k ∈ dagKeyFinset d, 1 = (dagKeyFinset d).card :=
    (Finset.card_eq_sum_ones _).symm
  have h3 : (dagKeyFinset d).card ≤ d.nodes.length := by
    unfold dagKeyFinset
    refine le_trans (List.toFinset_card_le _) ?_
    simp
  simp only [List.length_cons, List.length_nil]
  omega

theorem dag_would_create_cycle_false {d : PathwayDAG} {c p : Nat}
    (hcp : c ≠ p) (h : dag_would_create_cycle d c p = false) :
    ¬ Relation.ReflTransGen (dagEdge d) c p := by
  unfold dag_would_create_cycle at h
  refine dagCycleDfs_false d p _ [c] [] (dag_fuel_ok d c)
    (by simpa using Ne.symm hcp) (by simp) ?_ h c (Or.inl (by simp))
  intro v hv
  exact absurd hv (List.not_mem_nil _)

theorem transGen_union_decomp {r : Nat → Nat → Prop} {p c : Nat} :
    ∀ {a b : Nat},
      Relation.TransGen (fun x y => r x y ∨ (x = p ∧ y = c)) a b →
      Relation.TransGen r a b ∨
        (Relation.ReflTransGen r a p ∧ Relation.ReflTransGen r c b) := by
  intro a b h
  induction h with
  | single hs =>
      rcases hs with hs | ⟨rfl, rfl⟩
      · exact Or.inl (Relation.TransGen.single hs)
      · exact Or.inr ⟨Relation.ReflTransGen.refl, Relation.ReflTransGen.refl⟩
  | tail _ hs ih =>
      rcases hs with hs | ⟨rfl, rfl⟩
      · rcases ih with ih | ⟨h1, h2⟩
        · exact Or.inl (Relation.TransGen.tail ih hs)
        · exact Or.inr ⟨h1, Relation.ReflTransGen.tail h2 hs⟩
      · rcases ih with ih | ⟨h1, _⟩
        · exact Or.inr ⟨ih.to_reflTransGen, Relation.ReflTransGen.refl⟩
        · exact Or.inr ⟨h1, Relation.ReflTransGen.refl⟩

theorem find?_id_map_replace (node : PathwayNode) (j : Nat)
    (h : j ≠ node.id) :
    ∀ ns : List PathwayNode,
      (ns.map (fun n => if n.id = node.id then node else n)).find?
        (fun n => n.id == j) = ns.find? (fun n => n.id == j) := by
  intro ns
  induction ns with
  | nil => rfl
  | cons n t ih =>
      rw [List.map_cons]
      by_cases hn : n.id = node.id
      · rw [if_pos hn]
        rw [List.find?_cons_of_neg _ (by simpa using Ne.symm h),
          List.find?_cons_of_neg _
            (by simpa using fun (he : n.id = j) => h (he ▸ hn))]
        exact ih
      · rw [if_neg hn]
        by_cases hj : n.id = j
        · rw [List.find?_cons_of_pos _ (by simpa using hj),
            List.find?_cons_of_pos _ (by simpa using hj)]
        · rw [List.find?_cons_of_neg _ (by simpa using hj),
            List.find?_cons_of_neg _ (by simpa using hj)]
          exact ih

theorem find?_id_map_upd (i j : Nat) (f : PathwayNode → PathwayNode)
    (hfid : ∀ n, (f n).id = n.id) (h : j ≠ i) :
    ∀ ns : List PathwayNode,
      (ns.map (fun n => if n.id = i then f n else n)).find?
        (fun n => n.id == j) = ns.find? (fun n => n.id == j) := by
  intro ns
  induction ns with
  | nil => rfl
  | cons n t ih =>
      rw [List.map_cons]
      by_cases hn : n.id = i
      · rw [if_pos hn]
        rw [List.find?_cons_of_neg _
            (by rw [hfid n]
                simpa using fun (he : n.id = j) => h (he ▸ hn)),
          List.find?_cons_of_neg _
            (by simpa using fun (he : n.id = j) => h (he ▸ hn))]
        exact ih
      · rw [if_neg hn]
        by_cases hj : n.id = j
        · rw [List.find?_cons_of_pos _ (by simpa using hj),
            List.find?_cons_of_pos _ (by simpa using hj)]
        · rw [List.find?_cons_of_neg _ (by simpa using hj),
            List.find?_cons_of_neg _ (by simpa using hj)]
          exact ih

theorem find?_id_map_upd_self (i : Nat) (f : PathwayNode → PathwayNode)
    (hfid : ∀ n, (f n).id = n.id) :
    ∀ ns : List PathwayNode,
      (ns.map (fun n => if n.id = i then f n else n)).find?
        (fun n => n.id == i) =
        (ns.find? (fun n => n.id == i)).map f := by
  intro ns
  induction ns with
  | nil => rfl
  | cons n t ih =>
      rw [List.map_cons]
      by_cases hn : n.id = i
      · rw [if_pos hn]
        rw [List.find?_cons_of_pos _ (by rw [hfid n]; simpa using hn),
          List.find?_cons_of_pos _ (by simpa using hn)]
        rfl
      · rw [if_neg hn]
        rw [List.find?_cons_of_neg _ (by simpa using hn),
          List.find?_cons_of_neg _ (by simpa using hn)]
        exact ih

theorem find?_id_map_replace_self (node : PathwayNode) :
    ∀ ns : List PathwayNode,
      (ns.find? (fun n => n.id == node.id)).isSome →
      (ns.map (fun n => if n.id = node.id then node else n)).find?
        (fun n => n.id == node.id) = some node := by
  intro ns
  induction ns with
  | nil =>
      intro h
      simp [List.find?] at h
  | cons n t ih =>
      intro h
      rw [List.map_cons]
      by_cases hn : n.id = node.id
      · rw [if_pos hn, List.find?_cons_of_pos _ (by simp)]
      · rw [if_neg hn, List.find?_cons_of_neg _ (by simpa using hn)]
        rw [List.find?_cons_of_neg _ (by simpa using hn)] at h
        exact ih h

theorem get?_updNode {d : PathwayDAG} {i : Nat}
    {f : PathwayNode → PathwayNode} (hfid : ∀ n, (f n).id = n.id)
    (j : Nat) :
    (d.updNode i f).get? j =
      if j = i then (d.get? i).map f else d.get? j := by
  unfold PathwayDAG.updNode PathwayDAG.get?
  by_cases hj : j = i
  · rw [if_pos hj]
    subst hj
    exact find?_id_map_upd_self j f hfid d.nodes
  · rw [if_neg hj]
    exact find?_id_map_upd i j f hfid hj d.nodes

theorem get?_setNode_self {d : PathwayDAG} (node : PathwayNode) :
    (d.setNode node).get? node.id = some node := by
  unfold PathwayDAG.setNode
  split
  · next hsome =>
      unfold PathwayDAG.get? at hsome ⊢
      exact find?_id_map_replace_self node d.nodes hsome
  · next hnone =>
      unfold PathwayDAG.get? at hnone ⊢
      rw [List.find?_append]
      rw [Option.not_isSome_iff_eq_none.1 hnone]
      rw [List.find?_cons_of_pos _ (by simp)]
      rfl

theorem get?_setNode_other {d : PathwayDAG} (node : PathwayNode)
    {j : Nat} (h : j ≠ node.id) :
    (d.setNode node).get? j = d.get? j := by
  unfold PathwayDAG.setNode
  split
  · unfold PathwayDAG.get?
    exact find?_id_map_replace node j h d.nodes
  · unfold PathwayDAG.get?
    rw [List.find?_append,
      List.find?_cons_of_neg _ (by simpa using Ne.symm h)]
    cases d.nodes.find? (fun n => n.id == j) <;> rfl

theorem dagAcyclic_mono {d d' : PathwayDAG}
    (hsub : ∀ a b, dagEdge d' a b → dagEdge d a b)
    (h : DagAcyclic d) : DagAcyclic d' := by
  intro x hx
  exact h x (Relation.TransGen.mono hsub hx)

theorem dagAcyclic_addNode {d : PathwayDAG} (h : DagAcyclic d)
    (i : Nat) (name : String) : DagAcyclic (d.add_node i name) := by
  refine dagAcyclic_mono ?_ h
  intro a b hab
  rw [dagEdge_iff] at hab ⊢
  by_cases ha : a = i
  · subst ha
    unfold PathwayDAG.add_node at hab
    have := get?_setNode_self (d := d)
      ({ id := a, name := name } : PathwayNode)
    rw [show ({ id := a, name := name } : PathwayNode).id = a from rfl]
      at this
    unfold childrenOf at hab
    rw [this] at hab
    simp at hab
  · unfold PathwayDAG.add_node at hab
    unfold childrenOf at hab ⊢
    rw [get?_setNode_other _ ha] at hab
    exact hab

theorem mem_getD_map_children {o : Option PathwayNode}
    {g : PathwayNode → PathwayNode}
    (hg : ∀ n, ∀ b ∈ (g n).child_ids, b ∈ n.child_ids) {b : Nat}
    (hb : b ∈ (Option.map PathwayNode.child_ids (o.map g)).getD []) :
    b ∈ (Option.map PathwayNode.child_ids o).getD [] := by
  cases o with
  | none => simp at hb
  | some n => simpa using hg n b (by simpa using hb)

theorem dagAcyclic_removeEdge {d : PathwayDAG} (h : DagAcyclic d)
    (c p : Nat) : DagAcyclic (d.remove_edge c p).2 := by
  unfold PathwayDAG.remove_edge
  split
  · exact h
  · refine dagAcyclic_mono ?_ h
    intro a b hab
    rw [dagEdge_iff] at hab ⊢
    unfold childrenOf at hab ⊢
    dsimp only [] at hab
    rw [get?_updNode (f := fun n =>
        { n with child_ids := n.child_ids.filter (fun x => x ≠ c) })
      (fun n => rfl) a] at hab
    by_cases hap : a = p
    · rw [if_pos hap] at hab
      rw [get?_updNode (f := fun n =>
          { n with parent_ids := n.parent_ids.filter (fun x => x ≠ p) })
        (fun n => rfl) p] at hab
      by_cases hpc : p = c
      · rw [if_pos hpc] at hab
        have h1 := mem_getD_map_children
          (fun n b hb => List.mem_of_mem_filter hb) hab
        have h2 := mem_getD_map_children (g := fun n =>
            { n with parent_ids := n.parent_ids.filter (fun x => x ≠ p) })
          (fun n b hb => hb) h1
        rw [hap, hpc]
        exact h2
      · rw [if_neg hpc] at hab
        have h1 := mem_getD_map_children
          (fun n b hb => List.mem_of_mem_filter hb) hab
        rw [hap]
        exact h1
    · rw [if_neg hap] at hab
      rw [get?_updNode (f := fun n =>
          { n with parent_ids := n.parent_ids.filter (fun x => x ≠ p) })
        (fun n => rfl) a] at hab
      by_cases hac : a = c
      · rw [if_pos hac] at hab
        have h1 := mem_getD_map_children (g := fun n =>
            { n with parent_ids := n.parent_ids.filter (fun x => x ≠ p) })
          (fun n b hb => hb) hab
        rw [hac]
        exact h1
      · rw [if_neg hac] at hab
        exact hab

theorem mem_getD_map_children_app {c : Nat} {o : Option PathwayNode}
    {g : PathwayNode → PathwayNode}
    (hg : ∀ n, ∀ b ∈ (g n).child_ids, b ∈ n.child_ids ∨ b = c) {b : Nat}
    (hb : b ∈ (Option.map PathwayNode.child_ids (o.map g)).getD []) :
    b ∈ (Option.map PathwayNode.child_ids o).getD [] ∨ b = c := by
  cases o with
  | none => simp at hb
  | some n =>
      rcases hg n b (by simpa using hb) with h | h
      · exact Or.inl (by simpa using h)
      · exact Or.inr h

theorem dagAcyclic_addEdge {d : PathwayDAG} (h : DagAcyclic d)
    (c p : Nat) : DagAcyclic (d.add_edge c p).2 := by
  unfold PathwayDAG.add_edge
  split
  · exact h
  · split
    · exact h
    · next hcp =>
        split
        · exact h
        · next hdfs =>
            have hdfalse : dag_would_create_cycle d c p = false := by
              revert hdfs
              cases dag_would_create_cycle d c p <;> simp
            have hnreach := dag_would_create_cycle_false hcp hdfalse
            dsimp only []
            have hg2 : ∀ n : PathwayNode, ∀ b ∈
                ((fun n => if c ∈ n.child_ids then n
                  else { n with child_ids := n.child_ids ++ [c] })
                  n).child_ids,
                b ∈ n.child_ids ∨ b = c := by
              intro n b hb
              dsimp only [] at hb
              by_cases hc : c ∈ n.child_ids
              · rw [if_pos hc] at hb
                exact Or.inl hb
              · rw [if_neg hc] at hb
                rcases List.mem_append.1 hb with hm | hm
                · exact Or.inl hm
                · rw [List.mem_singleton] at hm
                  exact Or.inr hm
            have hsub : ∀ a b,
                dagEdge ((d.updNode c fun n =>
                    if p ∈ n.parent_ids then n
                    else { n with parent_ids := n.parent_ids ++ [p] }).updNode
                  p (fun n =>
                    if c ∈ n.child_ids then n
                    else { n with child_ids := n.child_ids ++ [c] })) a b →
                dagEdge d a b ∨ (a = p ∧ b = c) := by
              intro a b hab
              rw [dagEdge_iff] at hab
              rw [dagEdge_iff]
              unfold childrenOf at hab ⊢
              rw [get?_updNode (f := fun n =>
                  if c ∈ n.child_ids then n
                  else { n with child_ids := n.child_ids ++ [c] })
                (fun n => by dsimp only []; split <;> rfl) a] at hab
              by_cases hap : a = p
              · rw [if_pos hap] at hab
                rw [get?_updNode (f := fun n =>
                    if p ∈ n.parent_ids then n
                    else { n with parent_ids := n.parent_ids ++ [p] })
                  (fun n => by dsimp only []; split <;> rfl) p] at hab
                by_cases hpc : p = c
                · rw [if_pos hpc] at hab
                  rcases mem_getD_map_children_app hg2 hab with hm | hm
                  · have h1 := mem_getD_map_children (g := fun n =>
                        if p ∈ n.parent_ids then n
                        else { n with parent_ids := n.parent_ids ++ [p] })
                      (fun n b hb => by
                        revert hb
                        dsimp only []
                        split <;> exact id) hm
                    rw [hap, hpc]
                    exact Or.inl h1
                  · exact Or.inr ⟨hap, hm⟩
                · rw [if_neg hpc] at hab
                  rcases mem_getD_map_children_app hg2 hab with hm | hm
                  · rw [hap]
                    exact Or.inl hm
                  · exact Or.inr ⟨hap, hm⟩
              · rw [if_neg hap] at hab
                rw [get?_updNode (f := fun n =>
                    if p ∈ n.parent_ids then n
                    else { n with parent_ids := n.parent_ids ++ [p] })
                  (fun n => by dsimp only []; split <;> rfl) a] at hab
                by_cases hac : a = c
                · rw [if_pos hac] at hab
                  have h1 := mem_getD_map_children (g := fun n =>
                      if p ∈ n.parent_ids then n
                      else { n with parent_ids := n.parent_ids ++ [p] })
                    (fun n b hb => by
                      revert hb
                      dsimp only []
                      split <;> exact id) hab
                  rw [hac]
                  exact Or.inl h1
                · rw [if_neg hac] at hab
                  exact Or.inl hab
            intro x hx
            have h2 : Relation.TransGen
                (fun u v => dagEdge d u v ∨ (u = p ∧ v = c)) x x :=
              Relation.TransGen.mono hsub hx
            rcases transGen_union_decomp h2 with hcyc | ⟨hxp, hcx⟩
            · exact h x hcyc
            · exact hnreach (Relation.ReflTransGen.trans hcx hxp)

theorem dagAcyclic_empty : DagAcyclic ⟨[]⟩ := by
  intro x hx
  rcases (Relation.TransGen.head'_iff).1 hx with ⟨b, hb, _⟩
  rw [dagEdge_iff] at hb
  unfold childrenOf PathwayDAG.get? at hb
  simp [List.find?] at hb

theorem dagAcyclic_applyDagOp {d : PathwayDAG} (h : DagAcyclic d)
    (op : DagOp) : DagAcyclic (applyDagOp d op) := by
  cases op with
  | addNode i name => exact dagAcyclic_addNode h i name
  | addEdge c p => exact dagAcyclic_addEdge h c p
  | removeEdge c p => exact dagAcyclic_removeEdge h c p

theorem buildDag_foldl_acyclic :
    ∀ (ops : List DagOp) (d : PathwayDAG), DagAcyclic d →
      DagAcyclic (ops.foldl applyDagOp d) := by
  intro ops
  induction ops with
  | nil => intro d h; exact h
  | cons op t ih =>
      intro d h
      rw [List.foldl_cons]
      exact ih _ (dagAcyclic_applyDagOp h op)

theorem buildDag_acyclic (ops : List DagOp) :
    DagAcyclic (buildDag ops) :=
  buildDag_foldl_acyclic ops ⟨[]⟩ dagAcyclic_empty

theorem colorOf_setColor_self (cm : List (Nat × Nat)) (i v : Nat) :
    colorOf (setColor cm i v) i = v := by
  induction cm with
  | nil => simp [setColor, colorOf, List.lookup]
  | cons kv t ih =>
      obtain ⟨k, w⟩ := kv
      unfold setColor
      by_cases hk : k = i
      · rw [if_pos hk]
        subst hk
        unfold colorOf
        rw [lookup_cons_self]
        rfl
      · rw [if_neg hk]
        unfold colorOf at ih ⊢
        rw [lookup_cons_ne _ _ (fun he => hk he.symm)]
        exact ih

theorem colorOf_setColor_ne (cm : List (Nat × Nat)) {i x : Nat} (v : Nat)
    (h : x ≠ i) : colorOf (setColor cm i v) x = colorOf cm x := by
  induction cm with
  | nil =>
      unfold setColor colorOf
      rw [lookup_cons_ne _ _ h]
  | cons kv t ih =>
      obtain ⟨k, w⟩ := kv
      unfold setColor
      by_cases hk : k = i
      · rw [if_pos hk]
        subst hk
        unfold colorOf
        rw [lookup_cons_ne _ _ h, lookup_cons_ne _ _ h]
      · rw [if_neg hk]
        unfold colorOf at ih ⊢
        by_cases hxk : x = k
        · subst hxk
          rw [lookup_cons_self, lookup_cons_self]
        · rw [lookup_cons_ne _ _ hxk, lookup_cons_ne _ _ hxk]
          exact ih

theorem colorOf_init_white (ns : List PathwayNode) (x : Nat) :
    colorOf (ns.map (fun n => (n.id, dagWHITE))) x ≠ dagGRAY := by
  induction ns with
  | nil => simp [colorOf, List.lookup, dagWHITE, dagGRAY]
  | cons n t ih =>
      rw [List.map_cons]
      unfold colorOf at ih ⊢
      by_cases hx : x = n.id
      · subst hx
        rw [lookup_cons_self]
        decide
      · rw [lookup_cons_ne _ _ hx]
        exact ih

theorem dcGo_inv (d : PathwayDAG) (hacyc : DagAcyclic d) :
    ∀ (fuel : Nat) (foc : Sum (Nat × List Nat) (List Nat × Nat × List Nat))
      (st : List (Nat × Nat) × List (List Nat)),
      (match foc with
       | Sum.inl (node, _) =>
           colorOf st.1 node ≠ dagGRAY ∧
           ∀ g, colorOf st.1 g = dagGRAY →
             Relation.ReflTransGen (dagEdge d) g node
       | Sum.inr (cs, node, _) =>
           (∀ c ∈ cs, dagEdge d node c) ∧
           ∀ g, colorOf st.1 g = dagGRAY →
             Relation.ReflTransGen (dagEdge d) g node) →
      (dcGo d fuel foc st).2 = st.2 ∧
      (∀ x, colorOf (dcGo d fuel foc st).1 x = dagGRAY ↔
        colorOf st.1 x = dagGRAY) := by
  intro fuel
  induction fuel with
  | zero => intro foc st _; exact ⟨rfl, fun x => Iff.rfl⟩
  | succ n ih =>
      intro foc st hpre
      match foc with
      | Sum.inl (node, path) =>
          obtain ⟨hng, hjust⟩ := hpre
          have hpre₂ : (∀ c ∈ ((d.get? node).map
              PathwayNode.child_ids).getD [], dagEdge d node c) ∧
              ∀ g, colorOf (setColor st.1 node dagGRAY, st.2).1 g =
                dagGRAY → Relation.ReflTransGen (dagEdge d) g node := by
            constructor
            · intro c hc
              exact hc
            · intro g hg
              by_cases hgn : g = node
              · subst hgn
                exact Relation.ReflTransGen.refl
              · rw [colorOf_setColor_ne _ _ hgn] at hg
                exact hjust g hg
          have h₂ := ih (Sum.inr (((d.get? node).map
              PathwayNode.child_ids).getD [], node, path))
            (setColor st.1 node dagGRAY, st.2) hpre₂
          rw [dcGo]
          dsimp only []
          constructor
          · exact h₂.1
          · intro x
            by_cases hxn : x = node
            · subst hxn
              rw [colorOf_setColor_self]
              constructor
              · intro hb
                exact absurd hb (by decide)
              · intro hg
                exact absurd hg hng
            · rw [colorOf_setColor_ne _ _ hxn, h₂.2 x,
                colorOf_setColor_ne _ _ hxn]
      | Sum.inr ([], node, path) => exact ⟨rfl, fun x => Iff.rfl⟩
      | Sum.inr (c :: cs, node, path) =>
          obtain ⟨hcs, hjust⟩ := hpre
          rw [dcGo]
          by_cases hg : colorOf st.1 c = dagGRAY
          · exact absurd (Relation.TransGen.head'
              (hcs c (List.mem_cons_self _ _)) (hjust c hg)) (hacyc node)
          · rw [if_neg hg]
            by_cases hw : colorOf st.1 c = dagWHITE
            · rw [if_pos hw]
              dsimp only []
              have hpre₁ : colorOf st.1 c ≠ dagGRAY ∧
                  ∀ g, colorOf st.1 g = dagGRAY →
                    Relation.ReflTransGen (dagEdge d) g c := by
                refine ⟨hg, ?_⟩
                intro g hgg
                exact Relation.ReflTransGen.tail (hjust g hgg)
                  (hcs c (List.mem_cons_self _ _))
              have h₁ := ih (Sum.inl (c, path ++ [c])) st hpre₁
              have hpre₂ : (∀ x ∈ cs, dagEdge d node x) ∧
                  ∀ g, colorOf (dcGo d n (Sum.inl (c, path ++ [c]))
                    st).1 g = dagGRAY →
                    Relation.ReflTransGen (dagEdge d) g node := by
                refine ⟨fun x hx => hcs x (List.mem_cons_of_mem _ hx), ?_⟩
                intro g hgg
                exact hjust g ((h₁.2 g).1 hgg)
              have h₂ := ih (Sum.inr (cs, node, path))
                (dcGo d n (Sum.inl (c, path ++ [c])) st) hpre₂
              exact ⟨h₂.1.trans h₁.1, fun x => (h₂.2 x).trans (h₁.2 x)⟩
            · rw [if_neg hw]
              exact ih (Sum.inr (cs, node, path)) st
                ⟨fun x hx => hcs x (List.mem_cons_of_mem _ hx), hjust⟩

theorem detect_cycles_of_acyclic {d : PathwayDAG}
    (hacyc : DagAcyclic d) : d.detect_cycles = [] := by
  unfold PathwayDAG.detect_cycles
  dsimp only []
  suffices h : ∀ (ids : List Nat)
      (st : List (Nat × Nat) × List (List Nat)),
      st.2 = [] → (∀ x, colorOf st.1 x ≠ dagGRAY) →
      (ids.foldl (fun st nid =>
        if colorOf st.1 nid = dagWHITE then
          dcGo d ((d.nodes.length + 1) * (d.totalChildLen + 2))
            (Sum.inl (nid, [nid])) st
        else st) st).2 = [] by
    exact h _ _ rfl (colorOf_init_white d.nodes)
  intro ids
  induction ids with
  | nil => intro st h _; exact h
  | cons nid t ihs =>
      intro st h1 h2
      rw [List.foldl_cons]
      by_cases hw : colorOf st.1 nid = dagWHITE
      · rw [if_pos hw]
        have hinv := dcGo_inv d hacyc
          ((d.nodes.length + 1) * (d.totalChildLen + 2))
          (Sum.inl (nid, [nid])) st
          ⟨h2 nid, fun g hg => absurd hg (h2 g)⟩
        exact ihs _ (hinv.1.trans h1)
          (fun x hx => h2 x ((hinv.2 x).1 hx))
      · rw [if_neg hw]
        exact ihs st h1 h2

theorem add_edge_rejects (d : PathwayDAG) (c p : Nat)
    (h : (d.get? c).isNone = true ∨ (d.get? p).isNone = true ∨ c = p ∨
      dag_would_create_cycle d c p = true) :
    d.add_edge c p = (false, d) := by
  unfold PathwayDAG.add_edge
  rcases h with h | h | h | h
  · rw [if_pos (Or.inl h)]
  · rw [if_pos (Or.inr h)]
  · by_cases h0 : (d.get? c).isNone = true ∨ (d.get? p).isNone = true
    · rw [if_pos h0]
    · rw [if_neg h0, if_pos h]
  · by_cases h0 : (d.get? c).isNone = true ∨ (d.get? p).isNone = true
    · rw [if_pos h0]
    · rw [if_neg h0]
      by_cases h1 : c = p
      · rw [if_pos h1]
      · rw [if_neg h1, if_pos h]

/-- C10.  Corrected: `add_edge` does return `False` and leave the DAG
untouched whenever an endpoint is missing, the edge is a self-loop, or
it would create a directed cycle; and in every `PathwayDAG` built only
through `add_node`, `add_edge` and `remove_edge` the child-edge
relation is acyclic and `detect_cycles` returns `[]`.  But
`topological_sort` CAN raise on such a DAG: `add_node` on an existing
id replaces the node with fresh empty edge sets while other nodes
still reference it, so the in-degrees (read from `parent_ids`) fall
out of sync with the traversal (which follows `child_ids`) — see the
counterexample. -/
theorem claim_C10_dag_invariants :
    (∀ (d : PathwayDAG) (c p : Nat),
       ((d.get? c).isNone = true ∨ (d.get? p).isNone = true ∨ c = p ∨
         dag_would_create_cycle d c p = true) →
       d.add_edge c p = (false, d)) ∧
    (∀ ops : List DagOp, DagAcyclic (buildDag ops)) ∧
    (∀ ops : List DagOp, (buildDag ops).detect_cycles = []) := by
  refine ⟨add_edge_rejects, buildDag_acyclic, ?_⟩
  intro ops
  exact detect_cycles_of_acyclic (buildDag_acyclic ops)

/-- C10 witness: on the concrete chain `1 → 2 → 3` the proposed edge
`add_edge 1 3` would close a cycle; the theorem's first part rejects
it and leaves the DAG unchanged, and its third part evaluates
`detect_cycles` to `[]`. -/
theorem claim_C10_dag_invariants_witness :
    dag_would_create_cycle (buildDag c10wops) 1 3 = true ∧
    (buildDag c10wops).add_edge 1 3 = (false, buildDag c10wops) ∧
    (buildDag c10wops).detect_cycles = [] := by
  refine ⟨by decide, ?_, ?_⟩
  · exact claim_C10_dag_invariants.1 (buildDag c10wops) 1 3
      (Or.inr (Or.inr (Or.inr (by decide))))
  · exact claim_C10_dag_invariants.2.2 c10wops

/-- C10 counterexample to "`topological_sort` never raises": after
re-registering node 1 (which wipes its edge sets while node 2 still
lists 1 as a parent) and adding the now-uncontested edge `1 → 2`, both
nodes have a positive in-degree, Kahn's queue starts empty, and
`topological_sort` raises (`none`), even though the ops are only
`add_node`/`add_edge` calls and the child relation is still acyclic. -/
theorem claim_C10_counterexample :
    (buildDag c10ops).topological_sort = none ∧
    (buildDag c10ops).detect_cycles = [] := by decide
